import Mathlib

/-! # vs_mxnet: the tiling / stitching engine of `vsMXNet.cpp`

A shallow embedding of `src/vs_mxnet/vsMXNet.cpp` and theorems about it.

Conventions of the embedding.

* C `int` values are `Int`, `size_t` values are `Nat`.  Signed overflow is
  undefined behaviour in the source; the embedding computes in unbounded
  integers, and a theorem that needs a source `int` to be representable says so
  in a hypothesis.  The `mx_uint` product of `mxForward`, an unsigned computation
  whose wrap-around is observable, is modelled with an explicit `% 2 ^ 32`.  The
  product `dstoff_y * stride` of line 252, taken in `unsigned`, is computed
  without wrap-around: the embedding agrees with the code on it when
  `0 ≤ dstoff_y * stride < 2 ^ 32` (see `scatterPlane`).
* A `float *` is an address (`Int`) into a memory `Int → α`; `α` is the pixel
  type (the code only copies pixels, it never computes with them).
* The two `while (true)` loops of `process` take fuel; `none` means the fuel ran
  out before the loop reached its `break`.
* The predictor library (`mx.MXPred*`) and OpenCV's `copyMakeBorder` are not part
  of the repository; they are parameters of the embedding.
-/

namespace VsMXNet

/-! ## Data -/

/-- The geometry fields of `struct mxnetData` (lines 55-68); `vi_width` and
`vi_height` are `vi.width` and `vi.height`. -/
structure mxnetData where
  vi_width : Int
  vi_height : Int
  patch_w : Int
  patch_h : Int
  step_w : Int
  step_h : Int
  pad : Int
  border_type : Int
  output_w : Int
  output_h : Int
  outstep_w : Int
  outstep_h : Int
  frame_w : Int
  frame_h : Int
deriving DecidableEq, Repr

/-- The fields of `VSFormat` the code reads. -/
structure VSFormat where
  numPlanes : Nat
  sampleType : Int
  bitsPerSample : Int
  subSamplingW : Int
  subSamplingH : Int
deriving DecidableEq, Repr

/-- A frame (`VSFrameRef`): plane size, and per plane the stride counted in
pixels (`getStride / sizeof(float)`) and the memory behind `getReadPtr` /
`getWritePtr`, addressed relative to that pointer. -/
structure VSFrame (α : Type) where
  width : Int
  height : Int
  stride : Nat → Int
  data : Nat → Int → α

/-- One iteration of the tile loop: grid index and the source rectangle
`[sx, ex) × [sy, ey)` computed at lines 229-234. -/
structure Tile where
  x : Int
  y : Int
  sx : Int
  ex : Int
  sy : Int
  ey : Int
deriving DecidableEq, Repr

/-! ## Block copy (lines 116-133) -/

/-- The call `memcpy(dstp, srcp, n * sizeof(T))` on disjoint memories: the
destination memory afterwards. -/
def memcpy {α : Type} (dst : Int → α) (dstp : Int) (src : Int → α) (srcp : Int) (n : Nat) :
    Int → α :=
  fun k => if dstp ≤ k ∧ k < dstp + (n : Int) then src (srcp + (k - dstp)) else dst k

/-- The `for` loop of `bitblt` (lines 128-132) with `n` rows still to copy. -/
def bitbltLoop {α : Type} (dst_stride : Int) (src : Int → α) (src_stride : Int)
    (width pad : Nat) : Nat → Int → Int → (Int → α) → (Int → α)
  | 0, _, _, dst => dst
  | n + 1, dstp, srcp, dst =>
    bitbltLoop dst_stride src src_stride width pad n (dstp + dst_stride) (srcp + src_stride)
      (memcpy dst (dstp + (pad : Int)) src srcp width)

/-- The function `bitblt<T>` (lines 116-133): the destination memory after the call. -/
def bitblt {α : Type} (dst : Int → α) (dstp : Int) (dst_stride : Int) (src : Int → α)
    (srcp : Int) (src_stride : Int) (width height pad : Nat) : Int → α :=
  if height = 0 then dst
  else if src_stride = dst_stride ∧ src_stride = (width : Int) then
    memcpy dst dstp src srcp (width * height)
  else
    bitbltLoop dst_stride src src_stride width pad height dstp srcp dst

/-! ## The predictor call (lines 135-170) -/

/-- The predictor API functions `mxForward` calls. -/
inductive MXCall where
  | MXPredSetInput
  | MXPredForward
  | MXPredGetOutputShape
  | MXPredGetOutput
deriving DecidableEq, Repr

/-- What the predictor library answers during one call of `mxForward`: the
return value of each API function, the shape it reports and the data
`MXPredGetOutput` delivers. -/
structure MXPred (α : Type) where
  setInput : Int
  forward : Int
  getOutputShape : Int
  shape : List Nat
  getOutput : Int
  output : Int → α

/-- The loop of line 159: `mx_uint outputSize = 1; outputSize *= shape[i]`,
in 32-bit unsigned arithmetic. -/
def shapeSize (shape : List Nat) : Nat :=
  shape.foldl (fun acc s => (acc * s) % 2 ^ 32) 1

/-- The function `mxForward` (lines 135-170): return value, the patch-output
buffer `d->dstBuffer` afterwards, and the API calls made, in order.  A failed
`MXPredGetOutput` is taken to leave the buffer alone. -/
def mxForward {α : Type} (p : MXPred α) (d : mxnetData) (fmt : VSFormat)
    (dstBuffer : Int → α) : Int × (Int → α) × List MXCall :=
  let ch : Int := fmt.numPlanes
  if p.setInput ≠ 0 then (2, dstBuffer, [.MXPredSetInput])
  else if p.forward ≠ 0 then (2, dstBuffer, [.MXPredSetInput, .MXPredForward])
  else if p.getOutputShape ≠ 0 then
    (2, dstBuffer, [.MXPredSetInput, .MXPredForward, .MXPredGetOutputShape])
  else
    let outputSize := shapeSize p.shape
    if (outputSize : Int) ≠ (d.output_h * d.output_w * ch) % 2 ^ 32 then
      (1, dstBuffer, [.MXPredSetInput, .MXPredForward, .MXPredGetOutputShape])
    else if p.getOutput ≠ 0 then
      (2, dstBuffer, [.MXPredSetInput, .MXPredForward, .MXPredGetOutputShape, .MXPredGetOutput])
    else
      (0, memcpy dstBuffer 0 p.output 0 outputSize,
        [.MXPredSetInput, .MXPredForward, .MXPredGetOutputShape, .MXPredGetOutput])

/-! ## The frame pipeline (lines 172-268) -/

/-- The mutable memory `process` works on: the three buffers of `mxnetData`, the
planes of the destination frame, and two ghost fields: the number of calls of
`mxForward` so far and the predictor API calls made. -/
structure ProcState (α : Type) where
  srcBuffer : Int → α
  dstBuffer : Int → α
  padBuffer : Int → α
  dst : Nat → Int → α
  calls : Nat
  api : List MXCall

/-- The tile with grid index `(x, y)` on a plane of size `width × height`
(lines 229-230 and 233-234). -/
def mkTile (d : mxnetData) (width height x y : Int) : Tile :=
  { x := x, y := y,
    sx := min (x * d.step_w) (width - d.patch_w),
    ex := min (x * d.step_w + d.patch_w) width,
    sy := min (y * d.step_h) (height - d.patch_h),
    ey := min (y * d.step_h + d.patch_h) height }

/-- The inner `while (true)` of `process` (lines 232-260), for an arbitrary loop
body: `body t s` is the pair of a return code and the state; a nonzero code is
the `return err` of line 244. -/
def rowLoop {σ : Type} (d : mxnetData) (width height : Int) (body : Tile → σ → Int × σ)
    (y : Int) : Nat → Int → σ → Option (Int × σ)
  | 0, _, _ => none
  | fuel + 1, x, s =>
    let t := mkTile d width height x y
    let r := body t s
    if r.1 ≠ 0 then some r
    else if t.ex = width then some (0, r.2)
    else rowLoop d width height body y fuel (x + 1) r.2

/-- The outer `while (true)` of `process` (lines 228-265); every row starts at
`x = 0` (lines 227 and 264). -/
def tileLoop {σ : Type} (d : mxnetData) (width height : Int) (body : Tile → σ → Int × σ)
    (fuelX : Nat) : Nat → Int → σ → Option (Int × σ)
  | 0, _, _ => none
  | fuel + 1, y, s =>
    match rowLoop d width height body y fuelX 0 s with
    | none => none
    | some r =>
      if r.1 ≠ 0 then some r
      else if (mkTile d width height 0 y).ey = height then some (0, r.2)
      else tileLoop d width height body fuelX fuel (y + 1) r.2

/-- OpenCV's `cv::BORDER_CONSTANT`; the border constants have the values of
`opencv2/core/base.hpp`. -/
def BORDER_CONSTANT : Int := 0

/-- OpenCV's `cv::BORDER_REPLICATE`. -/
def BORDER_REPLICATE : Int := 1

/-- OpenCV's `cv::BORDER_REFLECT`. -/
def BORDER_REFLECT : Int := 2

/-- OpenCV's `cv::BORDER_WRAP`. -/
def BORDER_WRAP : Int := 3

/-- OpenCV's `cv::BORDER_REFLECT_101`. -/
def BORDER_REFLECT_101 : Int := 4

/-- OpenCV's `cv::BORDER_ISOLATED`. -/
def BORDER_ISOLATED : Int := 16

/-- The type of the parameter standing for `cv::copyMakeBorder` applied in place
to the plane at address `buf` of the pad buffer: border type, memory, `buf`,
rows and columns of the padded plane, margin; the result is the memory
afterwards. -/
abbrev CopyMakeBorder (α : Type) : Type :=
  Int → (Int → α) → Int → Int → Int → Int → (Int → α)

/-- The behaviour of the predictor over one frame: the answers to the `k`-th call
of `mxForward`, given the patch-input buffer submitted by that call. -/
abbrev Predictor (α : Type) : Type :=
  Nat → (Int → α) → MXPred α

/-- The padding branch of the plane loop (lines 191-215) for one plane: the pad
buffer afterwards.  The source frame has size `src.width × src.height`. -/
def padPlane {α : Type} (cvCopyMakeBorder : CopyMakeBorder α) (src : VSFrame α) (d : mxnetData)
    (padBuffer : Int → α) (plane : Nat) : Int → α :=
  let _width := src.width + d.pad * 2
  let _height := src.height + d.pad * 2
  let buf := _width * _height * (plane : Int)
  let pb1 := bitblt padBuffer (buf + _width * d.pad) _width (src.data plane) 0 (src.stride plane)
    src.width.toNat src.height.toNat d.pad.toNat
  cvCopyMakeBorder (Int.lor d.border_type BORDER_ISOLATED) pb1 buf _height _width d.pad

/-- The padding branch run over all planes, in the order of the loop of line 187. -/
def padPlanes {α : Type} (cvCopyMakeBorder : CopyMakeBorder α) (fmt : VSFormat)
    (src : VSFrame α) (d : mxnetData) (padBuffer : Int → α) : Int → α :=
  (List.range fmt.numPlanes).foldl (padPlane cvCopyMakeBorder src d) padBuffer

/-- The planes the tile loop reads (`srcp[plane]`, `srcStride[plane]` after the
loop of lines 187-219): memory, address of the plane in it, stride. -/
structure SrcPlanes (α : Type) where
  mem : Nat → Int → α
  ptr : Nat → Int
  stride : Nat → Int

/-- The values of `srcp` and `srcStride` after lines 187-219; `padBuffer` is the
pad buffer after `padPlanes`.  The `cv::Mat` over the pad buffer is continuous,
so line 211 applies. -/
def srcPlanes {α : Type} (src : VSFrame α) (d : mxnetData) (padBuffer : Int → α) :
    SrcPlanes α :=
  if d.pad > 0 then
    { mem := fun _ => padBuffer,
      ptr := fun plane =>
        (src.width + d.pad * 2) * (src.height + d.pad * 2) * (plane : Int),
      stride := fun _ => src.width + d.pad * 2 }
  else
    { mem := src.data, ptr := fun _ => 0, stride := src.stride }

/-- One round of the extraction loop (lines 237-241): the patch-input buffer
afterwards. -/
def extractPlane {α : Type} (fmt : VSFormat) (d : mxnetData) (sp : SrcPlanes α) (t : Tile)
    (srcBuffer : Int → α) (plane : Nat) : Int → α :=
  let ch : Int := fmt.numPlanes
  let patchSize := d.patch_w * d.patch_h * ch
  let _srcStride := sp.stride plane
  let _srcp := sp.ptr plane + t.sx + _srcStride * t.sy
  bitblt srcBuffer (Int.tdiv patchSize ch * (plane : Int)) d.patch_w (sp.mem plane) _srcp
    _srcStride d.patch_w.toNat d.patch_h.toNat 0

/-- The extraction loop (lines 236-242): the patch-input buffer afterwards. -/
def extract {α : Type} (fmt : VSFormat) (d : mxnetData) (sp : SrcPlanes α) (t : Tile)
    (srcBuffer : Int → α) : Int → α :=
  (List.range fmt.numPlanes).foldl (extractPlane fmt d sp t) srcBuffer

/-- The destination column of tile column `x` (line 248). -/
def dstoff_x (d : mxnetData) (x : Int) : Int :=
  min (d.frame_w - d.output_w) (x * d.outstep_w)

/-- The destination row of tile row `y` (line 249). -/
def dstoff_y (d : mxnetData) (y : Int) : Int :=
  min (d.frame_h - d.output_h) (y * d.outstep_h)

/-- One round of the scatter loop (lines 248-255): the planes of the
destination frame afterwards.  Line 252 multiplies `dstoff_y` by an `unsigned`
stride, so the product there is taken modulo `2 ^ 32`; the embedding computes
it in unbounded integers, which is the same offset exactly when
`0 ≤ dstoff_y * stride < 2 ^ 32`.  A negative `dstoff_y` (an output tile taller
than the output frame) is outside this range. -/
def scatterPlane {α : Type} (fmt : VSFormat) (d : mxnetData) (dstStride : Nat → Int) (t : Tile)
    (dstBuffer : Int → α) (dst : Nat → Int → α) (plane : Nat) : Nat → Int → α :=
  let ch : Int := fmt.numPlanes
  let outputSize := d.output_w * d.output_h * ch
  let stride := dstStride plane
  let dstp := dstoff_x d t.x + dstoff_y d t.y * stride
  Function.update dst plane
    (bitblt (dst plane) dstp stride dstBuffer (Int.tdiv outputSize ch * (plane : Int))
      d.output_w d.output_w.toNat d.output_h.toNat 0)

/-- The scatter loop (lines 247-256): the planes of the destination frame
afterwards. -/
def scatter {α : Type} (fmt : VSFormat) (d : mxnetData) (dstStride : Nat → Int) (t : Tile)
    (dstBuffer : Int → α) (dst : Nat → Int → α) : Nat → Int → α :=
  (List.range fmt.numPlanes).foldl (scatterPlane fmt d dstStride t dstBuffer) dst

/-- The body of the inner loop (lines 236-256): extract, call the predictor,
return its error if any, else scatter. -/
def tileBody {α : Type} (mx : Predictor α) (fmt : VSFormat) (d : mxnetData) (sp : SrcPlanes α)
    (dstStride : Nat → Int) (t : Tile) (s : ProcState α) : Int × ProcState α :=
  let srcBuffer := extract fmt d sp t s.srcBuffer
  let r := mxForward (mx s.calls srcBuffer) d fmt s.dstBuffer
  let s1 : ProcState α :=
    { s with srcBuffer := srcBuffer, dstBuffer := r.2.1, calls := s.calls + 1,
             api := s.api ++ r.2.2 }
  if r.1 ≠ 0 then (r.1, s1)
  else (0, { s1 with dst := scatter fmt d dstStride t s1.dstBuffer s1.dst })

/-- The function `process` (lines 172-268): `none` when the fuel runs out, else
the return value and the memory afterwards.  `dst` is the destination frame as
allocated; the three buffers are those of `d`. -/
def process {α : Type} (mx : Predictor α) (cvCopyMakeBorder : CopyMakeBorder α)
    (fmt : VSFormat) (src dst : VSFrame α) (d : mxnetData)
    (srcBuffer dstBuffer padBuffer : Int → α) (fuel : Nat) : Option (Int × ProcState α) :=
  let s0 : ProcState α :=
    { srcBuffer := srcBuffer, dstBuffer := dstBuffer, padBuffer := padBuffer,
      dst := dst.data, calls := 0, api := [] }
  if fmt.subSamplingH ≠ 0 ∨ fmt.subSamplingW ≠ 0 then some (3, s0)
  else
    let pb := if d.pad > 0 then padPlanes cvCopyMakeBorder fmt src d padBuffer else padBuffer
    let sp := srcPlanes src d pb
    let width := src.width + d.pad * 2
    let height := src.height + d.pad * 2
    tileLoop d width height (tileBody mx fmt d sp dst.stride) fuel fuel 0
      { s0 with padBuffer := pb }

/-- The tiles the loop of `process` visits, in order: the loop run with a body
that only records its tile. -/
def visitedTiles (d : mxnetData) (width height : Int) (fuel : Nat) : Option (List Tile) :=
  (tileLoop d width height (fun t log => (0, log ++ [t])) fuel fuel 0 []).map Prod.snd

/-- The tiles one row of the loop visits: the inner loop run with the recording body. -/
def visitedRow (d : mxnetData) (width height y : Int) (fuel : Nat) : Option (List Tile) :=
  (rowLoop d width height (fun t log => (0, log ++ [t])) y fuel 0 []).map Prod.snd

/-! ## Option handling of `mxCreate` (lines 330-486) -/

/-- The fields of `VSVideoInfo` the code reads. -/
structure VSVideoInfo where
  format : VSFormat
  width : Int
  height : Int
deriving DecidableEq, Repr

/-- The arguments of `Predict` (the `VSMap *in`): an integer option is
`some v` when present; `symbol` and `param` record presence only. -/
structure Options where
  symbol : Bool
  param : Bool
  padding : Option Int
  boder_type : Option Int
  patch_w : Option Int
  patch_h : Option Int
  step_w : Option Int
  step_h : Option Int
  output_w : Option Int
  output_h : Option Int
  frame_w : Option Int
  frame_h : Option Int
  outstep_w : Option Int
  outstep_h : Option Int
  ctx : Option Int
  dev_id : Option Int
deriving DecidableEq, Repr

/-- The configuration errors thrown by lines 343-486, one per `throw`, named
after what the message is about. -/
inductive ConfigError where
  | format
  | subsampling
  | symbol
  | param
  | border_type
  | ctx
  | patch_w
  | patch_h
  | step_w
  | step_h
  | output_w
  | output_h
  | frame_w
  | frame_h
  | outstep_w
  | outstep_h
  | dev_id
deriving DecidableEq, Repr

/-- VapourSynth's `stFloat`. -/
def stFloat : Int := 1

/-- VapourSynth's `isConstantFormat` (`VSHelper.h`): positive size and a format. -/
def isConstantFormat (vi : VSVideoInfo) : Bool :=
  decide (vi.height > 0) && decide (vi.width > 0)

/-- VapourSynth's `int64ToIntS` (`VSHelper.h`): saturating conversion to `int`. -/
def int64ToIntS (i : Int) : Int :=
  if i > 2147483647 then 2147483647
  else if i < -2147483648 then -2147483648
  else i

/-- VapourSynth's `propGetInt`: the value and the error flag; an absent key gives
`0` and sets the flag. -/
def propGetInt (v : Option Int) : Int × Bool :=
  match v with
  | some i => (i, false)
  | none => (0, true)

/-- The function `mxCreate` from its first check to the last check of the
options (lines 343-486): the error thrown, or the geometry stored in `d`.
`mulScale v` stands for the `int` that `v * d.scale` is converted to.  What
follows line 486 (allocation, model files, predictor creation) is outside the
embedding. -/
def mxCreate (mulScale : Int → Int) (vi : VSVideoInfo) (o : Options) :
    Except ConfigError mxnetData :=
  let width := vi.width
  let height := vi.height
  if !isConstantFormat vi ∨ vi.format.sampleType ≠ stFloat ∨ vi.format.bitsPerSample ≠ 32 then
    .error .format
  else if vi.format.subSamplingH ≠ 0 ∨ vi.format.subSamplingW ≠ 0 then .error .subsampling
  else if !o.symbol then .error .symbol
  else if !o.param then .error .param
  else
  -- Padding
  let g := propGetInt o.padding
  let pad := if g.2 then 0 else int64ToIntS g.1
  let width := if g.2 then width else width + 2 * pad
  let height := if g.2 then height else height + 2 * pad
  let g := propGetInt o.boder_type
  let border_type :=
    if pad ≠ 0 then (if g.2 then BORDER_REPLICATE else int64ToIntS g.1) else 0
  if pad ≠ 0 ∧ ¬(border_type = BORDER_CONSTANT ∨ border_type = BORDER_REPLICATE ∨
      border_type = BORDER_REFLECT ∨ border_type = BORDER_WRAP ∨
      border_type = BORDER_REFLECT_101) then .error .border_type
  else
  -- Input size
  let g := propGetInt o.patch_w
  let patch_w := int64ToIntS g.1
  let patch_w := if g.2 ∨ patch_w > width ∨ patch_w = 0 then width else patch_w
  let g := propGetInt o.patch_h
  let patch_h := int64ToIntS g.1
  let patch_h := if g.2 ∨ patch_h > height ∨ patch_h = 0 then height else patch_h
  -- Step size
  let g := propGetInt o.step_w
  let step_w := int64ToIntS g.1
  let step_w := if g.2 ∨ step_w = 0 then patch_w else step_w
  let g := propGetInt o.step_h
  let step_h := int64ToIntS g.1
  let step_h := if g.2 ∨ step_h = 0 then patch_h else step_h
  let step_w := if step_w > width then width else step_w
  let step_h := if step_h > height then height else step_h
  -- Forward output size
  let g := propGetInt o.output_w
  let output_w := int64ToIntS g.1
  let output_w := if g.2 ∨ output_w = 0 then mulScale patch_w else output_w
  let g := propGetInt o.output_h
  let output_h := int64ToIntS g.1
  let output_h := if g.2 ∨ output_h = 0 then mulScale patch_h else output_h
  -- Output frame size
  let g := propGetInt o.frame_w
  let frame_w := int64ToIntS g.1
  let vi_width := if g.2 ∨ frame_w = 0 then mulScale vi.width else frame_w
  let g := propGetInt o.frame_h
  let frame_h := int64ToIntS g.1
  let vi_height := if g.2 ∨ frame_h = 0 then mulScale vi.height else frame_h
  let frame_w := vi_width
  let frame_h := vi_height
  -- Output reconstruct step size
  let g := propGetInt o.outstep_w
  let outstep_w := int64ToIntS g.1
  let outstep_w := if g.2 ∨ step_w = 0 then output_w else outstep_w
  let g := propGetInt o.outstep_h
  let outstep_h := int64ToIntS g.1
  let outstep_h := if g.2 ∨ outstep_h = 0 then output_h else outstep_h
  let outstep_w := if outstep_w > vi_width then vi_width else outstep_w
  let outstep_h := if outstep_h > vi_height then vi_height else outstep_h
  -- MXNet config
  let ctx := int64ToIntS (propGetInt o.ctx).1
  let dev_id := int64ToIntS (propGetInt o.dev_id).1
  if ctx ≠ 1 ∧ ctx ≠ 2 ∧ ctx ≠ 0 then .error .ctx
  else if patch_w < 1 then .error .patch_w
  else if patch_h < 1 then .error .patch_h
  else if step_w < 1 then .error .step_w
  else if step_h < 1 then .error .step_h
  else if output_w < 1 then .error .output_w
  else if output_h < 1 then .error .output_h
  else if vi_width < 1 then .error .frame_w
  else if vi_height < 1 then .error .frame_h
  else if outstep_w < 1 then .error .outstep_w
  else if outstep_h < 1 then .error .outstep_h
  else if dev_id < 0 then .error .dev_id
  else
    .ok { vi_width := vi_width, vi_height := vi_height,
          patch_w := patch_w, patch_h := patch_h, step_w := step_w, step_h := step_h,
          pad := pad, border_type := border_type,
          output_w := output_w, output_h := output_h,
          outstep_w := outstep_w, outstep_h := outstep_h,
          frame_w := frame_w, frame_h := frame_h }

/-- The padded plane size the tile loop of `process` runs on, for a source of
size `vi.width × vi.height` (lines 221-222). -/
def paddedWidth (vi : VSVideoInfo) (d : mxnetData) : Int := vi.width + d.pad * 2

/-- The padded plane height (line 222). -/
def paddedHeight (vi : VSVideoInfo) (d : mxnetData) : Int := vi.height + d.pad * 2

/-! ## Specification-side definitions -/

/-- The least grid index at which a tile of size `patch` advancing by `step`
reaches the end of an axis of length `len`: `⌈(len - patch) / step⌉`. -/
def lastIndex (len patch step : Int) : Nat :=
  ((len - patch + step - 1) / step).toNat

/-- Running a loop body over a list of tiles, stopping at the first nonzero
return code. -/
def runTiles {σ : Type} (body : Tile → σ → Int × σ) : List Tile → σ → Int × σ
  | [], s => (0, s)
  | t :: ts, s => if (body t s).1 ≠ 0 then body t s else runTiles body ts (body t s).2

/-- The tiles of row `y` with grid columns `x0, …, x0 + len - 1`. -/
def rowTiles (d : mxnetData) (width height y : Int) (x0 len : Nat) : List Tile :=
  (List.range' x0 len).map (fun (x : Nat) => mkTile d width height (x : Int) y)

/-- The tiles of the rows `y0, …, y0 + len - 1`, each row with columns `0, …, nx`. -/
def gridTiles (d : mxnetData) (width height : Int) (nx y0 len : Nat) : List Tile :=
  (List.range' y0 len).flatMap (fun (y : Nat) => rowTiles d width height (y : Int) 0 (nx + 1))

/-- The whole grid the loop of `process` walks on a plane of size
`width × height`, row by row. -/
def allTiles (d : mxnetData) (width height : Int) : List Tile :=
  gridTiles d width height (lastIndex width d.patch_w d.step_w) 0
    (lastIndex height d.patch_h d.step_h + 1)

/-- Pixel `(px, py)` lies in the source rectangle of tile `t`. -/
def Tile.covers (t : Tile) (px py : Int) : Prop :=
  t.sx ≤ px ∧ px < t.ex ∧ t.sy ≤ py ∧ py < t.ey

instance (t : Tile) (px py : Int) : Decidable (t.covers px py) := by
  unfold Tile.covers; infer_instance

/-! ## Concrete inputs -/

/-- A configuration with the same geometry on both axes. -/
def squareConfig (patch step output outstep frame pad : Int) : mxnetData :=
  { vi_width := frame, vi_height := frame, patch_w := patch, patch_h := patch,
    step_w := step, step_h := step, pad := pad, border_type := BORDER_REPLICATE,
    output_w := output, output_h := output, outstep_w := outstep, outstep_h := outstep,
    frame_w := frame, frame_h := frame }

/-- Pixel `(px, py)` of the output frame lies in the destination rectangle of
tile `t` (lines 248-255). -/
def Tile.dstCovers (d : mxnetData) (t : Tile) (px py : Int) : Prop :=
  dstoff_x d t.x ≤ px ∧ px < dstoff_x d t.x + d.output_w ∧
    dstoff_y d t.y ≤ py ∧ py < dstoff_y d t.y + d.output_h

instance (d : mxnetData) (t : Tile) (px py : Int) : Decidable (t.dstCovers d px py) := by
  unfold Tile.dstCovers; infer_instance

/-- A float format with `n` planes and no subsampling. -/
def floatFormat (n : Nat) : VSFormat :=
  { numPlanes := n, sampleType := stFloat, bitsPerSample := 32, subSamplingW := 0,
    subSamplingH := 0 }

/-- A 64 × 64 single-plane float clip. -/
def clip64 : VSVideoInfo := { format := floatFormat 1, width := 64, height := 64 }

/-- The arguments `symbol` and `param` alone. -/
def noOptions : Options :=
  { symbol := true, param := true, padding := none, boder_type := none, patch_w := none,
    patch_h := none, step_w := none, step_h := none, output_w := none, output_h := none,
    frame_w := none, frame_h := none, outstep_w := none, outstep_h := none, ctx := none,
    dev_id := none }

/-- A predictor answer that succeeds everywhere and reports the shape
`1024 × 4194305`, whose element count is `2 ^ 32 + 1024`. -/
def wrapPred : MXPred Int :=
  { setInput := 0, forward := 0, getOutputShape := 0, shape := [1024, 4194305],
    getOutput := 0, output := fun _ => 7 }

/-- What `mxCreate` stores for a 64 × 64 clip when only `output_w = 128` is given. -/
def wideOutputConfig : mxnetData :=
  { vi_width := 64, vi_height := 64, patch_w := 64, patch_h := 64, step_w := 64,
    step_h := 64, pad := 0, border_type := 0, output_w := 128, output_h := 64,
    outstep_w := 64, outstep_h := 64, frame_w := 64, frame_h := 64 }

/-- What `mxCreate` stores for a 64 × 64 clip when only `patch_w = 32` and
`outstep_w = 16` are given. -/
def slowOutstepConfig : mxnetData :=
  { vi_width := 64, vi_height := 64, patch_w := 32, patch_h := 64, step_w := 32,
    step_h := 64, pad := 0, border_type := 0, output_w := 32, output_h := 64,
    outstep_w := 16, outstep_h := 64, frame_w := 64, frame_h := 64 }

/-- An answer of the predictor that succeeds, reports a shape of exactly
`output_w * output_h * channels` elements and delivers the `output_w * output_h *
channels` leading elements of the submitted patch-input buffer `sb` unchanged. -/
def IdentityAnswer {α : Type} (d : mxnetData) (fmt : VSFormat) (sb : Int → α) (p : MXPred α) :
    Prop :=
  p.setInput = 0 ∧ p.forward = 0 ∧ p.getOutputShape = 0 ∧ p.getOutput = 0 ∧
    (p.shape.prod : Int) = d.output_w * d.output_h * (fmt.numPlanes : Int) ∧
    ∀ i : Int, 0 ≤ i → i < d.output_w * d.output_h * (fmt.numPlanes : Int) → p.output i = sb i

/-- An identity adapter: every call answers with an `IdentityAnswer`. -/
def IdentityAdapter {α : Type} (d : mxnetData) (fmt : VSFormat) (mx : Predictor α) : Prop :=
  ∀ (k : Nat) (sb : Int → α), IdentityAnswer d fmt sb (mx k sb)

/-- The value tile `t` moves to pixel row `R`, column `C` of plane `c` of the
destination frame when the adapter is the identity and output and patch have
the same size: the source pixel at the same offset inside the tile. -/
def tileSource {α : Type} (d : mxnetData) (sp : SrcPlanes α) (c : Nat) (t : Tile) (R C : Int) : α :=
  sp.mem c (sp.ptr c + t.sx + sp.stride c * t.sy + (R - dstoff_y d t.y) * sp.stride c +
    (C - dstoff_x d t.x))

/-- The value of pixel row `R`, column `C` of plane `c` after the tiles `ts`
have been stitched in order over the initial value `v`: each tile whose
destination rectangle holds the pixel overwrites it. -/
def stitch {α : Type} (d : mxnetData) (sp : SrcPlanes α) (c : Nat) (R C : Int) (ts : List Tile)
    (v : α) : α :=
  ts.foldl (fun v t => if t.dstCovers d C R then tileSource d sp c t R C else v) v

/-- A predictor that succeeds on every call, reports the shape
`1 × channels × output_h × output_w` and returns the submitted buffer. -/
def identityPredictor {α : Type} (d : mxnetData) (fmt : VSFormat) : Predictor α :=
  fun _ sb =>
    { setInput := 0, forward := 0, getOutputShape := 0,
      shape := [1, fmt.numPlanes, d.output_h.toNat, d.output_w.toNat],
      getOutput := 0, output := sb }

/-- A 64 × 64 single-plane frame of stride 64 whose pixel `(r, c)` has the
value `64 * r + c`. -/
def rampFrame : VSFrame Int :=
  { width := 64, height := 64, stride := fun _ => 64, data := fun _ k => k }

/-- A 64 × 64 destination frame of stride 64, as allocated (filled with `-1`). -/
def blankFrame : VSFrame Int :=
  { width := 64, height := 64, stride := fun _ => 64, data := fun _ _ => -1 }

/-- The border stage left out: the memory is returned as it is. -/
def noBorder {α : Type} : CopyMakeBorder α :=
  fun _ mem _ _ _ _ => mem

/-- A model of OpenCV's `cv::copyMakeBorder` with `cv::BORDER_REPLICATE`, applied
in place to a plane of `rows × cols` pixels at address `buf` whose centre (all
but a margin of `pad` pixels) is filled: every pixel of the plane takes the
value of the nearest centre pixel; the memory outside the rows of the plane is
left alone. -/
def copyMakeBorderReplicate {α : Type} : CopyMakeBorder α :=
  fun _ mem buf rows cols pad k =>
    let i := (k - buf) / cols
    let j := (k - buf) % cols
    if 0 ≤ i ∧ i < rows then
      mem (buf + max pad (min i (rows - pad - 1)) * cols + max pad (min j (cols - pad - 1)))
    else mem k

/-- The border stage extends planes by edge replication: after it, pixel
`(i, j)` of the padded plane has the value the nearest pixel of the centre
region had before. -/
def ReplicateBorder {α : Type} (cv : CopyMakeBorder α) : Prop :=
  ∀ (mem : Int → α) (buf rows cols pad i j : Int), 0 ≤ i → i < rows → 0 ≤ j → j < cols →
    cv (Int.lor BORDER_REPLICATE BORDER_ISOLATED) mem buf rows cols pad (buf + i * cols + j) =
      mem (buf + max pad (min i (rows - pad - 1)) * cols + max pad (min j (cols - pad - 1)))

/-- The configuration of the padded end-to-end scenario: patch = step = output =
outstep = 32, output frame 64 × 64, padding 4, edge-replicate border. -/
def paddedConfig : mxnetData := squareConfig 32 32 32 32 64 4

/-- Where the padded scenario reads output coordinate `v` from, along one axis
of the 64-pixel input: 4 pixels before `v` in the first half (clamped at 0),
4 pixels after `v` in the second half (clamped at 63). -/
def shiftedIndex (v : Int) : Int :=
  if v < 32 then max (v - 4) 0 else min (v + 4) 63

/-! ## Option derivation, staged; steps of a round -/

/-- The value `mxCreate` stores for `padding` (lines 358-360). -/
def derivedPad (o : Options) : Int :=
  if (propGetInt o.padding).2 then 0 else int64ToIntS (propGetInt o.padding).1

/-- The value `mxCreate` stores for a patch size on an axis of padded length
`len` (lines 377-383). -/
def derivedPatch (v : Option Int) (len : Int) : Int :=
  if (propGetInt v).2 ∨ int64ToIntS (propGetInt v).1 > len ∨ int64ToIntS (propGetInt v).1 = 0
  then len else int64ToIntS (propGetInt v).1

/-- The value `mxCreate` stores for a step (lines 386-398). -/
def derivedStep (v : Option Int) (patch len : Int) : Int :=
  if (if (propGetInt v).2 ∨ int64ToIntS (propGetInt v).1 = 0 then patch
      else int64ToIntS (propGetInt v).1) > len then len
  else (if (propGetInt v).2 ∨ int64ToIntS (propGetInt v).1 = 0 then patch
      else int64ToIntS (propGetInt v).1)

/-- The value `mxCreate` stores for an output tile size (lines 406-412). -/
def derivedOutput (mulScale : Int → Int) (v : Option Int) (patch : Int) : Int :=
  if (propGetInt v).2 ∨ int64ToIntS (propGetInt v).1 = 0 then mulScale patch
  else int64ToIntS (propGetInt v).1

/-- The value `mxCreate` stores for an output frame size (lines 415-428). -/
def derivedFrame (mulScale : Int → Int) (v : Option Int) (len : Int) : Int :=
  if (propGetInt v).2 ∨ int64ToIntS (propGetInt v).1 = 0 then mulScale len
  else int64ToIntS (propGetInt v).1

/-- The value `mxCreate` stores for `outstep_w` (lines 433-435 and 441-442);
the default is taken when the option is absent or `step_w` is 0. -/
def derivedOutstepW (v : Option Int) (step_w output_w frame_w : Int) : Int :=
  if (if (propGetInt v).2 ∨ step_w = 0 then output_w else int64ToIntS (propGetInt v).1) > frame_w
  then frame_w
  else (if (propGetInt v).2 ∨ step_w = 0 then output_w else int64ToIntS (propGetInt v).1)

/-- The value `mxCreate` stores for `outstep_h` (lines 437-439 and 444-445). -/
def derivedOutstepH (v : Option Int) (output_h frame_h : Int) : Int :=
  if (if (propGetInt v).2 ∨ int64ToIntS (propGetInt v).1 = 0 then output_h
      else int64ToIntS (propGetInt v).1) > frame_h then frame_h
  else (if (propGetInt v).2 ∨ int64ToIntS (propGetInt v).1 = 0 then output_h
      else int64ToIntS (propGetInt v).1)

/-- The padded width computed at lines 358-364. -/
def derivedWidth (vi : VSVideoInfo) (o : Options) : Int :=
  if (propGetInt o.padding).2 then vi.width else vi.width + 2 * derivedPad o

/-- The padded height computed at lines 358-364. -/
def derivedHeight (vi : VSVideoInfo) (o : Options) : Int :=
  if (propGetInt o.padding).2 then vi.height else vi.height + 2 * derivedPad o

/-- The border type stored at lines 366-370. -/
def derivedBorder (o : Options) : Int :=
  if derivedPad o ≠ 0 then
    (if (propGetInt o.boder_type).2 then BORDER_REPLICATE else int64ToIntS (propGetInt o.boder_type).1)
  else 0

/-- The geometry `mxCreate` derives from the options, before validation. -/
def derivedData (mulScale : Int → Int) (vi : VSVideoInfo) (o : Options) : mxnetData :=
  { vi_width := derivedFrame mulScale o.frame_w vi.width,
    vi_height := derivedFrame mulScale o.frame_h vi.height,
    patch_w := derivedPatch o.patch_w (derivedWidth vi o),
    patch_h := derivedPatch o.patch_h (derivedHeight vi o),
    step_w := derivedStep o.step_w (derivedPatch o.patch_w (derivedWidth vi o)) (derivedWidth vi o),
    step_h := derivedStep o.step_h (derivedPatch o.patch_h (derivedHeight vi o)) (derivedHeight vi o),
    pad := derivedPad o,
    border_type := derivedBorder o,
    output_w := derivedOutput mulScale o.output_w (derivedPatch o.patch_w (derivedWidth vi o)),
    output_h := derivedOutput mulScale o.output_h (derivedPatch o.patch_h (derivedHeight vi o)),
    outstep_w := derivedOutstepW o.outstep_w
      (derivedStep o.step_w (derivedPatch o.patch_w (derivedWidth vi o)) (derivedWidth vi o))
      (derivedOutput mulScale o.output_w (derivedPatch o.patch_w (derivedWidth vi o)))
      (derivedFrame mulScale o.frame_w vi.width),
    outstep_h := derivedOutstepH o.outstep_h
      (derivedOutput mulScale o.output_h (derivedPatch o.patch_h (derivedHeight vi o)))
      (derivedFrame mulScale o.frame_h vi.height),
    frame_w := derivedFrame mulScale o.frame_w vi.width,
    frame_h := derivedFrame mulScale o.frame_h vi.height }

/-- What `mxCreate` stores for a 64 × 64 clip when only `padding = -1` is given. -/
def negativePadConfig : mxnetData :=
  { vi_width := 64, vi_height := 64, patch_w := 62, patch_h := 62, step_w := 62,
    step_h := 62, pad := -1, border_type := 1, output_w := 62, output_h := 62,
    outstep_w := 62, outstep_h := 62, frame_w := 64, frame_h := 64 }

/-- What `mxCreate` stores for a 64 × 64 clip when no geometry option is given. -/
def defaultConfig64 : mxnetData :=
  { vi_width := 64, vi_height := 64, patch_w := 64, patch_h := 64, step_w := 64,
    step_h := 64, pad := 0, border_type := 0, output_w := 64, output_h := 64,
    outstep_w := 64, outstep_h := 64, frame_w := 64, frame_h := 64 }

/-- The steps of one round of the adapter protocol, in the order the frame
pipeline takes them. -/
inductive Step where
  | submit
  | forward
  | shapeFetch
  | shapeCheck
  | fetch
deriving DecidableEq, Repr

/-- The return code of `process` when a step fails: 1 for the shape check, 2 for
a failed adapter call. -/
def Step.code : Step → Int
  | .shapeCheck => 1
  | _ => 2

/-- The predictor API calls made in a round that fails at the given step: the
calls up to the failing one, none after it; the shape check is no call. -/
def Step.calls : Step → List MXCall
  | .submit => [.MXPredSetInput]
  | .forward => [.MXPredSetInput, .MXPredForward]
  | .shapeFetch => [.MXPredSetInput, .MXPredForward, .MXPredGetOutputShape]
  | .shapeCheck => [.MXPredSetInput, .MXPredForward, .MXPredGetOutputShape]
  | .fetch => [.MXPredSetInput, .MXPredForward, .MXPredGetOutputShape, .MXPredGetOutput]

/-- The API calls of a round in which every step succeeds. -/
def fullRound : List MXCall :=
  [.MXPredSetInput, .MXPredForward, .MXPredGetOutputShape, .MXPredGetOutput]

/-- The step at which `mxForward` (lines 135-170) gives up in a round answered
by `p`, if any, read off its early returns: a nonzero return of submit, forward
or shape-fetch, the shape test of lines 158-163 as the code computes it (the
32-bit product of line 159 against the expected count), a nonzero return of
fetch.  The step that fails by the specification is `exactFailure`. -/
def firstFailure {α : Type} (d : mxnetData) (fmt : VSFormat) (p : MXPred α) : Option Step :=
  if p.setInput ≠ 0 then some .submit
  else if p.forward ≠ 0 then some .forward
  else if p.getOutputShape ≠ 0 then some .shapeFetch
  else if (shapeSize p.shape : Int) ≠ (d.output_h * d.output_w * (fmt.numPlanes : Int)) % 2 ^ 32 then
    some .shapeCheck
  else if p.getOutput ≠ 0 then some .fetch
  else none

/-- A predictor given as a sequence of per-call answers. -/
def sequencePredictor {α : Type} (answers : Nat → MXPred α) : Predictor α :=
  fun k _ => answers k

/-- The planes the tile loop of `process` reads: the source planes, or the
padded planes when `pad > 0`. -/
def framePlanes {α : Type} (cv : CopyMakeBorder α) (fmt : VSFormat) (src : VSFrame α)
    (d : mxnetData) (padBuffer : Int → α) : SrcPlanes α :=
  srcPlanes src d (if d.pad > 0 then padPlanes cv fmt src d padBuffer else padBuffer)

/-- The memory when the tile loop of `process` starts. -/
def frameStart {α : Type} (cv : CopyMakeBorder α) (fmt : VSFormat) (src dst : VSFrame α)
    (d : mxnetData) (srcBuffer dstBuffer padBuffer : Int → α) : ProcState α :=
  { srcBuffer := srcBuffer, dstBuffer := dstBuffer,
    padBuffer := if d.pad > 0 then padPlanes cv fmt src d padBuffer else padBuffer,
    dst := dst.data, calls := 0, api := [] }

/-- Answers that succeed on every call but the second, whose forward pass
fails; the shape reported is `1 × 1 × 32 × 32`. -/
def secondCallFails : Nat → MXPred Int :=
  fun k =>
    { setInput := 0, forward := if k = 1 then -1 else 0, getOutputShape := 0,
      shape := [1, 1, 32, 32], getOutput := 0, output := fun _ => 0 }

/-! ## The contract of a round, written from the specification -/

/-- The element count of a reported shape, computed exactly: the product of the
dimensions. -/
def shapeCount (shape : List Nat) : Nat := shape.prod

/-- The first step that fails in a round answered by `p` when the shape check is
the exact one the specification asks for: the reported element count, computed
without wrap-around, must equal `output_h * output_w * channels`.  Submit,
forward, shape-fetch and fetch are as in `firstFailure`. -/
def exactFailure {α : Type} (d : mxnetData) (fmt : VSFormat) (p : MXPred α) : Option Step :=
  if p.setInput ≠ 0 then some .submit
  else if p.forward ≠ 0 then some .forward
  else if p.getOutputShape ≠ 0 then some .shapeFetch
  else if (shapeCount p.shape : Int) ≠ d.output_h * d.output_w * (fmt.numPlanes : Int) then
    some .shapeCheck
  else if p.getOutput ≠ 0 then some .fetch
  else none

/-- The patch-input buffer in the channel-major layout, written from the
specification: each channel `c` owns the block of `patch_w * patch_h` elements
starting at `c * patch_w * patch_h`, and element `r * patch_w + k` of that block
is pixel `(sy + r, sx + k)` of plane `c`; outside the `channels` blocks the
buffer keeps the content `srcBuffer` it was allocated with. -/
def patchInput {α : Type} (fmt : VSFormat) (d : mxnetData) (sp : SrcPlanes α) (t : Tile)
    (srcBuffer : Int → α) : Int → α :=
  fun i =>
    if 0 ≤ i ∧ i < d.patch_w * d.patch_h * (fmt.numPlanes : Int) then
      sp.mem (i / (d.patch_w * d.patch_h)).toNat
        (sp.ptr (i / (d.patch_w * d.patch_h)).toNat +
          ((t.sy + i % (d.patch_w * d.patch_h) / d.patch_w) *
              sp.stride (i / (d.patch_w * d.patch_h)).toNat +
            t.sx + i % (d.patch_w * d.patch_h) % d.patch_w))
    else srcBuffer i

/-- The answers of the predictor `mx` over one frame when its `k`-th call is
handed the channel-major patch of the `k`-th tile of `tiles`. -/
def patchAnswers {α : Type} (mx : Predictor α) (fmt : VSFormat) (d : mxnetData)
    (sp : SrcPlanes α) (tiles : List Tile) (srcBuffer : Int → α) : Nat → MXPred α :=
  fun k =>
    match tiles[k]? with
    | some t => mx k (patchInput fmt d sp t srcBuffer)
    | none => mx k srcBuffer

/-! ## The tile loop walks the grid -/

theorem lastIndex_le_iff {len patch step : Int} (hs : 1 ≤ step) (hp : patch ≤ len) (x : Nat) :
    lastIndex len patch step ≤ x ↔ len ≤ (x : Int) * step + patch := by
  unfold lastIndex
  have hq : 0 ≤ (len - patch + step - 1) / step :=
    Int.ediv_nonneg (by omega) (by omega)
  have h1 : ((len - patch + step - 1) / step).toNat ≤ x ↔
      (len - patch + step - 1) / step < (x : Int) + 1 := by omega
  rw [h1, Int.ediv_lt_iff_lt_mul (by omega : (0 : Int) < step)]
  constructor <;> intro h <;> nlinarith

theorem ex_eq_width_iff {d : mxnetData} {width height : Int} (hs : 1 ≤ d.step_w)
    (hp : d.patch_w ≤ width) (x : Nat) (y : Int) :
    (mkTile d width height (x : Int) y).ex = width ↔
      lastIndex width d.patch_w d.step_w ≤ x := by
  rw [lastIndex_le_iff hs hp]
  simp only [mkTile]
  constructor
  · intro h
    have := min_le_left ((x : Int) * d.step_w + d.patch_w) width
    omega
  · intro h
    exact min_eq_right h

theorem ey_eq_height_iff {d : mxnetData} {width height : Int} (hs : 1 ≤ d.step_h)
    (hp : d.patch_h ≤ height) (x : Int) (y : Nat) :
    (mkTile d width height x (y : Int)).ey = height ↔
      lastIndex height d.patch_h d.step_h ≤ y := by
  rw [lastIndex_le_iff hs hp]
  simp only [mkTile]
  constructor
  · intro h
    have := min_le_left ((y : Int) * d.step_h + d.patch_h) height
    omega
  · intro h
    exact min_eq_right h

theorem runTiles_append {σ : Type} (body : Tile → σ → Int × σ) (l1 l2 : List Tile) (s : σ) :
    runTiles body (l1 ++ l2) s =
      if (runTiles body l1 s).1 ≠ 0 then runTiles body l1 s
      else runTiles body l2 (runTiles body l1 s).2 := by
  induction l1 generalizing s with
  | nil => simp [runTiles]
  | cons t ts ih =>
    simp only [List.cons_append, runTiles]
    by_cases h : (body t s).1 ≠ 0
    · simp [h]
    · simp only [h, if_false]
      exact ih _

theorem rowLoop_eq {σ : Type} (d : mxnetData) (width height : Int)
    (body : Tile → σ → Int × σ) (y : Int) (hs : 1 ≤ d.step_w) (hp : d.patch_w ≤ width) :
    ∀ (n x0 fuel : Nat) (s : σ), x0 + n = lastIndex width d.patch_w d.step_w → n < fuel →
      rowLoop d width height body y fuel (x0 : Int) s =
        some (runTiles body (rowTiles d width height y x0 (n + 1)) s) := by
  intro n
  induction n with
  | zero =>
    intro x0 fuel s hx hf
    obtain ⟨f, rfl⟩ : ∃ f, fuel = f + 1 := ⟨fuel - 1, by omega⟩
    have hex : (mkTile d width height (x0 : Int) y).ex = width :=
      (ex_eq_width_iff hs hp x0 y).2 (by omega)
    simp only [rowLoop, rowTiles, List.range', List.map, runTiles]
    by_cases h : (body (mkTile d width height (x0 : Int) y) s).1 ≠ 0
    · simp [h]
    · simp [h, hex]
  | succ n ih =>
    intro x0 fuel s hx hf
    obtain ⟨f, rfl⟩ : ∃ f, fuel = f + 1 := ⟨fuel - 1, by omega⟩
    have hex : ¬ (mkTile d width height (x0 : Int) y).ex = width := by
      rw [ex_eq_width_iff hs hp x0 y]; omega
    have hrec := ih (x0 + 1) f (body (mkTile d width height (x0 : Int) y) s).2
      (by omega) (by omega)
    rw [rowTiles] at hrec ⊢
    rw [List.range'_succ, List.map_cons]
    simp only [rowLoop, runTiles]
    by_cases h : (body (mkTile d width height (x0 : Int) y) s).1 ≠ 0
    · simp [h]
    · simp only [h, if_false, hex]
      have hc : ((x0 + 1 : Nat) : Int) = (x0 : Int) + 1 := by push_cast; ring
      rw [← hc]
      exact hrec

theorem gridTiles_succ (d : mxnetData) (width height : Int) (nx y0 len : Nat) :
    gridTiles d width height nx y0 (len + 1) =
      rowTiles d width height (y0 : Int) 0 (nx + 1) ++ gridTiles d width height nx (y0 + 1) len := by
  simp [gridTiles, List.range'_succ, List.flatMap_cons]

theorem tileLoop_eq {σ : Type} (d : mxnetData) (width height : Int)
    (body : Tile → σ → Int × σ) (hsw : 1 ≤ d.step_w) (hpw : d.patch_w ≤ width)
    (hsh : 1 ≤ d.step_h) (hph : d.patch_h ≤ height) (fuelX : Nat)
    (hfx : lastIndex width d.patch_w d.step_w < fuelX) :
    ∀ (m y0 fuel : Nat) (s : σ), y0 + m = lastIndex height d.patch_h d.step_h → m < fuel →
      tileLoop d width height body fuelX fuel (y0 : Int) s =
        some (runTiles body
          (gridTiles d width height (lastIndex width d.patch_w d.step_w) y0 (m + 1)) s) := by
  intro m
  induction m with
  | zero =>
    intro y0 fuel s hy hf
    obtain ⟨f, rfl⟩ : ∃ f, fuel = f + 1 := ⟨fuel - 1, by omega⟩
    have hrow := rowLoop_eq d width height body (y0 : Int) hsw hpw
      (lastIndex width d.patch_w d.step_w) 0 fuelX s (by omega) hfx
    have hey : (mkTile d width height 0 (y0 : Int)).ey = height :=
      (ey_eq_height_iff hsh hph 0 y0).2 (by omega)
    rw [gridTiles_succ, runTiles_append]
    simp only [tileLoop]
    rw [Nat.cast_zero] at hrow
    rw [hrow]
    have hnil : gridTiles d width height (lastIndex width d.patch_w d.step_w) (y0 + 1) 0 = [] := by
      simp [gridTiles]
    rw [hnil]
    generalize runTiles body (rowTiles d width height (y0 : Int) 0
        (lastIndex width d.patch_w d.step_w + 1)) s = r
    by_cases h : r.1 ≠ 0
    · simp only [if_pos h]
    · simp only [if_neg h, if_pos hey, runTiles]
  | succ m ih =>
    intro y0 fuel s hy hf
    obtain ⟨f, rfl⟩ : ∃ f, fuel = f + 1 := ⟨fuel - 1, by omega⟩
    have hrow := rowLoop_eq d width height body (y0 : Int) hsw hpw
      (lastIndex width d.patch_w d.step_w) 0 fuelX s (by omega) hfx
    have hey : ¬ (mkTile d width height 0 (y0 : Int)).ey = height := by
      rw [ey_eq_height_iff hsh hph 0 y0]; omega
    rw [gridTiles_succ, runTiles_append]
    simp only [tileLoop]
    rw [Nat.cast_zero] at hrow
    rw [hrow]
    generalize runTiles body (rowTiles d width height (y0 : Int) 0
        (lastIndex width d.patch_w d.step_w + 1)) s = r
    by_cases h : r.1 ≠ 0
    · simp only [if_pos h]
    · simp only [if_neg h, if_neg hey]
      have hc : ((y0 + 1 : Nat) : Int) = (y0 : Int) + 1 := by push_cast; ring
      rw [← hc]
      exact ih (y0 + 1) f _ (by omega) (by omega)

/-- With enough fuel the loop of `process`, run with any body, does what folding
the body over the grid does. -/
theorem tileLoop_allTiles {σ : Type} (d : mxnetData) (width height : Int)
    (body : Tile → σ → Int × σ) (hsw : 1 ≤ d.step_w) (hpw : d.patch_w ≤ width)
    (hsh : 1 ≤ d.step_h) (hph : d.patch_h ≤ height) (fuelX fuel : Nat)
    (hfx : lastIndex width d.patch_w d.step_w < fuelX)
    (hfy : lastIndex height d.patch_h d.step_h < fuel) (s : σ) :
    tileLoop d width height body fuelX fuel 0 s =
      some (runTiles body (allTiles d width height) s) := by
  have h := tileLoop_eq d width height body hsw hpw hsh hph fuelX hfx
    (lastIndex height d.patch_h d.step_h) 0 fuel s (by omega) hfy
  rw [Nat.cast_zero] at h
  exact h

theorem runTiles_record (l : List Tile) (log : List Tile) :
    runTiles (fun t (log : List Tile) => ((0 : Int), log ++ [t])) l log = (0, log ++ l) := by
  induction l generalizing log with
  | nil => simp [runTiles]
  | cons t ts ih =>
    simp only [runTiles]
    simp [ih]

theorem visitedTiles_eq (d : mxnetData) (width height : Int) (hsw : 1 ≤ d.step_w)
    (hpw : d.patch_w ≤ width) (hsh : 1 ≤ d.step_h) (hph : d.patch_h ≤ height) (fuel : Nat)
    (hfx : lastIndex width d.patch_w d.step_w < fuel)
    (hfy : lastIndex height d.patch_h d.step_h < fuel) :
    visitedTiles d width height fuel = some (allTiles d width height) := by
  unfold visitedTiles
  rw [tileLoop_allTiles d width height _ hsw hpw hsh hph fuel fuel hfx hfy, runTiles_record]
  simp

theorem visitedRow_eq (d : mxnetData) (width height y : Int) (hsw : 1 ≤ d.step_w)
    (hpw : d.patch_w ≤ width) (fuel : Nat)
    (hfx : lastIndex width d.patch_w d.step_w < fuel) :
    visitedRow d width height y fuel =
      some (rowTiles d width height y 0 (lastIndex width d.patch_w d.step_w + 1)) := by
  unfold visitedRow
  have h := rowLoop_eq d width height (fun t (log : List Tile) => ((0 : Int), log ++ [t])) y
    hsw hpw (lastIndex width d.patch_w d.step_w) 0 fuel [] (by omega) hfx
  rw [Nat.cast_zero] at h
  rw [h, runTiles_record]
  simp

theorem mem_rowTiles {d : mxnetData} {width height y : Int} {x0 len : Nat} {t : Tile} :
    t ∈ rowTiles d width height y x0 len ↔
      ∃ x : Nat, x0 ≤ x ∧ x < x0 + len ∧ t = mkTile d width height (x : Int) y := by
  simp only [rowTiles, List.mem_map, List.mem_range'_1]
  constructor
  · rintro ⟨x, ⟨h1, h2⟩, rfl⟩
    exact ⟨x, h1, h2, rfl⟩
  · rintro ⟨x, h1, h2, rfl⟩
    exact ⟨x, ⟨h1, h2⟩, rfl⟩

theorem mem_allTiles {d : mxnetData} {width height : Int} {t : Tile} :
    t ∈ allTiles d width height ↔
      ∃ x y : Nat, x ≤ lastIndex width d.patch_w d.step_w ∧
        y ≤ lastIndex height d.patch_h d.step_h ∧ t = mkTile d width height (x : Int) (y : Int) := by
  simp only [allTiles, gridTiles, List.mem_flatMap, List.mem_range'_1, mem_rowTiles]
  constructor
  · rintro ⟨y, ⟨_, h2⟩, x, _, h4, rfl⟩
    exact ⟨x, y, by omega, by omega, rfl⟩
  · rintro ⟨x, y, h1, h2, rfl⟩
    exact ⟨y, ⟨by omega, by omega⟩, x, by omega, by omega, rfl⟩

/-! ## Geometry of one axis -/

theorem lastIndex_reaches {len patch step : Int} (hs : 1 ≤ step) (hp : patch ≤ len) :
    len ≤ (lastIndex len patch step : Int) * step + patch :=
  (lastIndex_le_iff hs hp _).1 le_rfl

theorem lastIndex_least {len patch step : Int} (hs : 1 ≤ step) (hp : patch ≤ len) (x : Nat)
    (hx : x < lastIndex len patch step) : (x : Int) * step + patch < len := by
  by_contra h
  have := (lastIndex_le_iff hs hp x).2 (by omega)
  omega

/-- Along one axis, when the step does not exceed the patch, every position
of the axis lies in the tile of some grid index up to the last one. -/
theorem axis_cover {len patch step : Int} (hs : 1 ≤ step) (hsp : step ≤ patch)
    (hp : patch ≤ len) (p : Int) (h0 : 0 ≤ p) (h1 : p < len) :
    ∃ x : Nat, x ≤ lastIndex len patch step ∧
      min ((x : Int) * step) (len - patch) ≤ p ∧ p < min ((x : Int) * step + patch) len := by
  by_cases hq : (p / step).toNat < lastIndex len patch step
  · refine ⟨(p / step).toNat, le_of_lt hq, ?_, ?_⟩
    · have hnn : 0 ≤ p / step := Int.ediv_nonneg h0 (by omega)
      have hc : (((p / step).toNat : Nat) : Int) = p / step := Int.toNat_of_nonneg hnn
      have hm : p / step * step ≤ p := Int.ediv_mul_le p (by omega)
      rw [hc]
      exact le_trans (min_le_left _ _) hm
    · have hnn : 0 ≤ p / step := Int.ediv_nonneg h0 (by omega)
      have hc : (((p / step).toNat : Nat) : Int) = p / step := Int.toNat_of_nonneg hnn
      have hlt := lastIndex_least hs hp _ hq
      rw [hc] at hlt ⊢
      have hm : p < (p / step + 1) * step := Int.lt_ediv_add_one_mul_self p (by omega)
      have : p < p / step * step + patch := by nlinarith
      exact lt_min this h1
  · refine ⟨lastIndex len patch step, le_rfl, ?_, ?_⟩
    · have hr := lastIndex_reaches hs hp
      have hnn : 0 ≤ p / step := Int.ediv_nonneg h0 (by omega)
      have hc : (((p / step).toNat : Nat) : Int) = p / step := Int.toNat_of_nonneg hnn
      have hge : (lastIndex len patch step : Int) ≤ p / step := by omega
      have hm : p / step * step ≤ p := Int.ediv_mul_le p (by omega)
      have : (lastIndex len patch step : Int) * step ≤ p := by nlinarith
      have := min_le_right ((lastIndex len patch step : Int) * step) (len - patch)
      omega
    · have hr := lastIndex_reaches hs hp
      rw [min_eq_right hr]
      exact h1

theorem lastIndex_eq_ceil {len patch step : Int} (hs : 1 ≤ step) (hp : patch ≤ len) :
    ((lastIndex len patch step : Nat) : Int) = ⌈((len - patch : Int) : ℚ) / ((step : Int) : ℚ)⌉ := by
  symm
  rw [Int.ceil_eq_iff]
  have hspos : (0 : ℚ) < ((step : Int) : ℚ) := by exact_mod_cast (by omega : (0 : Int) < step)
  constructor
  · rw [lt_div_iff₀ hspos]
    rcases Nat.eq_zero_or_pos (lastIndex len patch step) with h0 | hpos
    · rw [h0]
      have : (0 : ℚ) ≤ ((len - patch : Int) : ℚ) := by exact_mod_cast (by omega : (0 : Int) ≤ len - patch)
      push_cast at this ⊢
      nlinarith
    · have hl := lastIndex_least hs hp (lastIndex len patch step - 1) (by omega)
      have hc : ((lastIndex len patch step - 1 : Nat) : Int) = (lastIndex len patch step : Int) - 1 := by
        omega
      rw [hc] at hl
      have : (((lastIndex len patch step : Int) - 1) * step : Int) < len - patch := by linarith
      have hq : ((((lastIndex len patch step : Int) - 1) * step : Int) : ℚ) < ((len - patch : Int) : ℚ) := by
        exact_mod_cast this
      push_cast at hq ⊢
      linarith
  · rw [div_le_iff₀ hspos]
    have hr := lastIndex_reaches hs hp
    have : (len - patch : Int) ≤ (lastIndex len patch step : Int) * step := by linarith
    have hq : ((len - patch : Int) : ℚ) ≤ (((lastIndex len patch step : Int) * step : Int) : ℚ) := by
      exact_mod_cast this
    push_cast at hq ⊢
    linarith

/-! ## Tile scheduler: coverage, bounds, termination, count -/

theorem mkTile_in_plane {d : mxnetData} {width height : Int}
    (hpW : d.patch_w ≤ width) (hpH : d.patch_h ≤ height)
    (hsw : 1 ≤ d.step_w) (hsh : 1 ≤ d.step_h) (x y : Nat) :
    0 ≤ (mkTile d width height x y).sx ∧
      (mkTile d width height x y).ex - (mkTile d width height x y).sx = d.patch_w ∧
      (mkTile d width height x y).ex ≤ width ∧
      0 ≤ (mkTile d width height x y).sy ∧
      (mkTile d width height x y).ey - (mkTile d width height x y).sy = d.patch_h ∧
      (mkTile d width height x y).ey ≤ height := by
  have hx : 0 ≤ (x : Int) * d.step_w := by positivity
  have hy : 0 ≤ (y : Int) * d.step_h := by positivity
  simp only [mkTile]
  omega

/-- C1, as the code has it: on a plane of size `W × H` with `1 ≤ patch ≤ plane`
and `1 ≤ step ≤ patch` on both axes, the tile loop of `process` ends, and the
source rectangles of the tiles it visits have union exactly `[0,W) × [0,H)`:
a pixel lies in some visited tile iff it lies in the plane. -/
theorem tile_coverage (d : mxnetData) (W H : Int)
    (hpw : 1 ≤ d.patch_w) (hpW : d.patch_w ≤ W) (hph : 1 ≤ d.patch_h) (hpH : d.patch_h ≤ H)
    (hsw : 1 ≤ d.step_w) (hsh : 1 ≤ d.step_h)
    (hspw : d.step_w ≤ d.patch_w) (hsph : d.step_h ≤ d.patch_h) :
    ∃ n : Nat, ∀ fuel : Nat, n ≤ fuel → ∃ tiles : List Tile,
      visitedTiles d W H fuel = some tiles ∧
      ∀ px py : Int, (∃ t ∈ tiles, t.covers px py) ↔ (0 ≤ px ∧ px < W ∧ 0 ≤ py ∧ py < H) := by
  have _ := hpw
  have _ := hph
  refine ⟨lastIndex W d.patch_w d.step_w + lastIndex H d.patch_h d.step_h + 1, ?_⟩
  intro fuel hfuel
  refine ⟨allTiles d W H,
    visitedTiles_eq d W H hsw hpW hsh hpH fuel (by omega) (by omega), ?_⟩
  intro px py
  constructor
  · rintro ⟨t, ht, hc⟩
    obtain ⟨x, y, _, _, rfl⟩ := mem_allTiles.1 ht
    have hb := mkTile_in_plane hpW hpH hsw hsh x y
    unfold Tile.covers at hc
    omega
  · rintro ⟨hx0, hx1, hy0, hy1⟩
    obtain ⟨x, hx, hxa, hxb⟩ := axis_cover hsw hspw hpW px hx0 hx1
    obtain ⟨y, hy, hya, hyb⟩ := axis_cover hsh hsph hpH py hy0 hy1
    exact ⟨mkTile d W H x y, mem_allTiles.2 ⟨x, y, hx, hy, rfl⟩, hxa, hxb, hya, hyb⟩

/-- C1, witness: patch 40, step 24 on a 64 × 64 plane. -/
theorem tile_coverage_witness :
    ∃ n : Nat, ∀ fuel : Nat, n ≤ fuel → ∃ tiles : List Tile,
      visitedTiles (squareConfig 40 24 40 24 64 0) 64 64 fuel = some tiles ∧
      ∀ px py : Int, (∃ t ∈ tiles, t.covers px py) ↔ (0 ≤ px ∧ px < 64 ∧ 0 ≤ py ∧ py < 64) :=
  tile_coverage (squareConfig 40 24 40 24 64 0) 64 64 (by decide) (by decide) (by decide)
    (by decide) (by decide) (by decide) (by decide) (by decide)

/-- C1, counterexample to the claim as stated: with patch 2 and step 5 on a
10 × 10 plane the hypotheses of the claim hold, the loop visits the 3 × 3 grid,
and pixel `(2, 0)` of the plane lies in no visited tile. -/
theorem tile_coverage_gap :
    (1 ≤ (squareConfig 2 5 2 5 10 0).patch_w ∧ (squareConfig 2 5 2 5 10 0).patch_w ≤ 10 ∧
      1 ≤ (squareConfig 2 5 2 5 10 0).patch_h ∧ (squareConfig 2 5 2 5 10 0).patch_h ≤ 10 ∧
      1 ≤ (squareConfig 2 5 2 5 10 0).step_w ∧ 1 ≤ (squareConfig 2 5 2 5 10 0).step_h) ∧
    visitedTiles (squareConfig 2 5 2 5 10 0) 10 10 3 =
      some (allTiles (squareConfig 2 5 2 5 10 0) 10 10) ∧
    (allTiles (squareConfig 2 5 2 5 10 0) 10 10).length = 9 ∧
    ¬ ∃ t ∈ allTiles (squareConfig 2 5 2 5 10 0) 10 10, t.covers 2 0 := by
  decide

theorem rowTiles_ne_nil (d : mxnetData) (width height y : Int) (x0 len : Nat) :
    rowTiles d width height y x0 (len + 1) ≠ [] := by
  simp [rowTiles, List.range'_succ]

theorem mkTile_last_x {d : mxnetData} {width height : Int} (hpW : d.patch_w ≤ width)
    (hsw : 1 ≤ d.step_w) (y : Int) :
    (mkTile d width height (lastIndex width d.patch_w d.step_w : Nat) y).sx = width - d.patch_w ∧
      (mkTile d width height (lastIndex width d.patch_w d.step_w : Nat) y).ex = width := by
  have hr := lastIndex_reaches hsw hpW
  simp only [mkTile]
  omega

theorem mkTile_last_y {d : mxnetData} {width height : Int} (hpH : d.patch_h ≤ height)
    (hsh : 1 ≤ d.step_h) (x : Int) :
    (mkTile d width height x (lastIndex height d.patch_h d.step_h : Nat)).sy = height - d.patch_h ∧
      (mkTile d width height x (lastIndex height d.patch_h d.step_h : Nat)).ey = height := by
  have hr := lastIndex_reaches hsh hpH
  simp only [mkTile]
  omega

/-- C7: for `1 ≤ patchW ≤ W` and `stepW ≥ 1` the inner loop of `process` ends,
and every tile of the row it visits has `sx = min(x*stepW, W-patchW)`,
`ex = min(x*stepW+patchW, W)`, `0 ≤ sx`, `ex - sx = patchW` and `ex ≤ W`; the
last visited tile of the row (the one of greatest grid column) has
`sx = W - patchW` and `ex = W`.  With the same bounds on the other axis the
same holds per column over the whole tile loop. -/
theorem tiles_full_size_flush (d : mxnetData) (W H : Int)
    (hpw : 1 ≤ d.patch_w) (hpW : d.patch_w ≤ W) (hsw : 1 ≤ d.step_w) :
    (∀ y : Int, ∃ n : Nat, ∀ fuel : Nat, n ≤ fuel → ∃ row : List Tile,
      visitedRow d W H y fuel = some row ∧ row ≠ [] ∧
      (∀ t ∈ row, 0 ≤ t.x ∧ t.sx = min (t.x * d.step_w) (W - d.patch_w) ∧
        t.ex = min (t.x * d.step_w + d.patch_w) W ∧
        0 ≤ t.sx ∧ t.ex - t.sx = d.patch_w ∧ t.ex ≤ W) ∧
      (∀ t ∈ row, (∀ u ∈ row, u.x ≤ t.x) → t.sx = W - d.patch_w ∧ t.ex = W)) ∧
    (1 ≤ d.patch_h → d.patch_h ≤ H → 1 ≤ d.step_h →
      ∃ n : Nat, ∀ fuel : Nat, n ≤ fuel → ∃ tiles : List Tile,
        visitedTiles d W H fuel = some tiles ∧ tiles ≠ [] ∧
        (∀ t ∈ tiles, 0 ≤ t.y ∧ t.sy = min (t.y * d.step_h) (H - d.patch_h) ∧
          t.ey = min (t.y * d.step_h + d.patch_h) H ∧
          0 ≤ t.sy ∧ t.ey - t.sy = d.patch_h ∧ t.ey ≤ H) ∧
        (∀ t ∈ tiles, (∀ u ∈ tiles, u.x = t.x → u.y ≤ t.y) →
          t.sy = H - d.patch_h ∧ t.ey = H) ∧
        (∀ t ∈ tiles, (∀ u ∈ tiles, u.y = t.y → u.x ≤ t.x) →
          t.sx = W - d.patch_w ∧ t.ex = W)) := by
  have _ := hpw
  constructor
  · intro y
    refine ⟨lastIndex W d.patch_w d.step_w + 1, fun fuel hfuel => ?_⟩
    refine ⟨_, visitedRow_eq d W H y hsw hpW fuel (by omega), rowTiles_ne_nil _ _ _ _ _ _, ?_, ?_⟩
    · intro t ht
      obtain ⟨x, _, _, rfl⟩ := mem_rowTiles.1 ht
      have hx : 0 ≤ (x : Int) * d.step_w := by positivity
      refine ⟨Int.natCast_nonneg x, rfl, rfl, ?_, ?_, ?_⟩ <;> simp only [mkTile] <;> omega
    · intro t ht hmax
      obtain ⟨x, _, hx, rfl⟩ := mem_rowTiles.1 ht
      have hlast := hmax (mkTile d W H (lastIndex W d.patch_w d.step_w : Nat) y)
        (mem_rowTiles.2 ⟨_, by omega, by omega, rfl⟩)
      simp only [mkTile] at hlast
      have hxe : x = lastIndex W d.patch_w d.step_w := by omega
      rw [hxe]
      exact mkTile_last_x hpW hsw y
  · intro hph hpH hsh
    have _ := hph
    refine ⟨lastIndex W d.patch_w d.step_w + lastIndex H d.patch_h d.step_h + 1,
      fun fuel hfuel => ?_⟩
    refine ⟨_, visitedTiles_eq d W H hsw hpW hsh hpH fuel (by omega) (by omega), ?_, ?_, ?_, ?_⟩
    · intro hnil
      have hm : mkTile d W H (0 : Nat) (0 : Nat) ∈ allTiles d W H :=
        mem_allTiles.2 ⟨0, 0, by omega, by omega, rfl⟩
      rw [hnil] at hm
      simp at hm
    · intro t ht
      obtain ⟨x, y, _, _, rfl⟩ := mem_allTiles.1 ht
      have hy : 0 ≤ (y : Int) * d.step_h := by positivity
      refine ⟨Int.natCast_nonneg y, rfl, rfl, ?_, ?_, ?_⟩ <;> simp only [mkTile] <;> omega
    · intro t ht hmax
      obtain ⟨x, y, hx, hy, rfl⟩ := mem_allTiles.1 ht
      have hlast := hmax (mkTile d W H (x : Nat) (lastIndex H d.patch_h d.step_h : Nat))
        (mem_allTiles.2 ⟨x, _, hx, le_rfl, rfl⟩) rfl
      simp only [mkTile] at hlast
      have hye : y = lastIndex H d.patch_h d.step_h := by omega
      rw [hye]
      exact mkTile_last_y hpH hsh x
    · intro t ht hmax
      obtain ⟨x, y, hx, hy, rfl⟩ := mem_allTiles.1 ht
      have hlast := hmax (mkTile d W H (lastIndex W d.patch_w d.step_w : Nat) (y : Nat))
        (mem_allTiles.2 ⟨_, y, le_rfl, hy, rfl⟩) rfl
      simp only [mkTile] at hlast
      have hxe : x = lastIndex W d.patch_w d.step_w := by omega
      rw [hxe]
      exact mkTile_last_x hpW hsw y

/-- C7, witness: row 0 for patch 40, step 24 on a 64 × 64 plane. -/
theorem tiles_full_size_flush_witness :
    ∃ n : Nat, ∀ fuel : Nat, n ≤ fuel → ∃ row : List Tile,
      visitedRow (squareConfig 40 24 40 24 64 0) 64 64 0 fuel = some row ∧ row ≠ [] ∧
      (∀ t ∈ row, 0 ≤ t.x ∧ t.sx = min (t.x * 24) (64 - 40) ∧
        t.ex = min (t.x * 24 + 40) 64 ∧ 0 ≤ t.sx ∧ t.ex - t.sx = 40 ∧ t.ex ≤ 64) ∧
      (∀ t ∈ row, (∀ u ∈ row, u.x ≤ t.x) → t.sx = 64 - 40 ∧ t.ex = 64) :=
  (tiles_full_size_flush (squareConfig 40 24 40 24 64 0) 64 64 (by decide) (by decide)
    (by decide)).1 0

theorem rowTiles_length (d : mxnetData) (width height y : Int) (x0 len : Nat) :
    (rowTiles d width height y x0 len).length = len := by
  simp [rowTiles]

theorem gridTiles_length (d : mxnetData) (width height : Int) (nx y0 len : Nat) :
    (gridTiles d width height nx y0 len).length = len * (nx + 1) := by
  induction len generalizing y0 with
  | zero => simp [gridTiles]
  | succ n ih =>
    rw [gridTiles_succ, List.length_append, rowTiles_length, ih]
    ring

theorem rowTiles_getElem? (d : mxnetData) (width height y : Int) (len i : Nat) (t : Tile) :
    (rowTiles d width height y 0 len)[i]? = some t ↔
      i < len ∧ t = mkTile d width height (i : Int) y := by
  by_cases h : i < len
  · rw [rowTiles, List.getElem?_map, List.getElem?_range' _ _ h]
    simp [h, eq_comm]
  · have hn : (rowTiles d width height y 0 len)[i]? = none :=
      List.getElem?_eq_none (by rw [rowTiles_length]; omega)
    simp [hn, h]

/-- C8: for `1 ≤ patch ≤ plane` and `step ≥ 1` on both axes the nested loop of
`process` terminates.  There are a least `nx` with `nx*stepW + patchW ≥ W` and a
least `ny` with `ny*stepH + patchH ≥ H`; with more fuel than `nx` and `ny` the
loop returns for every loop body and every start state, `process` returns, and
the visited tiles are the `(nx+1)*(ny+1)` tiles with grid index `x ≤ nx`,
`y ≤ ny`: the inner loop breaks at `nx`, the outer loop at `ny`. -/
theorem tile_loop_terminates (d : mxnetData) (W H : Int)
    (hpw : 1 ≤ d.patch_w) (hpW : d.patch_w ≤ W) (hph : 1 ≤ d.patch_h) (hpH : d.patch_h ≤ H)
    (hsw : 1 ≤ d.step_w) (hsh : 1 ≤ d.step_h) :
    ∃ nx ny : Nat,
      (W ≤ (nx : Int) * d.step_w + d.patch_w ∧
        ∀ x : Nat, W ≤ (x : Int) * d.step_w + d.patch_w → nx ≤ x) ∧
      (H ≤ (ny : Int) * d.step_h + d.patch_h ∧
        ∀ y : Nat, H ≤ (y : Int) * d.step_h + d.patch_h → ny ≤ y) ∧
      ∀ fuel : Nat, nx < fuel → ny < fuel →
        (∀ (σ : Type) (body : Tile → σ → Int × σ) (s : σ),
          (tileLoop d W H body fuel fuel 0 s).isSome = true) ∧
        (∀ (α : Type) (mx : Predictor α) (cv : CopyMakeBorder α) (fmt : VSFormat)
          (src dst : VSFrame α) (srcBuffer dstBuffer padBuffer : Int → α),
          src.width + d.pad * 2 = W → src.height + d.pad * 2 = H →
          (process mx cv fmt src dst d srcBuffer dstBuffer padBuffer fuel).isSome = true) ∧
        ∃ tiles : List Tile, visitedTiles d W H fuel = some tiles ∧
          tiles.length = (nx + 1) * (ny + 1) ∧
          ∀ t : Tile, t ∈ tiles ↔
            ∃ x y : Nat, x ≤ nx ∧ y ≤ ny ∧ t = mkTile d W H (x : Int) (y : Int) := by
  have _ := hpw
  have _ := hph
  refine ⟨lastIndex W d.patch_w d.step_w, lastIndex H d.patch_h d.step_h,
    ⟨lastIndex_reaches hsw hpW, fun x hx => (lastIndex_le_iff hsw hpW x).2 hx⟩,
    ⟨lastIndex_reaches hsh hpH, fun y hy => (lastIndex_le_iff hsh hpH y).2 hy⟩, ?_⟩
  intro fuel hfx hfy
  refine ⟨?_, ?_, ?_⟩
  · intro σ body s
    rw [tileLoop_allTiles d W H body hsw hpW hsh hpH fuel fuel hfx hfy]
    rfl
  · intro α mx cv fmt src dst srcBuffer dstBuffer padBuffer hW hH
    unfold process
    by_cases hsub : fmt.subSamplingH ≠ 0 ∨ fmt.subSamplingW ≠ 0
    · simp only [if_pos hsub]; rfl
    · simp only [if_neg hsub, hW, hH]
      rw [tileLoop_allTiles d W H _ hsw hpW hsh hpH fuel fuel hfx hfy]
      rfl
  · refine ⟨allTiles d W H, visitedTiles_eq d W H hsw hpW hsh hpH fuel hfx hfy, ?_,
      fun t => mem_allTiles⟩
    rw [allTiles, gridTiles_length]
    ring

/-- C8, witness: patch 40, step 24 on a 64 × 64 plane. -/
theorem tile_loop_terminates_witness :
    ∃ nx ny : Nat,
      ((64 : Int) ≤ (nx : Int) * 24 + 40 ∧ ∀ x : Nat, (64 : Int) ≤ (x : Int) * 24 + 40 → nx ≤ x) ∧
      ((64 : Int) ≤ (ny : Int) * 24 + 40 ∧ ∀ y : Nat, (64 : Int) ≤ (y : Int) * 24 + 40 → ny ≤ y) ∧
      ∀ fuel : Nat, nx < fuel → ny < fuel →
        (∀ (σ : Type) (body : Tile → σ → Int × σ) (s : σ),
          (tileLoop (squareConfig 40 24 40 24 64 0) 64 64 body fuel fuel 0 s).isSome = true) ∧
        (∀ (α : Type) (mx : Predictor α) (cv : CopyMakeBorder α) (fmt : VSFormat)
          (src dst : VSFrame α) (srcBuffer dstBuffer padBuffer : Int → α),
          src.width + (squareConfig 40 24 40 24 64 0).pad * 2 = 64 →
          src.height + (squareConfig 40 24 40 24 64 0).pad * 2 = 64 →
          (process mx cv fmt src dst (squareConfig 40 24 40 24 64 0)
            srcBuffer dstBuffer padBuffer fuel).isSome = true) ∧
        ∃ tiles : List Tile, visitedTiles (squareConfig 40 24 40 24 64 0) 64 64 fuel = some tiles ∧
          tiles.length = (nx + 1) * (ny + 1) ∧
          ∀ t : Tile, t ∈ tiles ↔
            ∃ x y : Nat, x ≤ nx ∧ y ≤ ny ∧
              t = mkTile (squareConfig 40 24 40 24 64 0) 64 64 (x : Int) (y : Int) :=
  tile_loop_terminates (squareConfig 40 24 40 24 64 0) 64 64 (by decide) (by decide)
    (by decide) (by decide) (by decide) (by decide)

/-- C10: for `1 ≤ patchW ≤ W` and `stepW ≥ 1` the inner loop of `process` ends
and visits exactly `⌈(W - patchW) / stepW⌉ + 1` tiles in a row; the tile at
position `i` of the row has grid column `i` and starts at
`min(i*stepW, W - patchW)`. -/
theorem row_tile_origins (d : mxnetData) (W H : Int)
    (hpw : 1 ≤ d.patch_w) (hpW : d.patch_w ≤ W) (hsw : 1 ≤ d.step_w) (y : Int) :
    ∃ n : Nat, ∀ fuel : Nat, n ≤ fuel → ∃ row : List Tile,
      visitedRow d W H y fuel = some row ∧
      (row.length : Int) = ⌈((W - d.patch_w : Int) : ℚ) / ((d.step_w : Int) : ℚ)⌉ + 1 ∧
      ∀ (i : Nat) (t : Tile), row[i]? = some t →
        t.x = (i : Int) ∧ t.sx = min ((i : Int) * d.step_w) (W - d.patch_w) := by
  have _ := hpw
  refine ⟨lastIndex W d.patch_w d.step_w + 1, fun fuel hfuel => ?_⟩
  refine ⟨_, visitedRow_eq d W H y hsw hpW fuel (by omega), ?_, ?_⟩
  · rw [rowTiles_length, ← lastIndex_eq_ceil hsw hpW]
    push_cast
    ring
  · intro i t hi
    obtain ⟨_, rfl⟩ := (rowTiles_getElem? d W H y _ i t).1 hi
    exact ⟨rfl, rfl⟩

/-- C10, witness: patch 40, step 24 over `W = 64`. -/
theorem row_tile_origins_witness :
    ∃ n : Nat, ∀ fuel : Nat, n ≤ fuel → ∃ row : List Tile,
      visitedRow (squareConfig 40 24 40 24 64 0) 64 64 0 fuel = some row ∧
      (row.length : Int) = ⌈((64 - 40 : Int) : ℚ) / ((24 : Int) : ℚ)⌉ + 1 ∧
      ∀ (i : Nat) (t : Tile), row[i]? = some t →
        t.x = (i : Int) ∧ t.sx = min ((i : Int) * 24) (64 - 40) :=
  row_tile_origins (squareConfig 40 24 40 24 64 0) 64 64 (by decide) (by decide) (by decide) 0

/-! ## Exact partition when the step equals the patch -/

theorem exact_lastIndex {len patch : Int} (hp : 1 ≤ patch) (hl : 1 ≤ len) (hdiv : patch ∣ len) :
    ((lastIndex len patch patch : Nat) : Int) + 1 = len / patch := by
  obtain ⟨k, rfl⟩ := hdiv
  have hk : 1 ≤ k := by
    by_contra h
    have : patch * k ≤ 0 := by nlinarith
    omega
  rw [Int.mul_ediv_cancel_left k (by omega : patch ≠ 0)]
  have hple : patch ≤ patch * k := by nlinarith
  have h1 : lastIndex (patch * k) patch patch ≤ (k - 1).toNat := by
    rw [lastIndex_le_iff hp hple]
    have : (((k - 1).toNat : Nat) : Int) = k - 1 := Int.toNat_of_nonneg (by omega)
    rw [this]
    nlinarith
  have h2 := lastIndex_reaches hp hple
  have h3 : k ≤ (lastIndex (patch * k) patch patch : Int) + 1 := by
    by_contra h
    have : ((lastIndex (patch * k) patch patch : Int) + 1) * patch < patch * k := by nlinarith
    nlinarith
  omega

theorem exact_tile {len patch : Int} (hp : 1 ≤ patch) (hl : 1 ≤ len) (hdiv : patch ∣ len)
    (x : Nat) (hx : x ≤ lastIndex len patch patch) :
    min ((x : Int) * patch) (len - patch) = (x : Int) * patch ∧
      min ((x : Int) * patch + patch) len = ((x : Int) + 1) * patch := by
  have hL := exact_lastIndex hp hl hdiv
  have hmul : len / patch * patch = len := Int.ediv_mul_cancel hdiv
  have hxk : ((x : Int) + 1) * patch ≤ len := by
    have : (x : Int) + 1 ≤ len / patch := by omega
    nlinarith
  constructor
  · apply min_eq_left; linarith
  · rw [min_eq_left (by linarith)]; ring

theorem rowTiles_nodup (d : mxnetData) (width height y : Int) (x0 len : Nat) :
    (rowTiles d width height y x0 len).Nodup := by
  unfold rowTiles
  refine List.Nodup.map ?_ (List.nodup_range' x0 len)
  intro a b hab
  have : (mkTile d width height (a : Int) y).x = (mkTile d width height (b : Int) y).x :=
    congrArg Tile.x hab
  simpa [mkTile] using this

theorem allTiles_nodup (d : mxnetData) (width height : Int) : (allTiles d width height).Nodup := by
  unfold allTiles gridTiles
  rw [List.nodup_flatMap]
  refine ⟨fun y _ => rowTiles_nodup _ _ _ _ _ _, ?_⟩
  refine List.Nodup.pairwise_of_forall_ne (List.nodup_range' _ _) ?_
  intro a _ b _ hab t hta htb
  obtain ⟨xa, _, _, rfl⟩ := mem_rowTiles.1 hta
  obtain ⟨xb, _, _, hb⟩ := mem_rowTiles.1 htb
  have : (mkTile d width height (xa : Int) (a : Int)).y =
      (mkTile d width height (xb : Int) (b : Int)).y := congrArg Tile.y hb
  simp only [mkTile] at this
  exact hab (by exact_mod_cast this)

/-- C9: for `W ≥ 1` a multiple of `patchW ≥ 1` and `stepW = patchW`, the inner
loop of `process` ends and visits exactly `W / patchW` tiles, the tile of grid
column `x` being `[x*patchW, (x+1)*patchW)`; the tiles are pairwise disjoint
and their union is `[0, W)`.  With the same on the other axis the whole tile
loop visits exactly the `(W/patchW) * (H/patchH)` grid cells
`[x*patchW, (x+1)*patchW) × [y*patchH, (y+1)*patchH)`, pairwise disjoint, of
union `[0,W) × [0,H)`. -/
theorem exact_partition (d : mxnetData) (W H : Int)
    (hpw : 1 ≤ d.patch_w) (hW : 1 ≤ W) (hdw : d.patch_w ∣ W) (hsw : d.step_w = d.patch_w) :
    (∀ y : Int, ∃ n : Nat, ∀ fuel : Nat, n ≤ fuel → ∃ row : List Tile,
      visitedRow d W H y fuel = some row ∧
      row = (List.range (W / d.patch_w).toNat).map (fun (x : Nat) =>
        ({ x := x, y := y, sx := (x : Int) * d.patch_w, ex := ((x : Int) + 1) * d.patch_w,
           sy := min (y * d.step_h) (H - d.patch_h),
           ey := min (y * d.step_h + d.patch_h) H } : Tile)) ∧
      (row.length : Int) = W / d.patch_w ∧
      row.Nodup ∧
      (∀ t ∈ row, ∀ u ∈ row, t ≠ u →
        ∀ p : Int, ¬ (t.sx ≤ p ∧ p < t.ex ∧ u.sx ≤ p ∧ p < u.ex)) ∧
      (∀ p : Int, (∃ t ∈ row, t.sx ≤ p ∧ p < t.ex) ↔ (0 ≤ p ∧ p < W))) ∧
    (1 ≤ d.patch_h → 1 ≤ H → d.patch_h ∣ H → d.step_h = d.patch_h →
      ∃ n : Nat, ∀ fuel : Nat, n ≤ fuel → ∃ tiles : List Tile,
        visitedTiles d W H fuel = some tiles ∧
        (tiles.length : Int) = W / d.patch_w * (H / d.patch_h) ∧
        (∀ t : Tile, t ∈ tiles ↔ ∃ x y : Nat, (x : Int) < W / d.patch_w ∧
          (y : Int) < H / d.patch_h ∧
          t = { x := x, y := y, sx := (x : Int) * d.patch_w, ex := ((x : Int) + 1) * d.patch_w,
                sy := (y : Int) * d.patch_h, ey := ((y : Int) + 1) * d.patch_h }) ∧
        tiles.Nodup ∧
        (∀ t ∈ tiles, ∀ u ∈ tiles, t ≠ u →
          ∀ px py : Int, ¬ (t.covers px py ∧ u.covers px py)) ∧
        (∀ px py : Int, (∃ t ∈ tiles, t.covers px py) ↔
          (0 ≤ px ∧ px < W ∧ 0 ≤ py ∧ py < H))) := by
  have hpW : d.patch_w ≤ W := Int.le_of_dvd (by omega) hdw
  have hsw1 : 1 ≤ d.step_w := by omega
  have hLw := exact_lastIndex hpw hW hdw
  have hrowx : ∀ (y : Int) (x : Nat), x ≤ lastIndex W d.patch_w d.step_w →
      (mkTile d W H (x : Int) y).sx = (x : Int) * d.patch_w ∧
      (mkTile d W H (x : Int) y).ex = ((x : Int) + 1) * d.patch_w := by
    intro y x hx
    rw [hsw] at hx
    have := exact_tile hpw hW hdw x hx
    simp only [mkTile, hsw]
    exact this
  have hdisj : ∀ (a b : Int) (p q : Int), 1 ≤ q → a * q ≤ p → p < (a + 1) * q →
      b * q ≤ p → p < (b + 1) * q → a = b := by
    intro a b p q hq h1 h2 h3 h4
    by_contra hne
    rcases lt_or_gt_of_ne hne with h | h
    · have : (a + 1) * q ≤ b * q := by nlinarith
      omega
    · have : (b + 1) * q ≤ a * q := by nlinarith
      omega
  constructor
  · intro y
    refine ⟨lastIndex W d.patch_w d.step_w + 1, fun fuel hfuel => ?_⟩
    have hlist : rowTiles d W H y 0 (lastIndex W d.patch_w d.step_w + 1) =
        (List.range (W / d.patch_w).toNat).map (fun (x : Nat) =>
          ({ x := x, y := y, sx := (x : Int) * d.patch_w, ex := ((x : Int) + 1) * d.patch_w,
             sy := min (y * d.step_h) (H - d.patch_h),
             ey := min (y * d.step_h + d.patch_h) H } : Tile)) := by
      have hn : (W / d.patch_w).toNat = lastIndex W d.patch_w d.step_w + 1 := by
        rw [hsw]; omega
      rw [hn, List.range_eq_range', rowTiles]
      apply List.map_congr_left
      intro x hx
      rw [List.mem_range'_1] at hx
      have h := hrowx y x (by omega)
      simp only [mkTile] at h ⊢
      rw [h.1, h.2]
    refine ⟨_, visitedRow_eq d W H y hsw1 hpW fuel (by omega), hlist, ?_,
      rowTiles_nodup _ _ _ _ _ _, ?_, ?_⟩
    · rw [rowTiles_length, ← hLw, hsw]; push_cast; ring
    · intro t ht u hu hne p hp
      obtain ⟨a, _, ha, rfl⟩ := mem_rowTiles.1 ht
      obtain ⟨b, _, hb, rfl⟩ := mem_rowTiles.1 hu
      have h1 := hrowx y a (by omega)
      have h2 := hrowx y b (by omega)
      rw [h1.1, h1.2, h2.1, h2.2] at hp
      have := hdisj a b p d.patch_w hpw hp.1 hp.2.1 hp.2.2.1 hp.2.2.2
      have hab : a = b := by exact_mod_cast this
      exact hne (by rw [hab])
    · intro p
      constructor
      · rintro ⟨t, ht, h1, h2⟩
        obtain ⟨a, _, ha, rfl⟩ := mem_rowTiles.1 ht
        have hx : 0 ≤ (a : Int) * d.step_w := by positivity
        simp only [mkTile] at h1 h2
        omega
      · rintro ⟨h0, h1⟩
        obtain ⟨x, hx, hxa, hxb⟩ := axis_cover hsw1 (by omega) hpW p h0 h1
        exact ⟨mkTile d W H x y, mem_rowTiles.2 ⟨x, by omega, by omega, rfl⟩, hxa, hxb⟩
  · intro hph hH hdh hsh
    have hpH : d.patch_h ≤ H := Int.le_of_dvd (by omega) hdh
    have hsh1 : 1 ≤ d.step_h := by omega
    have hLh := exact_lastIndex hph hH hdh
    have hcell : ∀ (x y : Nat), x ≤ lastIndex W d.patch_w d.step_w →
        y ≤ lastIndex H d.patch_h d.step_h →
        mkTile d W H (x : Int) (y : Int) =
          { x := x, y := y, sx := (x : Int) * d.patch_w, ex := ((x : Int) + 1) * d.patch_w,
            sy := (y : Int) * d.patch_h, ey := ((y : Int) + 1) * d.patch_h } := by
      intro x y hx hy
      rw [hsw] at hx
      rw [hsh] at hy
      have h1 := exact_tile hpw hW hdw x hx
      have h2 := exact_tile hph hH hdh y hy
      simp only [mkTile, hsw, hsh]
      rw [h1.1, h1.2, h2.1, h2.2]
    refine ⟨lastIndex W d.patch_w d.step_w + lastIndex H d.patch_h d.step_h + 1,
      fun fuel hfuel => ?_⟩
    refine ⟨_, visitedTiles_eq d W H hsw1 hpW hsh1 hpH fuel (by omega) (by omega), ?_, ?_,
      allTiles_nodup d W H, ?_, ?_⟩
    · rw [allTiles, gridTiles_length, ← hLw, ← hLh, hsw, hsh]; push_cast; ring
    · intro t
      rw [mem_allTiles]
      rw [hsw] at hcell
      rw [hsh] at hcell
      rw [hsw, hsh]
      constructor
      · rintro ⟨x, y, hx, hy, rfl⟩
        exact ⟨x, y, by omega, by omega, hcell x y hx hy⟩
      · rintro ⟨x, y, hx, hy, rfl⟩
        exact ⟨x, y, by omega, by omega, (hcell x y (by omega) (by omega)).symm⟩
    · intro t ht u hu hne px py hp
      obtain ⟨a, b, ha, hb, rfl⟩ := mem_allTiles.1 ht
      obtain ⟨a2, b2, ha2, hb2, rfl⟩ := mem_allTiles.1 hu
      rw [hcell a b ha hb, hcell a2 b2 ha2 hb2] at hp hne
      simp only [Tile.covers] at hp
      obtain ⟨⟨h1, h2, h3, h4⟩, h5, h6, h7, h8⟩ := hp
      have e1 := hdisj a a2 px d.patch_w hpw h1 h2 h5 h6
      have e2 := hdisj b b2 py d.patch_h hph h3 h4 h7 h8
      have e1n : a = a2 := by exact_mod_cast e1
      have e2n : b = b2 := by exact_mod_cast e2
      exact hne (by rw [e1n, e2n])
    · intro px py
      constructor
      · rintro ⟨t, ht, hc⟩
        obtain ⟨x, y, _, _, rfl⟩ := mem_allTiles.1 ht
        have hb := mkTile_in_plane hpW hpH hsw1 hsh1 x y
        unfold Tile.covers at hc
        omega
      · rintro ⟨hx0, hx1, hy0, hy1⟩
        obtain ⟨x, hx, hxa, hxb⟩ := axis_cover hsw1 (by omega) hpW px hx0 hx1
        obtain ⟨y, hy, hya, hyb⟩ := axis_cover hsh1 (by omega) hpH py hy0 hy1
        exact ⟨mkTile d W H x y, mem_allTiles.2 ⟨x, y, hx, hy, rfl⟩, hxa, hxb, hya, hyb⟩

/-- C9, witness: row 0 for patch = step = 32 on a 64 × 64 plane. -/
theorem exact_partition_witness :
    ∃ n : Nat, ∀ fuel : Nat, n ≤ fuel → ∃ row : List Tile,
      visitedRow (squareConfig 32 32 32 32 64 0) 64 64 0 fuel = some row ∧
      row = (List.range ((64 : Int) / 32).toNat).map (fun (x : Nat) =>
        ({ x := x, y := 0, sx := (x : Int) * 32, ex := ((x : Int) + 1) * 32,
           sy := min (0 * 32) (64 - 32), ey := min (0 * 32 + 32) 64 } : Tile)) ∧
      (row.length : Int) = 64 / 32 ∧
      row.Nodup ∧
      (∀ t ∈ row, ∀ u ∈ row, t ≠ u →
        ∀ p : Int, ¬ (t.sx ≤ p ∧ p < t.ex ∧ u.sx ≤ p ∧ p < u.ex)) ∧
      (∀ p : Int, (∃ t ∈ row, t.sx ≤ p ∧ p < t.ex) ↔ (0 ≤ p ∧ p < 64)) :=
  (exact_partition (squareConfig 32 32 32 32 64 0) 64 64 (by decide) (by decide)
    (by decide) (by decide)).1 0

/-! ## The shape check of `mxForward` -/

/-- C4, the code at the failing input: for a 32 × 32 single-plane output tile
the expected element count is 1024; the predictor reports the shape
`1024 × 4194305`, of `2 ^ 32 + 1024 ≠ 1024` elements.  The 32-bit product wraps
to 1024, so `mxForward` returns 0 instead of 1, calls `MXPredGetOutput` and
overwrites the patch-output buffer. -/
theorem shape_check_wraps :
    ((1024 : Int) * 4194305 ≠
        (squareConfig 32 32 32 32 64 0).output_w * (squareConfig 32 32 32 32 64 0).output_h * 1) ∧
      shapeSize wrapPred.shape = 1024 ∧
      (mxForward wrapPred (squareConfig 32 32 32 32 64 0) (floatFormat 1) (fun _ => 0)).1 = 0 ∧
      (mxForward wrapPred (squareConfig 32 32 32 32 64 0) (floatFormat 1) (fun _ => 0)).2.2 =
        [.MXPredSetInput, .MXPredForward, .MXPredGetOutputShape, .MXPredGetOutput] ∧
      (mxForward wrapPred (squareConfig 32 32 32 32 64 0) (floatFormat 1) (fun _ => 0)).2.1 0 = 7 := by
  decide

/-! ## The destination rectangle -/

/-- C5, the code at the failing input: on a 64 × 64 clip the only option
`output_w = 128` (scale 1) is accepted by `mxCreate`, with `frame_w = 64`; the
first tile `(0, 0)` then has destination column `dstoff_x = -64 < 0`, and the
rectangle written is `[-64, 64)`. -/
theorem dst_rect_leaves_frame :
    mxCreate id clip64 { noOptions with output_w := some 128 } = .ok wideOutputConfig ∧
      wideOutputConfig.output_w = 128 ∧ wideOutputConfig.frame_w = 64 ∧
      visitedTiles wideOutputConfig (paddedWidth clip64 wideOutputConfig)
          (paddedHeight clip64 wideOutputConfig) 1 =
        some [{ x := 0, y := 0, sx := 0, ex := 64, sy := 0, ey := 64 }] ∧
      dstoff_x wideOutputConfig 0 = -64 ∧
      dstoff_x wideOutputConfig 0 + wideOutputConfig.output_w = 64 := by
  refine ⟨rfl, ?_⟩
  decide

/-! ## Input and output grids -/

/-- When the output geometry of an axis is the input geometry scaled by `s ≥ 0`,
the destination origin of a grid index is `s` times its source origin. -/
theorem dstoff_scaled (s len patch step x : Int) (hs : 0 ≤ s) :
    min (s * len - s * patch) (x * (s * step)) = s * min (x * step) (len - patch) := by
  rcases le_total (x * step) (len - patch) with h | h
  · rw [min_eq_left h, min_eq_right (by nlinarith)]; ring
  · rw [min_eq_right h, min_eq_left (by nlinarith)]; ring

theorem scaled_cover_fwd (s m p len q : Int) (hs : 1 ≤ s) (hm : 0 ≤ m) (hmp : m + p ≤ len)
    (c1 : s * m ≤ q) (c2 : q < s * m + s * p) : 0 ≤ q ∧ q < s * len := by
  have h1 : 0 ≤ s * m := mul_nonneg (by omega) hm
  have h2 : s * (m + p) ≤ s * len := mul_le_mul_of_nonneg_left hmp (by omega)
  constructor
  · linarith
  · linarith

theorem scaled_cover_bwd (s m e q : Int) (hs : 1 ≤ s) (h1 : m ≤ q / s) (h2 : q / s < e) :
    s * m ≤ q ∧ q < s * e := by
  have a1 : q / s * s ≤ q := Int.ediv_mul_le q (by omega)
  have a2 : q < (q / s + 1) * s := Int.lt_ediv_add_one_mul_self q (by omega)
  have b1 : s * m ≤ s * (q / s) := mul_le_mul_of_nonneg_left h1 (by omega)
  have b2 : s * (q / s + 1) ≤ s * e := mul_le_mul_of_nonneg_left (by omega) (by omega)
  constructor
  · linarith
  · linarith

/-- C6, as the code has it: when the output geometry is the input geometry
scaled by an integer `s ≥ 1` on both axes (`output = s*patch`,
`outstep = s*step`, `frame = s*plane`, with `1 ≤ patch ≤ plane`, `step ≥ 1`),
a grid index ends the input row (`ex = W`) iff the output tile is flush there
(`x*outstep_w + output_w ≥ frame_w`), likewise per column; and when moreover
`step ≤ patch`, the loop ends, the destination rectangles of the visited tiles
have union exactly the output frame, and the last tile of each row / column is
flush with `frame_w` / `frame_h`. -/
theorem lockstep_scaled (d : mxnetData) (W H s : Int) (hs : 1 ≤ s)
    (hpw : 1 ≤ d.patch_w) (hpW : d.patch_w ≤ W) (hph : 1 ≤ d.patch_h) (hpH : d.patch_h ≤ H)
    (hsw : 1 ≤ d.step_w) (hsh : 1 ≤ d.step_h)
    (how : d.output_w = s * d.patch_w) (hoh : d.output_h = s * d.patch_h)
    (hosw : d.outstep_w = s * d.step_w) (hosh : d.outstep_h = s * d.step_h)
    (hfw : d.frame_w = s * W) (hfh : d.frame_h = s * H) :
    (∀ (x : Nat) (y : Int), (mkTile d W H x y).ex = W ↔
      d.frame_w ≤ (x : Int) * d.outstep_w + d.output_w) ∧
    (∀ (x : Int) (y : Nat), (mkTile d W H x y).ey = H ↔
      d.frame_h ≤ (y : Int) * d.outstep_h + d.output_h) ∧
    (d.step_w ≤ d.patch_w → d.step_h ≤ d.patch_h →
      ∃ n : Nat, ∀ fuel : Nat, n ≤ fuel → ∃ tiles : List Tile,
        visitedTiles d W H fuel = some tiles ∧
        (∀ px py : Int, (∃ t ∈ tiles, t.dstCovers d px py) ↔
          (0 ≤ px ∧ px < d.frame_w ∧ 0 ≤ py ∧ py < d.frame_h)) ∧
        (∀ t ∈ tiles, (∀ u ∈ tiles, u.y = t.y → u.x ≤ t.x) →
          dstoff_x d t.x + d.output_w = d.frame_w) ∧
        (∀ t ∈ tiles, (∀ u ∈ tiles, u.x = t.x → u.y ≤ t.y) →
          dstoff_y d t.y + d.output_h = d.frame_h)) := by
  have _ := hpw
  have _ := hph
  have hdx : ∀ x : Int, dstoff_x d x = s * min (x * d.step_w) (W - d.patch_w) := by
    intro x
    rw [dstoff_x, hfw, how, hosw]
    exact dstoff_scaled s W d.patch_w d.step_w x (by omega)
  have hdy : ∀ y : Int, dstoff_y d y = s * min (y * d.step_h) (H - d.patch_h) := by
    intro y
    rw [dstoff_y, hfh, hoh, hosh]
    exact dstoff_scaled s H d.patch_h d.step_h y (by omega)
  refine ⟨?_, ?_, ?_⟩
  · intro x y
    rw [ex_eq_width_iff hsw hpW, lastIndex_le_iff hsw hpW, hfw, hosw, how]
    constructor
    · intro h; nlinarith
    · intro h
      have h2 : s * W ≤ s * ((x : Int) * d.step_w + d.patch_w) := by linarith
      exact le_of_mul_le_mul_left h2 (by omega)
  · intro x y
    rw [ey_eq_height_iff hsh hpH, lastIndex_le_iff hsh hpH, hfh, hosh, hoh]
    constructor
    · intro h; nlinarith
    · intro h
      have h2 : s * H ≤ s * ((y : Int) * d.step_h + d.patch_h) := by linarith
      exact le_of_mul_le_mul_left h2 (by omega)
  · intro hspw hsph
    refine ⟨lastIndex W d.patch_w d.step_w + lastIndex H d.patch_h d.step_h + 1,
      fun fuel hfuel => ?_⟩
    refine ⟨_, visitedTiles_eq d W H hsw hpW hsh hpH fuel (by omega) (by omega), ?_, ?_, ?_⟩
    · intro px py
      constructor
      · rintro ⟨t, ht, hc⟩
        obtain ⟨x, y, _, _, rfl⟩ := mem_allTiles.1 ht
        have hb := mkTile_in_plane hpW hpH hsw hsh x y
        simp only [Tile.dstCovers, hdx, hdy, how, hoh] at hc
        simp only [mkTile] at hb hc
        obtain ⟨h1, h2, h3, h4, h5, h6⟩ := hb
        obtain ⟨c1, c2, c3, c4⟩ := hc
        have ex := scaled_cover_fwd s _ d.patch_w W px hs h1 (by omega) c1 c2
        have ey := scaled_cover_fwd s _ d.patch_h H py hs h4 (by omega) c3 c4
        rw [hfw, hfh]
        exact ⟨ex.1, ex.2, ey.1, ey.2⟩
      · rintro ⟨hx0, hx1, hy0, hy1⟩
        rw [hfw] at hx1
        rw [hfh] at hy1
        have hspos : 0 < s := by omega
        have hqx0 : 0 ≤ px / s := Int.ediv_nonneg hx0 (by omega)
        have hqx1 : px / s < W := Int.ediv_lt_of_lt_mul hspos (by linarith)
        have hqy0 : 0 ≤ py / s := Int.ediv_nonneg hy0 (by omega)
        have hqy1 : py / s < H := Int.ediv_lt_of_lt_mul hspos (by linarith)
        obtain ⟨x, hx, hxa, hxb⟩ := axis_cover hsw hspw hpW (px / s) hqx0 hqx1
        obtain ⟨y, hy, hya, hyb⟩ := axis_cover hsh hsph hpH (py / s) hqy0 hqy1
        have hb := mkTile_in_plane hpW hpH hsw hsh x y
        simp only [mkTile] at hb
        obtain ⟨h1, h2, h3, h4, h5, h6⟩ := hb
        have ex := scaled_cover_bwd s _ (min ((x : Int) * d.step_w) (W - d.patch_w) + d.patch_w)
          px hs hxa (by omega)
        have ey := scaled_cover_bwd s _ (min ((y : Int) * d.step_h) (H - d.patch_h) + d.patch_h)
          py hs hya (by omega)
        refine ⟨mkTile d W H x y, mem_allTiles.2 ⟨x, y, hx, hy, rfl⟩, ?_⟩
        simp only [Tile.dstCovers, hdx, hdy, how, hoh, mkTile]
        refine ⟨ex.1, ?_, ey.1, ?_⟩
        · have := ex.2; linarith
        · have := ey.2; linarith
    · intro t ht hmax
      obtain ⟨x, y, hx, hy, rfl⟩ := mem_allTiles.1 ht
      have hlast := hmax (mkTile d W H (lastIndex W d.patch_w d.step_w : Nat) (y : Nat))
        (mem_allTiles.2 ⟨_, y, le_rfl, hy, rfl⟩) rfl
      simp only [mkTile] at hlast
      have hxe : x = lastIndex W d.patch_w d.step_w := by omega
      have hl := (@mkTile_last_x d W H hpW hsw (y : Int)).1
      simp only [mkTile] at hl
      simp only [mkTile, hdx, how, hfw, hxe, hl]
      ring
    · intro t ht hmax
      obtain ⟨x, y, hx, hy, rfl⟩ := mem_allTiles.1 ht
      have hlast := hmax (mkTile d W H (x : Nat) (lastIndex H d.patch_h d.step_h : Nat))
        (mem_allTiles.2 ⟨x, _, hx, le_rfl, rfl⟩) rfl
      simp only [mkTile] at hlast
      have hye : y = lastIndex H d.patch_h d.step_h := by omega
      have hl := (@mkTile_last_y d W H hpH hsh (x : Int)).1
      simp only [mkTile] at hl
      simp only [mkTile, hdy, hoh, hfh, hye, hl]
      ring

/-- C6, witness: patch = step = 32 on a 64 × 64 plane, scaled by 2 to output
tiles of 64 on a 128 × 128 frame, at grid column 1 of row 0. -/
theorem lockstep_scaled_witness :
    (mkTile (squareConfig 32 32 64 64 128 0) 64 64 ((1 : Nat) : Int) 0).ex = 64 ↔
      (squareConfig 32 32 64 64 128 0).frame_w ≤
        ((1 : Nat) : Int) * (squareConfig 32 32 64 64 128 0).outstep_w +
          (squareConfig 32 32 64 64 128 0).output_w :=
  (lockstep_scaled (squareConfig 32 32 64 64 128 0) 64 64 2 (by decide) (by decide) (by decide)
    (by decide) (by decide) (by decide) (by decide) (by decide) (by decide) (by decide)
    (by decide) (by decide) (by decide)).1 1 0

/-- C6, counterexample to the claim as stated: on a 64 × 64 clip the options
`patch_w = 32`, `outstep_w = 16` are accepted by `mxCreate`; the input row ends
at grid column 1, where the output tile `[16, 48)` is not flush with
`frame_w = 64`, and pixel `(50, 0)` of the output frame lies in the destination
rectangle of no visited tile. -/
theorem lockstep_fails :
    mxCreate id clip64 { noOptions with patch_w := some 32, outstep_w := some 16 } =
        .ok slowOutstepConfig ∧
      (mkTile slowOutstepConfig 64 64 0 0).ex ≠ 64 ∧
      (mkTile slowOutstepConfig 64 64 1 0).ex = 64 ∧
      ¬ (slowOutstepConfig.frame_w ≤
          1 * slowOutstepConfig.outstep_w + slowOutstepConfig.output_w) ∧
      visitedTiles slowOutstepConfig 64 64 2 = some (allTiles slowOutstepConfig 64 64) ∧
      (allTiles slowOutstepConfig 64 64).length = 2 ∧
      ¬ ∃ t ∈ allTiles slowOutstepConfig 64 64, t.dstCovers slowOutstepConfig 50 0 := by
  refine ⟨rfl, ?_⟩
  decide

/-! ## Block copy: what a call writes -/

theorem memcpy_row_iff {base ds dy dx R C w : Int} (hC0 : 0 ≤ C) (hC1 : C < ds)
    (hdx : 0 ≤ dx) (hfit : dx + w ≤ ds) :
    (base + dy * ds + dx ≤ base + R * ds + C ∧ base + R * ds + C < base + dy * ds + dx + w) ↔
      (R = dy ∧ dx ≤ C ∧ C < dx + w) := by
  constructor
  · rintro ⟨h1, h2⟩
    have hR : R = dy := by
      rcases lt_trichotomy R dy with h | h | h
      · exfalso
        have : (R - dy) * ds ≤ -1 * ds := by
          apply mul_le_mul_of_nonneg_right (by omega) (by omega)
        nlinarith
      · exact h
      · exfalso
        have : 1 * ds ≤ (R - dy) * ds := by
          apply mul_le_mul_of_nonneg_right (by omega) (by omega)
        nlinarith
    subst hR
    exact ⟨rfl, by omega, by omega⟩
  · rintro ⟨rfl, h1, h2⟩
    constructor <;> omega

/-- The row loop of `bitblt`, started at row `dy`, column `dx` of a destination
of stride `ds` based at `base`: the value afterwards at row `R`, column `C`. -/
theorem bitbltLoop_at {α : Type} (ds ss : Int) (src : Int → α) (width pad : Nat)
    (base dx R C : Int) (hC0 : 0 ≤ C) (hC1 : C < ds) (hdx : 0 ≤ dx)
    (hfit : dx + (pad : Int) + (width : Int) ≤ ds) :
    ∀ (n : Nat) (dy srcp : Int) (dst : Int → α),
      bitbltLoop ds src ss width pad n (base + dy * ds + dx) srcp dst (base + R * ds + C) =
        if dy ≤ R ∧ R < dy + (n : Int) ∧ dx + (pad : Int) ≤ C ∧ C < dx + (pad : Int) + (width : Int)
        then src (srcp + (R - dy) * ss + (C - dx - (pad : Int)))
        else dst (base + R * ds + C) := by
  intro n
  induction n with
  | zero =>
    intro dy srcp dst
    have : ¬ (dy ≤ R ∧ R < dy + ((0 : Nat) : Int) ∧ dx + (pad : Int) ≤ C ∧
        C < dx + (pad : Int) + (width : Int)) := by
      push_cast; omega
    rw [if_neg this]
    rfl
  | succ n ih =>
    intro dy srcp dst
    have hp : base + dy * ds + dx + ds = base + (dy + 1) * ds + dx := by ring
    simp only [bitbltLoop]
    rw [hp, ih (dy + 1) (srcp + ss)]
    have hrow := @memcpy_row_iff base ds dy (dx + (pad : Int)) R C (width : Int) hC0 hC1
      (by omega) (by omega)
    by_cases hlater : dy + 1 ≤ R ∧ R < dy + 1 + (n : Int) ∧ dx + (pad : Int) ≤ C ∧
        C < dx + (pad : Int) + (width : Int)
    · rw [if_pos hlater, if_pos (by push_cast; omega)]
      congr 1
      ring
    · rw [if_neg hlater]
      simp only [memcpy]
      by_cases hnow : R = dy ∧ dx + (pad : Int) ≤ C ∧ C < dx + (pad : Int) + (width : Int)
      · have hm : base + dy * ds + dx + (pad : Int) ≤ base + R * ds + C ∧
            base + R * ds + C < base + dy * ds + dx + (pad : Int) + (width : Int) := by
          have := hrow.2 hnow
          constructor <;> linarith [this.1, this.2]
        rw [if_pos hm, if_pos (by push_cast; omega)]
        obtain ⟨rfl, _, _⟩ := hnow
        congr 1
        ring
      · have hm : ¬ (base + dy * ds + dx + (pad : Int) ≤ base + R * ds + C ∧
            base + R * ds + C < base + dy * ds + dx + (pad : Int) + (width : Int)) := by
          intro hm
          apply hnow
          apply hrow.1
          constructor <;> linarith [hm.1, hm.2]
        rw [if_neg hm, if_neg (by push_cast; omega)]

/-- The function `bitblt`, called on row `dy`, column `dx ≥ 0` of a destination
of stride `ds` based at `base`, with the rectangle fitting into the row: the
value afterwards at row `R`, column `C`.  Both code paths are covered. -/
theorem bitblt_at {α : Type} (dst : Int → α) (ds : Int) (src : Int → α) (srcp ss : Int)
    (width height pad : Nat) (base dy dx R C : Int) (hC0 : 0 ≤ C) (hC1 : C < ds) (hdx : 0 ≤ dx)
    (hfit : dx + (pad : Int) + (width : Int) ≤ ds) :
    bitblt dst (base + dy * ds + dx) ds src srcp ss width height pad (base + R * ds + C) =
      if dy ≤ R ∧ R < dy + (height : Int) ∧ dx + (pad : Int) ≤ C ∧
          C < dx + (pad : Int) + (width : Int)
      then src (srcp + (R - dy) * ss + (C - dx - (pad : Int)))
      else dst (base + R * ds + C) := by
  unfold bitblt
  by_cases h0 : height = 0
  · rw [if_pos h0, if_neg (by subst h0; push_cast; omega)]
  · rw [if_neg h0]
    by_cases hfast : ss = ds ∧ ss = (width : Int)
    · rw [if_pos hfast]
      obtain ⟨h1, h2⟩ := hfast
      have hdx0 : dx = 0 := by omega
      have hpad0 : (pad : Int) = 0 := by omega
      simp only [memcpy]
      have hw : ds = (width : Int) := by omega
      have hiff : (base + dy * ds + dx ≤ base + R * ds + C ∧
          base + R * ds + C < base + dy * ds + dx + ((width * height : Nat) : Int)) ↔
          (dy ≤ R ∧ R < dy + (height : Int)) := by
        push_cast
        rw [hdx0, ← hw]
        constructor
        · rintro ⟨a1, a2⟩
          constructor
          · by_contra hlt
            have : (R - dy) * ds ≤ -1 * ds := by
              apply mul_le_mul_of_nonneg_right (by omega) (by omega)
            nlinarith
          · by_contra hge
            have : (height : Int) * ds ≤ (R - dy) * ds := by
              apply mul_le_mul_of_nonneg_right (by omega) (by omega)
            nlinarith
        · rintro ⟨a1, a2⟩
          have b1 : 0 * ds ≤ (R - dy) * ds := by
            apply mul_le_mul_of_nonneg_right (by omega) (by omega)
          have b2 : (R - dy + 1) * ds ≤ (height : Int) * ds := by
            apply mul_le_mul_of_nonneg_right (by omega) (by omega)
          constructor <;> nlinarith
      by_cases hin : dy ≤ R ∧ R < dy + (height : Int)
      · rw [if_pos (hiff.2 hin), if_pos (by omega)]
        congr 1
        rw [hdx0, hpad0, h1]
        ring
      · rw [if_neg (fun h => hin (hiff.1 h)), if_neg (by omega)]
    · rw [if_neg hfast]
      exact bitbltLoop_at ds ss src width pad base dx R C hC0 hC1 hdx hfit height dy srcp dst

/-! ## One tile: extract, predict, scatter -/

theorem plane_row_iff {ph r : Int} {c plane : Nat} (hr0 : 0 ≤ r) (hr1 : r < ph) :
    (0 ≤ ((c : Int) - (plane : Int)) * ph + r ∧ ((c : Int) - (plane : Int)) * ph + r < 0 + ph) ↔
      c = plane := by
  constructor
  · rintro ⟨h1, h2⟩
    rcases lt_trichotomy c plane with h | h | h
    · exfalso
      have : ((c : Int) - (plane : Int)) * ph ≤ -1 * ph := by
        apply mul_le_mul_of_nonneg_right (by omega) (by omega)
      omega
    · exact h
    · exfalso
      have : 1 * ph ≤ ((c : Int) - (plane : Int)) * ph := by
        apply mul_le_mul_of_nonneg_right (by omega) (by omega)
      omega
  · rintro rfl
    simp only [sub_self, zero_mul, zero_add]
    omega

/-- One round of the extraction loop writes channel block `plane` of the
patch-input buffer and nothing else of the blocks. -/
theorem extractPlane_at {α : Type} (fmt : VSFormat) (d : mxnetData) (sp : SrcPlanes α) (t : Tile)
    (sb : Int → α) (plane : Nat) (hpl : plane < fmt.numPlanes)
    (hpw : 1 ≤ d.patch_w) (hph : 1 ≤ d.patch_h)
    (c : Nat) (r k : Int) (hr0 : 0 ≤ r) (hr1 : r < d.patch_h) (hk0 : 0 ≤ k) (hk1 : k < d.patch_w) :
    extractPlane fmt d sp t sb plane ((c : Int) * (d.patch_w * d.patch_h) + r * d.patch_w + k) =
      if c = plane then
        sp.mem c (sp.ptr c + t.sx + sp.stride c * t.sy + r * sp.stride c + k)
      else sb ((c : Int) * (d.patch_w * d.patch_h) + r * d.patch_w + k) := by
  unfold extractPlane
  have hch : ((fmt.numPlanes : Nat) : Int) ≠ 0 := by
    have : 0 < fmt.numPlanes := by omega
    exact_mod_cast this.ne'
  rw [Int.mul_tdiv_cancel _ hch]
  have hwn : ((d.patch_w.toNat : Nat) : Int) = d.patch_w := Int.toNat_of_nonneg (by omega)
  have hhn : ((d.patch_h.toNat : Nat) : Int) = d.patch_h := Int.toNat_of_nonneg (by omega)
  have e1 : d.patch_w * d.patch_h * (plane : Int) + 0 * d.patch_w + 0 =
      d.patch_w * d.patch_h * (plane : Int) := by ring
  have e2 : (c : Int) * (d.patch_w * d.patch_h) + r * d.patch_w + k =
      d.patch_w * d.patch_h * (plane : Int) + (((c : Int) - (plane : Int)) * d.patch_h + r) * d.patch_w
        + k := by ring
  have key := bitblt_at sb d.patch_w (sp.mem plane)
    (sp.ptr plane + t.sx + sp.stride plane * t.sy) (sp.stride plane) d.patch_w.toNat
    d.patch_h.toNat 0 (d.patch_w * d.patch_h * (plane : Int)) 0 0
    (((c : Int) - (plane : Int)) * d.patch_h + r) k hk0 hk1 le_rfl (by rw [hwn]; simp)
  rw [e1] at key
  rw [e2, key, hwn, hhn]
  have hrow := @plane_row_iff d.patch_h r c plane hr0 hr1
  by_cases hc : c = plane
  · subst hc
    rw [if_pos rfl, if_pos ⟨(hrow.2 rfl).1, (hrow.2 rfl).2, by simp; omega, by simp; omega⟩]
    congr 1
    push_cast
    ring
  · rw [if_neg hc, if_neg (fun h => hc (hrow.1 ⟨h.1, h.2.1⟩))]

theorem extract_fold_at {α : Type} (fmt : VSFormat) (d : mxnetData) (sp : SrcPlanes α) (t : Tile)
    (hpw : 1 ≤ d.patch_w) (hph : 1 ≤ d.patch_h)
    (c : Nat) (r k : Int) (hr0 : 0 ≤ r) (hr1 : r < d.patch_h) (hk0 : 0 ≤ k) (hk1 : k < d.patch_w) :
    ∀ (n : Nat), n ≤ fmt.numPlanes → ∀ sb : Int → α,
      (List.range n).foldl (extractPlane fmt d sp t) sb
          ((c : Int) * (d.patch_w * d.patch_h) + r * d.patch_w + k) =
        if c < n then
          sp.mem c (sp.ptr c + t.sx + sp.stride c * t.sy + r * sp.stride c + k)
        else sb ((c : Int) * (d.patch_w * d.patch_h) + r * d.patch_w + k) := by
  intro n
  induction n with
  | zero => intro _ sb; simp
  | succ n ih =>
    intro hn sb
    rw [List.range_succ, List.foldl_append, List.foldl_cons, List.foldl_nil,
      extractPlane_at fmt d sp t _ n (by omega) hpw hph c r k hr0 hr1 hk0 hk1, ih (by omega)]
    by_cases hc : c = n
    · rw [if_pos hc, if_pos (by omega)]
    · rw [if_neg hc]
      by_cases hlt : c < n
      · rw [if_pos hlt, if_pos (by omega)]
      · rw [if_neg hlt, if_neg (by omega)]

/-- After the extraction loop the patch-input buffer holds the patches of all
channels, channel-major. -/
theorem extract_at {α : Type} (fmt : VSFormat) (d : mxnetData) (sp : SrcPlanes α) (t : Tile)
    (sb : Int → α) (hpw : 1 ≤ d.patch_w) (hph : 1 ≤ d.patch_h)
    (c : Nat) (hc : c < fmt.numPlanes) (r k : Int) (hr0 : 0 ≤ r) (hr1 : r < d.patch_h)
    (hk0 : 0 ≤ k) (hk1 : k < d.patch_w) :
    extract fmt d sp t sb ((c : Int) * (d.patch_w * d.patch_h) + r * d.patch_w + k) =
      sp.mem c (sp.ptr c + t.sx + sp.stride c * t.sy + r * sp.stride c + k) := by
  unfold extract
  rw [extract_fold_at fmt d sp t hpw hph c r k hr0 hr1 hk0 hk1 fmt.numPlanes le_rfl sb,
    if_pos hc]

theorem shapeSize_fold (l : List Nat) :
    ∀ a : Nat, a < 2 ^ 32 →
      l.foldl (fun acc s => (acc * s) % 2 ^ 32) a = (a * l.prod) % 2 ^ 32 := by
  induction l with
  | nil =>
    intro a ha
    simp only [List.foldl_nil, List.prod_nil, Nat.mul_one]
    exact (Nat.mod_eq_of_lt ha).symm
  | cons x xs ih =>
    intro a _
    rw [List.foldl_cons, ih _ (Nat.mod_lt _ (by norm_num)), List.prod_cons, Nat.mod_mul_mod,
      Nat.mul_assoc]

/-- The 32-bit product of line 159 is the product of the dimensions modulo `2 ^ 32`. -/
theorem shapeSize_eq (l : List Nat) : shapeSize l = l.prod % 2 ^ 32 := by
  unfold shapeSize
  rw [shapeSize_fold l 1 (by norm_num), Nat.one_mul]

/-- With an identity answer and an element count that fits 32 bits, `mxForward`
returns 0 after the four API calls and leaves the leading
`output_w * output_h * channels` elements of the submitted buffer in the
patch-output buffer. -/
theorem mxForward_identity {α : Type} (d : mxnetData) (fmt : VSFormat) (sb db : Int → α)
    (p : MXPred α) (hid : IdentityAnswer d fmt sb p)
    (h0 : 0 ≤ d.output_w * d.output_h * (fmt.numPlanes : Int))
    (h32 : d.output_w * d.output_h * (fmt.numPlanes : Int) < 2 ^ 32) :
    (mxForward p d fmt db).1 = 0 ∧
      (mxForward p d fmt db).2.2 =
        [.MXPredSetInput, .MXPredForward, .MXPredGetOutputShape, .MXPredGetOutput] ∧
      ∀ i : Int, (mxForward p d fmt db).2.1 i =
        if 0 ≤ i ∧ i < d.output_w * d.output_h * (fmt.numPlanes : Int) then sb i else db i := by
  obtain ⟨a1, a2, a3, a4, a5, a6⟩ := hid
  have hsz : ((shapeSize p.shape : Nat) : Int) = d.output_w * d.output_h * (fmt.numPlanes : Int) := by
    have hM : (((2 : Nat) ^ 32 : Nat) : Int) = 2 ^ 32 := by norm_num
    rw [shapeSize_eq, Int.natCast_mod, a5, hM]
    exact Int.emod_eq_of_lt h0 h32
  have hcmp : ((shapeSize p.shape : Nat) : Int) =
      (d.output_h * d.output_w * (fmt.numPlanes : Int)) % 2 ^ 32 := by
    rw [hsz, mul_comm d.output_h d.output_w]
    exact (Int.emod_eq_of_lt h0 h32).symm
  unfold mxForward
  simp only [a1, a2, a3, a4, ne_eq, not_true_eq_false, if_false, hcmp]
  refine ⟨trivial, trivial, ?_⟩
  intro i
  simp only [memcpy]
  rw [hsz]
  by_cases hi : 0 ≤ i ∧ i < d.output_w * d.output_h * (fmt.numPlanes : Int)
  · rw [if_pos hi, if_pos (by omega)]
    have : (0 : Int) + (i - 0) = i := by ring
    rw [this]
    exact a6 i hi.1 hi.2
  · rw [if_neg hi, if_neg (by omega)]

theorem scatter_fold {α : Type} (fmt : VSFormat) (d : mxnetData) (dstStride : Nat → Int)
    (t : Tile) (db : Int → α) (dst : Nat → Int → α) :
    ∀ (n : Nat) (c : Nat),
      (List.range n).foldl (scatterPlane fmt d dstStride t db) dst c =
        if c < n then
          bitblt (dst c) (dstoff_x d t.x + dstoff_y d t.y * dstStride c) (dstStride c) db
            (Int.tdiv (d.output_w * d.output_h * (fmt.numPlanes : Int)) (fmt.numPlanes : Int) *
              (c : Int)) d.output_w d.output_w.toNat d.output_h.toNat 0
        else dst c := by
  intro n
  induction n with
  | zero => intro c; simp
  | succ n ih =>
    intro c
    have hstep : ∀ (f : Nat → Int → α) (pl : Nat),
        scatterPlane fmt d dstStride t db f pl =
          Function.update f pl
            (bitblt (f pl) (dstoff_x d t.x + dstoff_y d t.y * dstStride pl) (dstStride pl) db
              (Int.tdiv (d.output_w * d.output_h * (fmt.numPlanes : Int)) (fmt.numPlanes : Int) *
                (pl : Int)) d.output_w d.output_w.toNat d.output_h.toNat 0) := fun _ _ => rfl
    rw [List.range_succ, List.foldl_append, List.foldl_cons, List.foldl_nil, hstep]
    by_cases hc : c = n
    · subst hc
      rw [Function.update_same, ih c, if_neg (lt_irrefl c), if_pos (by omega)]
    · rw [Function.update_noteq hc, ih c]
      by_cases hlt : c < n
      · rw [if_pos hlt, if_pos (by omega)]
      · rw [if_neg hlt, if_neg (by omega)]

/-- After the scatter loop, plane `c` of the destination frame holds channel
block `c` of the patch-output buffer in the destination rectangle of the tile
and is unchanged elsewhere. -/
theorem scatter_at {α : Type} (fmt : VSFormat) (d : mxnetData) (dstStride : Nat → Int)
    (t : Tile) (db : Int → α) (dst : Nat → Int → α) (c : Nat) (hc : c < fmt.numPlanes)
    (how : 1 ≤ d.output_w) (hoh : 1 ≤ d.output_h)
    (R C : Int) (hC0 : 0 ≤ C) (hC1 : C < dstStride c) (hdx : 0 ≤ dstoff_x d t.x)
    (hfit : dstoff_x d t.x + d.output_w ≤ dstStride c) :
    scatter fmt d dstStride t db dst c (R * dstStride c + C) =
      if t.dstCovers d C R then
        db ((c : Int) * (d.output_w * d.output_h) + (R - dstoff_y d t.y) * d.output_w +
          (C - dstoff_x d t.x))
      else dst c (R * dstStride c + C) := by
  unfold scatter
  rw [scatter_fold, if_pos hc]
  have hch : ((fmt.numPlanes : Nat) : Int) ≠ 0 := by
    have : 0 < fmt.numPlanes := by omega
    exact_mod_cast this.ne'
  rw [Int.mul_tdiv_cancel _ hch]
  have hwn : ((d.output_w.toNat : Nat) : Int) = d.output_w := Int.toNat_of_nonneg (by omega)
  have hhn : ((d.output_h.toNat : Nat) : Int) = d.output_h := Int.toNat_of_nonneg (by omega)
  have key := bitblt_at (dst c) (dstStride c) db (d.output_w * d.output_h * (c : Int)) d.output_w
    d.output_w.toNat d.output_h.toNat 0 0 (dstoff_y d t.y) (dstoff_x d t.x) R C hC0 hC1 hdx
    (by rw [hwn]; simp; exact hfit)
  have e1 : (0 : Int) + dstoff_y d t.y * dstStride c + dstoff_x d t.x =
      dstoff_x d t.x + dstoff_y d t.y * dstStride c := by ring
  have e2 : (0 : Int) + R * dstStride c + C = R * dstStride c + C := by ring
  rw [e1, e2, hwn, hhn] at key
  rw [key]
  simp only [Tile.dstCovers, Nat.cast_zero, add_zero, sub_zero]
  by_cases hin : dstoff_y d t.y ≤ R ∧ R < dstoff_y d t.y + d.output_h ∧ dstoff_x d t.x ≤ C ∧
      C < dstoff_x d t.x + d.output_w
  · rw [if_pos hin, if_pos ⟨hin.2.2.1, hin.2.2.2, hin.1, hin.2.1⟩]
    congr 1
    ring
  · rw [if_neg hin, if_neg (fun h => hin ⟨h.2.2.1, h.2.2.2, h.1, h.2.1⟩)]

theorem block_index_bounds {w h r k : Int} {c n : Nat} (hc : c < n) (hr0 : 0 ≤ r) (hr1 : r < h)
    (hk0 : 0 ≤ k) (hk1 : k < w) :
    0 ≤ (c : Int) * (w * h) + r * w + k ∧ (c : Int) * (w * h) + r * w + k < w * h * (n : Int) := by
  have hw : 0 < w := by omega
  have hh : 0 < h := by omega
  have h1 : 0 ≤ (c : Int) * (w * h) := by positivity
  have h2 : 0 ≤ r * w := mul_nonneg hr0 (by omega)
  have h3 : (r + 1) * w ≤ h * w := mul_le_mul_of_nonneg_right (by omega) (by omega)
  have h4 : ((c : Int) + 1) * (w * h) ≤ (n : Int) * (w * h) :=
    mul_le_mul_of_nonneg_right (by omega) (by positivity)
  constructor
  · linarith
  · nlinarith

/-- One round of the loop body with an identity adapter and an output tile of
the size of the patch: the body returns 0, and every pixel of the destination
frame gets the tile's source pixel if it lies in the destination rectangle of
the tile and keeps its value otherwise. -/
theorem tileBody_identity {α : Type} (mx : Predictor α) (fmt : VSFormat) (d : mxnetData)
    (sp : SrcPlanes α) (dstStride : Nat → Int) (t : Tile) (s : ProcState α)
    (hid : IdentityAdapter d fmt mx) (how : d.output_w = d.patch_w) (hoh : d.output_h = d.patch_h)
    (hpw : 1 ≤ d.patch_w) (hph : 1 ≤ d.patch_h)
    (h32 : d.patch_w * d.patch_h * (fmt.numPlanes : Int) < 2 ^ 32) :
    (tileBody mx fmt d sp dstStride t s).1 = 0 ∧
      (tileBody mx fmt d sp dstStride t s).2.calls = s.calls + 1 ∧
      ∀ (c : Nat) (R C : Int), c < fmt.numPlanes → 0 ≤ C → C < dstStride c →
        0 ≤ dstoff_x d t.x → dstoff_x d t.x + d.output_w ≤ dstStride c →
        (tileBody mx fmt d sp dstStride t s).2.dst c (R * dstStride c + C) =
          if t.dstCovers d C R then tileSource d sp c t R C
          else s.dst c (R * dstStride c + C) := by
  have h0 : 0 ≤ d.output_w * d.output_h * (fmt.numPlanes : Int) := by
    rw [how, hoh]; positivity
  have h32o : d.output_w * d.output_h * (fmt.numPlanes : Int) < 2 ^ 32 := by
    rw [how, hoh]; exact h32
  have hf := mxForward_identity d fmt (extract fmt d sp t s.srcBuffer) s.dstBuffer
    (mx s.calls (extract fmt d sp t s.srcBuffer)) (hid _ _) h0 h32o
  obtain ⟨f1, _, f3⟩ := hf
  unfold tileBody
  simp only [f1, ne_eq, not_true_eq_false, if_false]
  refine ⟨trivial, trivial, ?_⟩
  intro c R C hc hC0 hC1 hdx hfit
  rw [scatter_at fmt d dstStride t _ _ c hc (by omega) (by omega) R C hC0 hC1 hdx hfit]
  by_cases hin : t.dstCovers d C R
  · rw [if_pos hin, if_pos hin, f3]
    obtain ⟨c1, c2, c3, c4⟩ := hin
    have hb := @block_index_bounds d.output_w d.output_h (R - dstoff_y d t.y)
      (C - dstoff_x d t.x) c fmt.numPlanes hc (by omega) (by omega) (by omega)
      (by omega)
    rw [if_pos hb]
    have hx := extract_at fmt d sp t s.srcBuffer hpw hph c hc (R - dstoff_y d t.y)
      (C - dstoff_x d t.x) (by omega) (by omega) (by omega) (by omega)
    rw [how, hoh, hx]
    rfl
  · rw [if_neg hin, if_neg hin]

/-- Running the loop body with an identity adapter over a list of tiles whose
destination rectangles fit into the rows of the destination planes: the run
returns 0 and every pixel has the value `stitch` computes. -/
theorem runTiles_stitch {α : Type} (mx : Predictor α) (fmt : VSFormat) (d : mxnetData)
    (sp : SrcPlanes α) (dstStride : Nat → Int)
    (hid : IdentityAdapter d fmt mx) (how : d.output_w = d.patch_w) (hoh : d.output_h = d.patch_h)
    (hpw : 1 ≤ d.patch_w) (hph : 1 ≤ d.patch_h)
    (h32 : d.patch_w * d.patch_h * (fmt.numPlanes : Int) < 2 ^ 32)
    (c : Nat) (hc : c < fmt.numPlanes) (R C : Int) (hC0 : 0 ≤ C) (hC1 : C < dstStride c) :
    ∀ (ts : List Tile) (s : ProcState α),
      (∀ t ∈ ts, 0 ≤ dstoff_x d t.x ∧ dstoff_x d t.x + d.output_w ≤ dstStride c) →
      (runTiles (tileBody mx fmt d sp dstStride) ts s).1 = 0 ∧
        (runTiles (tileBody mx fmt d sp dstStride) ts s).2.calls = s.calls + ts.length ∧
        (runTiles (tileBody mx fmt d sp dstStride) ts s).2.dst c (R * dstStride c + C) =
          stitch d sp c R C ts (s.dst c (R * dstStride c + C)) := by
  intro ts
  induction ts with
  | nil => intro s _; exact ⟨rfl, rfl, rfl⟩
  | cons t ts ih =>
    intro s hts
    have hb := tileBody_identity mx fmt d sp dstStride t s hid how hoh hpw hph h32
    obtain ⟨b1, b2, b3⟩ := hb
    have ht := hts t (List.mem_cons_self _ _)
    have hrest := ih (tileBody mx fmt d sp dstStride t s).2
      (fun u hu => hts u (List.mem_cons_of_mem _ hu))
    simp only [runTiles, b1, ne_eq, not_true_eq_false, if_false]
    refine ⟨hrest.1, ?_, ?_⟩
    · rw [hrest.2.1, b2, List.length_cons]; omega
    · rw [hrest.2.2, b3 c R C hc hC0 hC1 ht.1 ht.2]
      rfl

/-! ## The whole frame with an identity adapter -/

theorem dstoff_x_bounds {d : mxnetData} (hof : d.output_w ≤ d.frame_w) (hos : 0 ≤ d.outstep_w)
    (x : Nat) : 0 ≤ dstoff_x d x ∧ dstoff_x d x + d.output_w ≤ d.frame_w := by
  have : 0 ≤ (x : Int) * d.outstep_w := by positivity
  unfold dstoff_x
  omega

/-- The frame pipeline with an identity adapter and output tiles of the size of
the patch: with enough fuel `process` returns 0 after one predictor call per
grid tile, and every pixel of the destination frame has the value obtained by
stitching the grid tiles in row-major order. -/
theorem process_stitch {α : Type} (mx : Predictor α) (cv : CopyMakeBorder α) (fmt : VSFormat)
    (src dst : VSFrame α) (d : mxnetData) (srcBuffer dstBuffer padBuffer : Int → α)
    (hsub : fmt.subSamplingW = 0 ∧ fmt.subSamplingH = 0)
    (hid : IdentityAdapter d fmt mx) (how : d.output_w = d.patch_w) (hoh : d.output_h = d.patch_h)
    (hpw : 1 ≤ d.patch_w) (hpW : d.patch_w ≤ src.width + d.pad * 2)
    (hph : 1 ≤ d.patch_h) (hpH : d.patch_h ≤ src.height + d.pad * 2)
    (hsw : 1 ≤ d.step_w) (hsh : 1 ≤ d.step_h)
    (h32 : d.patch_w * d.patch_h * (fmt.numPlanes : Int) < 2 ^ 32)
    (hof : d.output_w ≤ d.frame_w) (hos : 0 ≤ d.outstep_w)
    (hds : ∀ c : Nat, c < fmt.numPlanes → d.frame_w ≤ dst.stride c)
    (fuel : Nat)
    (hfx : lastIndex (src.width + d.pad * 2) d.patch_w d.step_w < fuel)
    (hfy : lastIndex (src.height + d.pad * 2) d.patch_h d.step_h < fuel) :
    ∃ s : ProcState α,
      process mx cv fmt src dst d srcBuffer dstBuffer padBuffer fuel = some (0, s) ∧
      s.calls = (allTiles d (src.width + d.pad * 2) (src.height + d.pad * 2)).length ∧
      ∀ (c : Nat) (R C : Int), c < fmt.numPlanes → 0 ≤ C → C < dst.stride c →
        s.dst c (R * dst.stride c + C) =
          stitch d
            (srcPlanes src d
              (if d.pad > 0 then padPlanes cv fmt src d padBuffer else padBuffer))
            c R C (allTiles d (src.width + d.pad * 2) (src.height + d.pad * 2))
            (dst.data c (R * dst.stride c + C)) := by
  have hnsub : ¬ (fmt.subSamplingH ≠ 0 ∨ fmt.subSamplingW ≠ 0) := by
    rw [hsub.1, hsub.2]; simp
  have hgeo : ∀ (c : Nat), c < fmt.numPlanes →
      ∀ t ∈ allTiles d (src.width + d.pad * 2) (src.height + d.pad * 2),
        0 ≤ dstoff_x d t.x ∧ dstoff_x d t.x + d.output_w ≤ dst.stride c := by
    intro c hc t ht
    obtain ⟨x, y, _, _, rfl⟩ := mem_allTiles.1 ht
    have hb := dstoff_x_bounds hof hos x
    have := hds c hc
    simp only [mkTile]
    omega
  unfold process
  simp only [if_neg hnsub]
  rw [tileLoop_allTiles d _ _ _ hsw hpW hsh hpH fuel fuel hfx hfy]
  have hrun : ∀ (ts : List Tile) (s : ProcState α),
      (runTiles (tileBody mx fmt d (srcPlanes src d (if d.pad > 0 then padPlanes cv fmt src d padBuffer else padBuffer)) dst.stride) ts s).1 = 0 ∧
      (runTiles (tileBody mx fmt d (srcPlanes src d (if d.pad > 0 then padPlanes cv fmt src d padBuffer else padBuffer)) dst.stride) ts s).2.calls = s.calls + ts.length := by
    intro ts
    induction ts with
    | nil => intro s; exact ⟨rfl, rfl⟩
    | cons t ts ih =>
      intro s
      have hb := tileBody_identity mx fmt d (srcPlanes src d (if d.pad > 0 then padPlanes cv fmt src d padBuffer else padBuffer)) dst.stride t s hid how hoh hpw hph h32
      simp only [runTiles, hb.1, ne_eq, not_true_eq_false, if_false]
      refine ⟨(ih _).1, ?_⟩
      rw [(ih _).2, hb.2.1, List.length_cons]; omega
  refine ⟨(runTiles (tileBody mx fmt d (srcPlanes src d (if d.pad > 0 then padPlanes cv fmt src d padBuffer else padBuffer)) dst.stride) (allTiles d (src.width + d.pad * 2) (src.height + d.pad * 2))
    { srcBuffer := srcBuffer, dstBuffer := dstBuffer,
      padBuffer := (if d.pad > 0 then padPlanes cv fmt src d padBuffer else padBuffer),
      dst := dst.data, calls := 0, api := [] }).2, ?_, ?_, ?_⟩
  · exact congrArg some (Prod.ext (hrun _ _).1 rfl)
  · rw [(hrun _ _).2]; simp
  · intro c R C hc hC0 hC1
    exact (runTiles_stitch mx fmt d (srcPlanes src d (if d.pad > 0 then padPlanes cv fmt src d padBuffer else padBuffer)) dst.stride hid how hoh hpw hph h32 c hc R C hC0 hC1
      (allTiles d (src.width + d.pad * 2) (src.height + d.pad * 2)) _ (hgeo c hc)).2.2

/-- Stitching tiles that all deliver the value `a` at a pixel gives `a` as soon
as one of them holds the pixel, or the pixel had the value `a` before. -/
theorem stitch_const {α : Type} (d : mxnetData) (sp : SrcPlanes α) (c : Nat) (R C : Int) (a : α) :
    ∀ (ts : List Tile) (v : α),
      (∀ t ∈ ts, t.dstCovers d C R → tileSource d sp c t R C = a) →
      ((∃ t ∈ ts, t.dstCovers d C R) ∨ v = a) → stitch d sp c R C ts v = a := by
  intro ts
  induction ts with
  | nil =>
    intro v _ h
    rcases h with ⟨t, ht, _⟩ | h
    · simp at ht
    · exact h
  | cons t ts ih =>
    intro v hall h
    unfold stitch
    rw [List.foldl_cons]
    apply ih
    · exact fun u hu => hall u (List.mem_cons_of_mem _ hu)
    · by_cases hc : t.dstCovers d C R
      · right
        rw [if_pos hc]
        exact hall t (List.mem_cons_self _ _) hc
      · rw [if_neg hc]
        rcases h with ⟨u, hu, huc⟩ | h
        · rcases List.mem_cons.1 hu with rfl | hu2
          · exact absurd huc hc
          · exact Or.inl ⟨u, hu2, huc⟩
        · exact Or.inr h

theorem identityPredictor_spec {α : Type} (d : mxnetData) (fmt : VSFormat)
    (how : 0 ≤ d.output_w) (hoh : 0 ≤ d.output_h) :
    IdentityAdapter d fmt (identityPredictor d fmt : Predictor α) := by
  intro k sb
  refine ⟨rfl, rfl, rfl, rfl, ?_, fun _ _ _ => rfl⟩
  simp only [identityPredictor, List.prod_cons, List.prod_nil]
  push_cast
  rw [Int.toNat_of_nonneg how, Int.toNat_of_nonneg hoh]
  ring

theorem srcPlanes_unpadded {α : Type} (src : VSFrame α) (d : mxnetData) (pb : Int → α)
    (hpad : d.pad = 0) :
    srcPlanes src d pb = { mem := src.data, ptr := fun _ => 0, stride := src.stride } := by
  unfold srcPlanes
  rw [if_neg (by omega)]

/-- C3: for a frame of size `W × H` with any number of planes (none
subsampled), `pad = 0`, `1 ≤ step ≤ patch ≤ frame size` on both axes, output
tile = patch, outstep = step, output frame of size `W × H` (its rows holding at
least `W` pixels), an identity adapter, and a patch element count that fits the
32-bit count handed to the predictor: with enough fuel `process` returns 0 and
every plane of the output frame equals the input plane pixel for pixel. -/
theorem process_identity {α : Type} (mx : Predictor α) (cv : CopyMakeBorder α) (fmt : VSFormat)
    (src dst : VSFrame α) (d : mxnetData) (srcBuffer dstBuffer padBuffer : Int → α)
    (hsub : fmt.subSamplingW = 0 ∧ fmt.subSamplingH = 0) (hpad : d.pad = 0)
    (hsw : 1 ≤ d.step_w) (hspw : d.step_w ≤ d.patch_w) (hpW : d.patch_w ≤ src.width)
    (hsh : 1 ≤ d.step_h) (hsph : d.step_h ≤ d.patch_h) (hpH : d.patch_h ≤ src.height)
    (how : d.output_w = d.patch_w) (hoh : d.output_h = d.patch_h)
    (hosw : d.outstep_w = d.step_w) (hosh : d.outstep_h = d.step_h)
    (hfw : d.frame_w = src.width) (hfh : d.frame_h = src.height)
    (hdw : dst.width = src.width) (hdh : dst.height = src.height)
    (hds : ∀ c : Nat, c < fmt.numPlanes → dst.width ≤ dst.stride c)
    (hid : IdentityAdapter d fmt mx)
    (h32 : d.patch_w * d.patch_h * (fmt.numPlanes : Int) < 2 ^ 32) :
    ∃ n : Nat, ∀ fuel : Nat, n ≤ fuel → ∃ s : ProcState α,
      process mx cv fmt src dst d srcBuffer dstBuffer padBuffer fuel = some (0, s) ∧
      ∀ (c : Nat) (R C : Int), c < fmt.numPlanes → 0 ≤ R → R < src.height → 0 ≤ C →
        C < src.width → s.dst c (R * dst.stride c + C) = src.data c (R * src.stride c + C) := by
  have _ := hdh
  have hW : src.width + d.pad * 2 = src.width := by rw [hpad]; ring
  have hH : src.height + d.pad * 2 = src.height := by rw [hpad]; ring
  refine ⟨lastIndex src.width d.patch_w d.step_w + lastIndex src.height d.patch_h d.step_h + 1,
    fun fuel hfuel => ?_⟩
  obtain ⟨s, hs, _, hpix⟩ := process_stitch mx cv fmt src dst d srcBuffer dstBuffer padBuffer
    hsub hid how hoh (by omega) (by rw [hW]; exact hpW) (by omega) (by rw [hH]; exact hpH)
    hsw hsh h32 (by omega) (by omega) (fun c hc => by have := hds c hc; omega) fuel
    (by rw [hW]; omega) (by rw [hH]; omega)
  refine ⟨s, hs, ?_⟩
  intro c R C hc hR0 hR1 hC0 hC1
  have hdsc := hds c hc
  rw [hpix c R C hc hC0 (by omega), hW, hH, srcPlanes_unpadded src d _ hpad]
  have hdx : ∀ x : Int, dstoff_x d x = min (x * d.step_w) (src.width - d.patch_w) := by
    intro x
    rw [dstoff_x, hfw, how, hosw, min_comm]
  have hdy : ∀ y : Int, dstoff_y d y = min (y * d.step_h) (src.height - d.patch_h) := by
    intro y
    rw [dstoff_y, hfh, hoh, hosh, min_comm]
  apply stitch_const
  · intro t ht _
    obtain ⟨x, y, _, _, rfl⟩ := mem_allTiles.1 ht
    simp only [tileSource, hdx, hdy, mkTile]
    congr 1
    ring
  · left
    obtain ⟨x, hx, hxa, hxb⟩ := axis_cover hsw hspw hpW C hC0 hC1
    obtain ⟨y, hy, hya, hyb⟩ := axis_cover hsh hsph hpH R hR0 hR1
    refine ⟨mkTile d src.width src.height x y, mem_allTiles.2 ⟨x, y, hx, hy, rfl⟩, ?_⟩
    simp only [Tile.dstCovers, hdx, hdy, how, hoh, mkTile]
    omega

/-- C3, witness: the 64 × 64 single-plane ramp frame with
patch = step = output = outstep = 32, `pad = 0` and the identity predictor. -/
theorem process_identity_witness :
    ∃ n : Nat, ∀ fuel : Nat, n ≤ fuel → ∃ s : ProcState Int,
      process (identityPredictor (squareConfig 32 32 32 32 64 0) (floatFormat 1)) noBorder
          (floatFormat 1) rampFrame blankFrame (squareConfig 32 32 32 32 64 0)
          (fun _ => 0) (fun _ => 0) (fun _ => 0) fuel = some (0, s) ∧
      ∀ (c : Nat) (R C : Int), c < (floatFormat 1).numPlanes → 0 ≤ R → R < rampFrame.height →
        0 ≤ C → C < rampFrame.width →
        s.dst c (R * blankFrame.stride c + C) = rampFrame.data c (R * rampFrame.stride c + C) :=
  process_identity (identityPredictor (squareConfig 32 32 32 32 64 0) (floatFormat 1)) noBorder
    (floatFormat 1) rampFrame blankFrame (squareConfig 32 32 32 32 64 0)
    (fun _ => 0) (fun _ => 0) (fun _ => 0) ⟨rfl, rfl⟩ rfl (by decide) (by decide) (by decide)
    (by decide) (by decide) (by decide) rfl rfl rfl rfl rfl rfl rfl rfl
    (fun _ _ => le_refl (64 : Int))
    (identityPredictor_spec _ _ (by decide) (by decide)) (by decide)

/-! ## The padded end-to-end scenario -/

theorem copyMakeBorderReplicate_spec {α : Type} :
    ReplicateBorder (copyMakeBorderReplicate : CopyMakeBorder α) := by
  intro mem buf rows cols pad i j hi0 hi1 hj0 hj1
  unfold copyMakeBorderReplicate
  have hc : cols ≠ 0 := by omega
  have e : buf + i * cols + j - buf = j + i * cols := by ring
  have hdiv : (j + i * cols) / cols = i := by
    rw [Int.add_mul_ediv_right _ _ hc, Int.ediv_eq_zero_of_lt hj0 hj1, zero_add]
  have hmod : (j + i * cols) % cols = j := by
    rw [Int.add_mul_emod_self, Int.emod_eq_of_lt hj0 hj1]
  simp only [e, hdiv, hmod]
  rw [if_pos ⟨hi0, hi1⟩]

/-- With one plane, a positive margin and a replicating border stage, the pad
buffer after the padding loop holds the replicate extension of the source
plane. -/
theorem padPlanes_replicate {α : Type} (cv : CopyMakeBorder α) (hcv : ReplicateBorder cv)
    (fmt : VSFormat) (hpl : fmt.numPlanes = 1) (src : VSFrame α) (d : mxnetData)
    (pbuf : Int → α) (hbt : d.border_type = BORDER_REPLICATE) (hpad : 0 < d.pad)
    (hw : 1 ≤ src.width) (hh : 1 ≤ src.height) (i j : Int)
    (hi0 : 0 ≤ i) (hi1 : i < src.height + d.pad * 2) (hj0 : 0 ≤ j)
    (hj1 : j < src.width + d.pad * 2) :
    padPlanes cv fmt src d pbuf (i * (src.width + d.pad * 2) + j) =
      src.data 0 ((max d.pad (min i (src.height + d.pad * 2 - d.pad - 1)) - d.pad) * src.stride 0 +
        (max d.pad (min j (src.width + d.pad * 2 - d.pad - 1)) - d.pad)) := by
  unfold padPlanes
  rw [hpl]
  have hr : List.range 1 = [0] := rfl
  rw [hr, List.foldl_cons, List.foldl_nil]
  unfold padPlane
  simp only [Nat.cast_zero, mul_zero, zero_add, hbt]
  have := hcv (bitblt pbuf ((src.width + d.pad * 2) * d.pad) (src.width + d.pad * 2) (src.data 0) 0
      (src.stride 0) src.width.toNat src.height.toNat d.pad.toNat) 0
      (src.height + d.pad * 2) (src.width + d.pad * 2) d.pad i j hi0 hi1 hj0 hj1
  simp only [zero_add] at this
  rw [this]
  have key := bitblt_at pbuf (src.width + d.pad * 2) (src.data 0) 0 (src.stride 0)
    src.width.toNat src.height.toNat d.pad.toNat 0 d.pad 0
    (max d.pad (min i (src.height + d.pad * 2 - d.pad - 1)))
    (max d.pad (min j (src.width + d.pad * 2 - d.pad - 1))) (by omega) (by omega) le_rfl
    (by rw [Int.toNat_of_nonneg (by omega : 0 ≤ d.pad), Int.toNat_of_nonneg (by omega : 0 ≤ src.width)]; omega)
  rw [Int.toNat_of_nonneg (by omega : 0 ≤ d.pad), Int.toNat_of_nonneg (by omega : 0 ≤ src.width),
    Int.toNat_of_nonneg (by omega : 0 ≤ src.height)] at key
  have e1 : (0 : Int) + d.pad * (src.width + d.pad * 2) + 0 = (src.width + d.pad * 2) * d.pad := by ring
  rw [e1] at key
  simp only [zero_add] at key
  rw [key, if_pos (by omega)]
  congr 1
  ring


theorem allTiles_padded :
    allTiles paddedConfig 72 72 =
      [mkTile paddedConfig 72 72 0 0, mkTile paddedConfig 72 72 1 0, mkTile paddedConfig 72 72 2 0,
       mkTile paddedConfig 72 72 0 1, mkTile paddedConfig 72 72 1 1, mkTile paddedConfig 72 72 2 1,
       mkTile paddedConfig 72 72 0 2, mkTile paddedConfig 72 72 1 2, mkTile paddedConfig 72 72 2 2] := by
  decide

theorem process_padded {α : Type} (mx : Predictor α) (cv : CopyMakeBorder α)
    (src dst : VSFrame α) (srcBuffer dstBuffer padBuffer : Int → α)
    (hw : src.width = 64) (hh : src.height = 64) (hds : 64 ≤ dst.stride 0)
    (hcv : ReplicateBorder cv) (hid : IdentityAdapter paddedConfig (floatFormat 1) mx)
    (fuel : Nat) (hfuel : 3 ≤ fuel) :
    ∃ s : ProcState α,
      process mx cv (floatFormat 1) src dst paddedConfig srcBuffer dstBuffer padBuffer fuel =
        some (0, s) ∧
      ∀ R C : Int, 0 ≤ R → R < 64 → 0 ≤ C → C < 64 →
        s.dst 0 (R * dst.stride 0 + C) =
          src.data 0 (shiftedIndex R * src.stride 0 + shiftedIndex C) := by
  have hW : src.width + paddedConfig.pad * 2 = 72 := by rw [hw]; rfl
  have hH : src.height + paddedConfig.pad * 2 = 72 := by rw [hh]; rfl
  have hL : lastIndex 72 paddedConfig.patch_w paddedConfig.step_w = 2 := by decide
  have hL2 : lastIndex 72 paddedConfig.patch_h paddedConfig.step_h = 2 := by decide
  obtain ⟨s, hs, _, hpix⟩ := process_stitch mx cv (floatFormat 1) src dst paddedConfig srcBuffer
    dstBuffer padBuffer ⟨rfl, rfl⟩ hid rfl rfl (by decide) (by rw [hW]; decide) (by decide)
    (by rw [hH]; decide) (by decide) (by decide) (by decide) (by decide) (by decide)
    (fun c hc => by
      have : c = 0 := by
        have : c < 1 := hc
        omega
      subst this
      exact hds) fuel (by rw [hW, hL]; omega) (by rw [hH, hL2]; omega)
  refine ⟨s, hs, ?_⟩
  intro R C hR0 hR1 hC0 hC1
  rw [hpix 0 R C (by decide) hC0 (by omega), hW, hH, allTiles_padded]
  have hpadpos : paddedConfig.pad > 0 := by decide
  rw [if_pos hpadpos]
  have hts : ∀ (t : Tile) , 0 ≤ t.sy + R - dstoff_y paddedConfig t.y →
      t.sy + R - dstoff_y paddedConfig t.y < 72 → 0 ≤ t.sx + C - dstoff_x paddedConfig t.x →
      t.sx + C - dstoff_x paddedConfig t.x < 72 →
      tileSource paddedConfig (srcPlanes src paddedConfig
        (padPlanes cv (floatFormat 1) src paddedConfig padBuffer)) 0 t R C =
        src.data 0 ((max 4 (min (t.sy + R - dstoff_y paddedConfig t.y) 67) - 4) * src.stride 0 +
          (max 4 (min (t.sx + C - dstoff_x paddedConfig t.x) 67) - 4)) := by
    intro t h1 h2 h3 h4
    have hp := padPlanes_replicate cv hcv (floatFormat 1) rfl src paddedConfig padBuffer rfl
      (by decide) (by omega) (by omega) (t.sy + R - dstoff_y paddedConfig t.y)
      (t.sx + C - dstoff_x paddedConfig t.x) h1 (by rw [hH]; exact h2) h3 (by rw [hW]; exact h4)
    rw [hW, hH] at hp
    have hpd : paddedConfig.pad = 4 := rfl
    rw [hpd] at hp
    norm_num at hp
    unfold tileSource srcPlanes
    rw [if_pos hpadpos]
    simp only [hW, hH, Nat.cast_zero, mul_zero]
    rw [← hp]
    congr 1
    ring
  have dx0 : dstoff_x paddedConfig 0 = 0 := by decide
  have dx1 : dstoff_x paddedConfig 1 = 32 := by decide
  have dx2 : dstoff_x paddedConfig 2 = 32 := by decide
  have dy0 : dstoff_y paddedConfig 0 = 0 := by decide
  have dy1 : dstoff_y paddedConfig 1 = 32 := by decide
  have dy2 : dstoff_y paddedConfig 2 = 32 := by decide
  have how : paddedConfig.output_w = 32 := rfl
  have hoh : paddedConfig.output_h = 32 := rfl
  have hm : ∀ x y : Int, mkTile paddedConfig 72 72 x y =
      { x := x, y := y, sx := min (x * 32) 40, ex := min (x * 32 + 32) 72,
        sy := min (y * 32) 40, ey := min (y * 32 + 32) 72 } := fun _ _ => rfl
  simp only [stitch, List.foldl_cons, List.foldl_nil]
  simp only [Tile.dstCovers, hm, dx0, dx1, dx2, dy0, dy1, dy2, how, hoh]
  split_ifs
  all_goals first
    | (exfalso; omega)
    | (rw [hts _ (by dsimp only; simp only [dy0, dy1, dy2]; omega)
          (by dsimp only; simp only [dy0, dy1, dy2]; omega)
          (by dsimp only; simp only [dx0, dx1, dx2]; omega)
          (by dsimp only; simp only [dx0, dx1, dx2]; omega)]
       dsimp only
       simp only [dx0, dx1, dx2, dy0, dy1, dy2]
       congr 1
       congr 1
       · congr 1
         unfold shiftedIndex
         split_ifs <;> omega
       · unfold shiftedIndex
         split_ifs <;> omega)

/-- C2, as the code has it: for every 64 × 64 single-plane input frame, with
patch = step = output = outstep = 32, padding 4, an edge-replicating border
stage, an output frame of 64 × 64 and an identity adapter, `process` (with
fuel 3 or more) returns 0 and pixel `(r, c)` of the output frame is pixel
`(shiftedIndex r, shiftedIndex c)` of the input frame: each quadrant of the
output is a corner tile of the padded plane, the padding is not stripped. -/
theorem process_padded_shifted {α : Type} (mx : Predictor α) (cv : CopyMakeBorder α)
    (src dst : VSFrame α) (srcBuffer dstBuffer padBuffer : Int → α)
    (hw : src.width = 64) (hh : src.height = 64) (hds : 64 ≤ dst.stride 0)
    (hcv : ReplicateBorder cv) (hid : IdentityAdapter paddedConfig (floatFormat 1) mx) :
    ∃ n : Nat, ∀ fuel : Nat, n ≤ fuel → ∃ s : ProcState α,
      process mx cv (floatFormat 1) src dst paddedConfig srcBuffer dstBuffer padBuffer fuel =
        some (0, s) ∧
      ∀ R C : Int, 0 ≤ R → R < 64 → 0 ≤ C → C < 64 →
        s.dst 0 (R * dst.stride 0 + C) =
          src.data 0 (shiftedIndex R * src.stride 0 + shiftedIndex C) :=
  ⟨3, fun fuel hfuel =>
    process_padded mx cv src dst srcBuffer dstBuffer padBuffer hw hh hds hcv hid fuel hfuel⟩

/-- C2, witness: the ramp frame, the replicating border model and the identity
predictor. -/
theorem process_padded_shifted_witness :
    ∃ n : Nat, ∀ fuel : Nat, n ≤ fuel → ∃ s : ProcState Int,
      process (identityPredictor paddedConfig (floatFormat 1)) copyMakeBorderReplicate
          (floatFormat 1) rampFrame blankFrame paddedConfig
          (fun _ => 0) (fun _ => 0) (fun _ => 0) fuel = some (0, s) ∧
      ∀ R C : Int, 0 ≤ R → R < 64 → 0 ≤ C → C < 64 →
        s.dst 0 (R * blankFrame.stride 0 + C) =
          rampFrame.data 0 (shiftedIndex R * rampFrame.stride 0 + shiftedIndex C) :=
  process_padded_shifted (identityPredictor paddedConfig (floatFormat 1)) copyMakeBorderReplicate
    rampFrame blankFrame (fun _ => 0) (fun _ => 0) (fun _ => 0) rfl rfl (le_refl (64 : Int))
    copyMakeBorderReplicate_spec (identityPredictor_spec _ _ (by decide) (by decide))

/-- C2, counterexample to the claim as stated: on the ramp frame (pixel
`(r, c)` has the value `64 * r + c`), with the replicating border model and the
identity predictor, `process` returns 0 and pixel `(0, 5)` of the output frame
is 1, while pixel `(0, 5)` of the input frame is 5. -/
theorem process_padded_differs :
    (process (identityPredictor paddedConfig (floatFormat 1)) copyMakeBorderReplicate
        (floatFormat 1) rampFrame blankFrame paddedConfig
        (fun _ => 0) (fun _ => 0) (fun _ => 0) 3).map
        (fun r => (r.1, r.2.dst 0 (0 * blankFrame.stride 0 + 5))) = some (0, 1) ∧
      rampFrame.data 0 (0 * rampFrame.stride 0 + 5) = 5 := by
  obtain ⟨s, hs, hp⟩ := process_padded (identityPredictor paddedConfig (floatFormat 1))
    copyMakeBorderReplicate rampFrame blankFrame (fun _ => 0) (fun _ => 0) (fun _ => 0) rfl rfl
    (le_refl (64 : Int)) copyMakeBorderReplicate_spec
    (identityPredictor_spec _ _ (by decide) (by decide)) 3 le_rfl
  have h := hp 0 5 (by decide) (by decide) (by decide) (by decide)
  refine ⟨?_, by decide⟩
  rw [hs, Option.map_some', h]
  rfl

/-! ## Block copy: what the row loop leaves alone -/

/-- The row loop of `bitblt` writes only inside the rows it copies. -/
theorem bitbltLoop_frame {α : Type} (ds ss : Int) (src : Int → α) (width pad : Nat) (k : Int) :
    ∀ (n : Nat) (dstp srcp : Int) (dst : Int → α),
      (∀ i j : Nat, i < n → j < width → k ≠ dstp + (i : Int) * ds + (pad : Int) + (j : Int)) →
      bitbltLoop ds src ss width pad n dstp srcp dst k = dst k := by
  intro n
  induction n with
  | zero => intro dstp srcp dst _; rfl
  | succ n ih =>
    intro dstp srcp dst h
    simp only [bitbltLoop]
    rw [ih]
    · simp only [memcpy]
      rw [if_neg]
      rintro ⟨h1, h2⟩
      have hj : ((k - dstp - (pad : Int)).toNat : Int) = k - dstp - (pad : Int) :=
        Int.toNat_of_nonneg (by omega)
      apply h 0 (k - dstp - (pad : Int)).toNat (by omega) (by omega)
      rw [hj]
      push_cast
      ring
    · intro i j hi hj
      have := h (i + 1) j (by omega) hj
      intro hk
      apply this
      rw [hk]
      push_cast
      ring

/-- Moving the column offset into the destination pointer does not change the
row loop. -/
theorem bitbltLoop_pad {α : Type} (ds ss : Int) (src : Int → α) (width pad : Nat) :
    ∀ (n : Nat) (dstp srcp : Int) (dst : Int → α),
      bitbltLoop ds src ss width pad n dstp srcp dst =
        bitbltLoop ds src ss width 0 n (dstp + (pad : Int)) srcp dst := by
  intro n
  induction n with
  | zero => intro _ _ _; rfl
  | succ n ih =>
    intro dstp srcp dst
    simp only [bitbltLoop]
    rw [ih]
    have e1 : dstp + ds + (pad : Int) = dstp + (pad : Int) + ds := by ring
    have e2 : dstp + (pad : Int) + ((0 : Nat) : Int) = dstp + (pad : Int) := by simp
    rw [e1, e2]

/-! ## Scaled grids -/

/-- C19: for every integer scale `s ≥ 1` and `1 ≤ patchW ≤ W`, `stepW ≥ 1`, when
`output_w = s*patchW`, `outstep_w = s*stepW` and `frame_w = s*W`, for every grid
index `x ≥ 0` the destination origin `min(frame_w - output_w, x*outstep_w)` of
line 248 is `s * min(x*stepW, W - patchW)`, so the destination rectangle
`[dstoff_x, dstoff_x + output_w)` of a tile is its source rectangle `[sx, ex)`
scaled by `s`; with the same on the other axis the same holds per column. -/
theorem scaled_grid_congruent (d : mxnetData) (W H s : Int) (hs : 1 ≤ s)
    (hpw : 1 ≤ d.patch_w) (hpW : d.patch_w ≤ W) (hsw : 1 ≤ d.step_w)
    (how : d.output_w = s * d.patch_w) (hosw : d.outstep_w = s * d.step_w)
    (hfw : d.frame_w = s * W) :
    (∀ x y : Int, 0 ≤ x →
      min (d.frame_w - d.output_w) (x * d.outstep_w) = s * min (x * d.step_w) (W - d.patch_w) ∧
      dstoff_x d x = s * (mkTile d W H x y).sx ∧
      dstoff_x d x + d.output_w = s * (mkTile d W H x y).ex) ∧
    (1 ≤ d.patch_h → d.patch_h ≤ H → 1 ≤ d.step_h → d.output_h = s * d.patch_h →
      d.outstep_h = s * d.step_h → d.frame_h = s * H →
      ∀ x y : Int, 0 ≤ y →
        min (d.frame_h - d.output_h) (y * d.outstep_h) = s * min (y * d.step_h) (H - d.patch_h) ∧
        dstoff_y d y = s * (mkTile d W H x y).sy ∧
        dstoff_y d y + d.output_h = s * (mkTile d W H x y).ey) := by
  have _ := hpw
  have _ := hpW
  have _ := hsw
  constructor
  · intro x y _
    have h1 : min (d.frame_w - d.output_w) (x * d.outstep_w) =
        s * min (x * d.step_w) (W - d.patch_w) := by
      rw [hfw, how, hosw]
      exact dstoff_scaled s W d.patch_w d.step_w x (by omega)
    refine ⟨h1, h1, ?_⟩
    have h2 : min (x * d.step_w + d.patch_w) W = min (x * d.step_w) (W - d.patch_w) + d.patch_w := by
      omega
    simp only [dstoff_x, mkTile]
    rw [h1, h2, how]
    ring
  · intro _ hpH _ hoh hosh hfh x y _
    have h1 : min (d.frame_h - d.output_h) (y * d.outstep_h) =
        s * min (y * d.step_h) (H - d.patch_h) := by
      rw [hfh, hoh, hosh]
      exact dstoff_scaled s H d.patch_h d.step_h y (by omega)
    refine ⟨h1, h1, ?_⟩
    have h2 : min (y * d.step_h + d.patch_h) H = min (y * d.step_h) (H - d.patch_h) + d.patch_h := by
      omega
    simp only [dstoff_y, mkTile]
    rw [h1, h2, hoh]
    ring

/-- C19, witness: patch = step = 32 on a 64 × 64 plane, scaled by 2 to output
tiles of 64 on a 128 × 128 frame, at grid column 1 and at grid row 1. -/
theorem scaled_grid_congruent_witness :
    (dstoff_x (squareConfig 32 32 64 64 128 0) 1 =
        2 * (mkTile (squareConfig 32 32 64 64 128 0) 64 64 1 0).sx ∧
      dstoff_x (squareConfig 32 32 64 64 128 0) 1 + (squareConfig 32 32 64 64 128 0).output_w =
        2 * (mkTile (squareConfig 32 32 64 64 128 0) 64 64 1 0).ex) ∧
    (dstoff_y (squareConfig 32 32 64 64 128 0) 1 =
        2 * (mkTile (squareConfig 32 32 64 64 128 0) 64 64 0 1).sy ∧
      dstoff_y (squareConfig 32 32 64 64 128 0) 1 + (squareConfig 32 32 64 64 128 0).output_h =
        2 * (mkTile (squareConfig 32 32 64 64 128 0) 64 64 0 1).ey) :=
  ⟨((scaled_grid_congruent (squareConfig 32 32 64 64 128 0) 64 64 2 (by decide) (by decide)
      (by decide) (by decide) (by decide) (by decide) (by decide)).1 1 0 (by decide)).2,
    ((scaled_grid_congruent (squareConfig 32 32 64 64 128 0) 64 64 2 (by decide) (by decide)
      (by decide) (by decide) (by decide) (by decide) (by decide)).2 (by decide) (by decide)
      (by decide) (by decide) (by decide) (by decide) 0 1 (by decide)).2⟩

/-! ## Block copy: frame condition and agreement of the two paths -/

/-- C20: on the per-row path of `bitblt` (not `src_stride = dst_stride = width`)
with `dst_stride ≥ pad + width`, every destination element whose address is not
`dstp + i*dst_stride + pad + j` for some `i < height`, `j < width` is unchanged
by the call; and when `height = 0` the destination is unchanged altogether, on
either path. -/
theorem bitblt_frame_condition {α : Type} (dst : Int → α) (dstp ds : Int) (src : Int → α)
    (srcp ss : Int) (width height pad : Nat) :
    (¬ (ss = ds ∧ ss = (width : Int)) → (pad : Int) + (width : Int) ≤ ds →
      ∀ k : Int,
        (∀ i j : Nat, i < height → j < width →
          k ≠ dstp + (i : Int) * ds + (pad : Int) + (j : Int)) →
        bitblt dst dstp ds src srcp ss width height pad k = dst k) ∧
    (height = 0 → bitblt dst dstp ds src srcp ss width height pad = dst) := by
  constructor
  · intro hrow _ k hk
    unfold bitblt
    by_cases h0 : height = 0
    · rw [if_pos h0]
    · rw [if_neg h0, if_neg hrow]
      exact bitbltLoop_frame ds ss src width pad k height dstp srcp dst hk
  · intro h0
    unfold bitblt
    rw [if_pos h0]

/-- C20, witness: a 2 × 2 block copied with `pad = 1` into rows of stride 4
over a destination of zeros, from a source of stride 3; element 0 of the
destination, left of the block, and element 3, right of it, are unchanged. -/
theorem bitblt_frame_condition_witness :
    bitblt (fun _ => (0 : Int)) 0 4 (fun k => k) 0 3 2 2 1 0 = 0 ∧
      bitblt (fun _ => (0 : Int)) 0 4 (fun k => k) 0 3 2 2 1 3 = 0 :=
  ⟨(bitblt_frame_condition (fun _ => (0 : Int)) 0 4 (fun k => k) 0 3 2 2 1).1 (by decide)
      (by decide) 0 (fun i j _ _ => by omega),
    (bitblt_frame_condition (fun _ => (0 : Int)) 0 4 (fun k => k) 0 3 2 2 1).1 (by decide)
      (by decide) 3 (fun i j _ hj => by omega)⟩

/-- For `src_stride = dst_stride = width` and `height ≠ 0` the bulk copy and the
row loop write the same value everywhere. -/
theorem bulk_eq_loop {α : Type} (dst : Int → α) (dstp : Int) (src : Int → α) (srcp ss : Int)
    (width height : Nat) (h2 : ss = (width : Int)) (h0 : ¬ height = 0) (k : Int) :
    memcpy dst dstp src srcp (width * height) k =
      bitbltLoop ss src ss width 0 height dstp srcp dst k := by
  by_cases hw : width = 0
  · subst hw
    rw [bitbltLoop_frame ss ss src 0 0 k height dstp srcp dst (fun i j _ hj => by omega)]
    simp only [memcpy]
    rw [if_neg (by simp)]
  · have hwpos : (0 : Int) < ss := by omega
    have hk : k = dstp + (k - dstp) / ss * ss + (k - dstp) % ss := by
      have := Int.ediv_add_emod (k - dstp) ss
      linarith
    have hC0 : 0 ≤ (k - dstp) % ss := Int.emod_nonneg _ (by omega)
    have hC1 : (k - dstp) % ss < ss := Int.emod_lt_of_pos _ hwpos
    have kb := bitblt_at dst ss src srcp ss width height 0 dstp 0 0 ((k - dstp) / ss)
      ((k - dstp) % ss) hC0 hC1 le_rfl (by simp; omega)
    have kl := bitbltLoop_at ss ss src width 0 dstp 0 ((k - dstp) / ss) ((k - dstp) % ss)
      hC0 hC1 le_rfl (by simp; omega) height 0 srcp dst
    have e1 : dstp + 0 * ss + 0 = dstp := by ring
    rw [e1] at kb kl
    rw [← hk] at kb kl
    rw [kl, ← kb]
    unfold bitblt
    rw [if_neg h0, if_pos ⟨rfl, h2⟩]

/-- C11: for `pad = 0` and every `width`, `height`: when `src_stride ≥ width`
and `dst_stride ≥ width`, after `bitblt` the destination holds
`dst[i*dst_stride + j] = src[i*src_stride + j]` for all `i < height`,
`j < width`; and when `src_stride = dst_stride = width`, the single bulk copy
of the fast path, and so the call itself, leaves exactly the destination the
per-row loop leaves on the same arguments. -/
theorem bitblt_paths_agree {α : Type} (dst : Int → α) (dstp ds : Int) (src : Int → α)
    (srcp ss : Int) (width height : Nat) :
    ((width : Int) ≤ ss → (width : Int) ≤ ds →
      ∀ i j : Nat, i < height → j < width →
        bitblt dst dstp ds src srcp ss width height 0 (dstp + (i : Int) * ds + (j : Int)) =
          src (srcp + (i : Int) * ss + (j : Int))) ∧
    (ss = ds → ss = (width : Int) →
      memcpy dst dstp src srcp (width * height) =
          bitbltLoop ds src ss width 0 height dstp srcp dst ∧
        bitblt dst dstp ds src srcp ss width height 0 =
          bitbltLoop ds src ss width 0 height dstp srcp dst) := by
  constructor
  · intro _ hds i j hi hj
    have key := bitblt_at dst ds src srcp ss width height 0 dstp 0 0 (i : Int) (j : Int)
      (by omega) (by omega) le_rfl (by simp; exact hds)
    have e1 : dstp + 0 * ds + 0 = dstp := by ring
    rw [e1] at key
    rw [key, if_pos (by simp; omega)]
    congr 1
  · intro h1 h2
    subst h1
    have hcall : bitblt dst dstp ss src srcp ss width height 0 =
        if height = 0 then dst else memcpy dst dstp src srcp (width * height) := by
      unfold bitblt
      by_cases h0 : height = 0
      · rw [if_pos h0, if_pos h0]
      · rw [if_neg h0, if_neg h0, if_pos ⟨rfl, h2⟩]
    have hbulk : memcpy dst dstp src srcp (width * height) =
        bitbltLoop ss src ss width 0 height dstp srcp dst := by
      funext k
      by_cases h0 : height = 0
      · subst h0
        simp only [memcpy, bitbltLoop]
        rw [if_neg (by simp)]
      · exact bulk_eq_loop dst dstp src srcp ss width height h2 h0 k
    refine ⟨hbulk, ?_⟩
    rw [hcall]
    by_cases h0 : height = 0
    · rw [if_pos h0, h0]; rfl
    · rw [if_neg h0, hbulk]

/-- C11, witness: a 2 × 2 block read with stride 3 and written with stride 4,
element `(1, 1)`; and a 2 × 2 block with both strides 2, where the bulk copy
and the call agree with the row loop. -/
theorem bitblt_paths_agree_witness :
    bitblt (fun _ => (0 : Int)) 0 4 (fun k => k) 0 3 2 2 0 (0 + ((1 : Nat) : Int) * 4 +
        ((1 : Nat) : Int)) = (fun k : Int => k) (0 + ((1 : Nat) : Int) * 3 + ((1 : Nat) : Int)) ∧
      memcpy (fun _ => (0 : Int)) 0 (fun k => k) 0 (2 * 2) =
        bitbltLoop 2 (fun k => k) 2 2 0 2 0 0 (fun _ => (0 : Int)) ∧
      bitblt (fun _ => (0 : Int)) 0 2 (fun k => k) 0 2 2 2 0 =
        bitbltLoop 2 (fun k => k) 2 2 0 2 0 0 (fun _ => (0 : Int)) :=
  ⟨(bitblt_paths_agree (fun _ => (0 : Int)) 0 4 (fun k => k) 0 3 2 2).1 (by decide) (by decide)
      1 1 (by decide) (by decide),
    (bitblt_paths_agree (fun _ => (0 : Int)) 0 2 (fun k => k) 0 2 2 2).2 (by decide)
      (by decide)⟩

/-- The per-row path honours the destination column offset, and so does
either path when `pad = 0`: for `height ≥ 1` and `dst_stride ≥ width`, when the
call does not take the bulk copy (not `src_stride = dst_stride = width`) or
`pad = 0`, the destination afterwards holds
`dst[i*dst_stride + pad + j] = src[i*src_stride + j]` for all `i < height`,
`j < width`. -/
theorem bitblt_column_offset {α : Type} (dst : Int → α) (dstp ds : Int) (src : Int → α)
    (srcp ss : Int) (width height pad : Nat) (hh : 1 ≤ height) (hds : (width : Int) ≤ ds)
    (hpath : ¬ (ss = ds ∧ ss = (width : Int)) ∨ pad = 0) :
    ∀ i j : Nat, i < height → j < width →
      bitblt dst dstp ds src srcp ss width height pad
          (dstp + (i : Int) * ds + (pad : Int) + (j : Int)) =
        src (srcp + (i : Int) * ss + (j : Int)) := by
  intro i j hi hj
  by_cases hfast : ss = ds ∧ ss = (width : Int)
  · have hp : pad = 0 := by
      rcases hpath with h | h
      · exact absurd hfast h
      · exact h
    subst hp
    have key := bitblt_at dst ds src srcp ss width height 0 dstp 0 0 (i : Int) (j : Int)
      (by omega) (by omega) le_rfl (by simp; exact hds)
    have e1 : dstp + 0 * ds + 0 = dstp := by ring
    have e2 : dstp + (i : Int) * ds + ((0 : Nat) : Int) + (j : Int) = dstp + (i : Int) * ds + (j : Int) := by
      simp
    rw [e1] at key
    rw [e2, key, if_pos (by simp; omega)]
    congr 1
  · unfold bitblt
    rw [if_neg (by omega), if_neg hfast, bitbltLoop_pad]
    have kl := bitbltLoop_at ds ss src width 0 (dstp + (pad : Int)) 0 (i : Int) (j : Int)
      (by omega) (by omega) le_rfl (by simp; exact hds) height 0 srcp dst
    have e1 : dstp + (pad : Int) + 0 * ds + 0 = dstp + (pad : Int) := by ring
    have e2 : dstp + (pad : Int) + (i : Int) * ds + (j : Int) =
        dstp + (i : Int) * ds + (pad : Int) + (j : Int) := by ring
    rw [e1, e2] at kl
    rw [kl, if_pos (by simp; omega)]
    congr 1

/-- The per-row path at a 2 × 2 block copied with `pad = 1` into rows of
stride 4, element `(1, 1)`. -/
theorem bitblt_column_offset_witness :
    bitblt (fun _ => (0 : Int)) 0 4 (fun k => k) 0 2 2 2 1
        (0 + ((1 : Nat) : Int) * 4 + ((1 : Nat) : Int) + ((1 : Nat) : Int)) =
      (fun k => k) (0 + ((1 : Nat) : Int) * 2 + ((1 : Nat) : Int)) :=
  bitblt_column_offset (fun _ => (0 : Int)) 0 4 (fun k => k) 0 2 2 2 1 (by decide) (by decide)
    (Or.inl (by decide)) 1 1 (by decide) (by decide)

/-- The function `mxCreate` is its chain of checks over the derived geometry. -/
theorem mxCreate_eq (mulScale : Int → Int) (vi : VSVideoInfo) (o : Options) :
    mxCreate mulScale vi o =
      if !isConstantFormat vi ∨ vi.format.sampleType ≠ stFloat ∨ vi.format.bitsPerSample ≠ 32 then
        .error .format
      else if vi.format.subSamplingH ≠ 0 ∨ vi.format.subSamplingW ≠ 0 then .error .subsampling
      else if !o.symbol then .error .symbol
      else if !o.param then .error .param
      else if derivedPad o ≠ 0 ∧ ¬(derivedBorder o = BORDER_CONSTANT ∨
          derivedBorder o = BORDER_REPLICATE ∨ derivedBorder o = BORDER_REFLECT ∨
          derivedBorder o = BORDER_WRAP ∨ derivedBorder o = BORDER_REFLECT_101) then
        .error .border_type
      else if int64ToIntS (propGetInt o.ctx).1 ≠ 1 ∧ int64ToIntS (propGetInt o.ctx).1 ≠ 2 ∧
          int64ToIntS (propGetInt o.ctx).1 ≠ 0 then .error .ctx
      else if (derivedData mulScale vi o).patch_w < 1 then .error .patch_w
      else if (derivedData mulScale vi o).patch_h < 1 then .error .patch_h
      else if (derivedData mulScale vi o).step_w < 1 then .error .step_w
      else if (derivedData mulScale vi o).step_h < 1 then .error .step_h
      else if (derivedData mulScale vi o).output_w < 1 then .error .output_w
      else if (derivedData mulScale vi o).output_h < 1 then .error .output_h
      else if (derivedData mulScale vi o).vi_width < 1 then .error .frame_w
      else if (derivedData mulScale vi o).vi_height < 1 then .error .frame_h
      else if (derivedData mulScale vi o).outstep_w < 1 then .error .outstep_w
      else if (derivedData mulScale vi o).outstep_h < 1 then .error .outstep_h
      else if int64ToIntS (propGetInt o.dev_id).1 < 0 then .error .dev_id
      else .ok (derivedData mulScale vi o) := by
  rfl

/-- A derived patch size does not exceed the padded length of its axis. -/
theorem derivedPatch_le (v : Option Int) (len : Int) : derivedPatch v len ≤ len := by
  unfold derivedPatch
  split_ifs with h
  · exact le_rfl
  · omega

theorem derivedStep_le (v : Option Int) (patch len : Int) : derivedStep v patch len ≤ len := by
  unfold derivedStep
  split_ifs <;> omega

theorem derivedOutstepW_le (v : Option Int) (s o f : Int) : derivedOutstepW v s o f ≤ f := by
  unfold derivedOutstepW
  split_ifs <;> omega

theorem derivedOutstepH_le (v : Option Int) (o f : Int) : derivedOutstepH v o f ≤ f := by
  unfold derivedOutstepH
  split_ifs <;> omega

theorem derivedWidth_eq (vi : VSVideoInfo) (o : Options) :
    derivedWidth vi o = vi.width + derivedPad o * 2 := by
  unfold derivedWidth derivedPad
  split_ifs <;> omega

theorem derivedHeight_eq (vi : VSVideoInfo) (o : Options) :
    derivedHeight vi o = vi.height + derivedPad o * 2 := by
  unfold derivedHeight derivedPad
  split_ifs <;> omega

theorem ite_error_ok {c : Prop} [Decidable c] {e : ConfigError}
    {x : Except ConfigError mxnetData} {d : mxnetData}
    (h : (if c then Except.error e else x) = Except.ok d) : ¬ c ∧ x = Except.ok d := by
  by_cases hc : c
  · rw [if_pos hc] at h
    cases h
  · rw [if_neg hc] at h
    exact ⟨hc, h⟩

/-- What acceptance by `mxCreate` means: the stored geometry is the derived one
and every check of lines 455-483 passed. -/
theorem mxCreate_ok {mulScale : Int → Int} {vi : VSVideoInfo} {o : Options} {d : mxnetData}
    (h : mxCreate mulScale vi o = .ok d) :
    d = derivedData mulScale vi o ∧ 1 ≤ d.patch_w ∧ 1 ≤ d.patch_h ∧ 1 ≤ d.step_w ∧
      1 ≤ d.step_h ∧ 1 ≤ d.output_w ∧ 1 ≤ d.output_h ∧ 1 ≤ d.vi_width ∧ 1 ≤ d.vi_height ∧
      1 ≤ d.outstep_w ∧ 1 ≤ d.outstep_h := by
  rw [mxCreate_eq] at h
  obtain ⟨_, h⟩ := ite_error_ok h
  obtain ⟨_, h⟩ := ite_error_ok h
  obtain ⟨_, h⟩ := ite_error_ok h
  obtain ⟨_, h⟩ := ite_error_ok h
  obtain ⟨_, h⟩ := ite_error_ok h
  obtain ⟨_, h⟩ := ite_error_ok h
  obtain ⟨c1, h⟩ := ite_error_ok h
  obtain ⟨c2, h⟩ := ite_error_ok h
  obtain ⟨c3, h⟩ := ite_error_ok h
  obtain ⟨c4, h⟩ := ite_error_ok h
  obtain ⟨c5, h⟩ := ite_error_ok h
  obtain ⟨c6, h⟩ := ite_error_ok h
  obtain ⟨c7, h⟩ := ite_error_ok h
  obtain ⟨c8, h⟩ := ite_error_ok h
  obtain ⟨c9, h⟩ := ite_error_ok h
  obtain ⟨c10, h⟩ := ite_error_ok h
  obtain ⟨_, h⟩ := ite_error_ok h
  injection h with h
  subst h
  refine ⟨rfl, ?_, ?_, ?_, ?_, ?_, ?_, ?_, ?_, ?_, ?_⟩ <;> omega

/-- C13: for every combination of option values and every source size, if
`mxCreate` raises no error then, with `W`, `H` the padded frame size:
`1 ≤ patch_w ≤ W`, `1 ≤ patch_h ≤ H`, `1 ≤ step_w ≤ W`, `1 ≤ step_h ≤ H`,
`output_w ≥ 1`, `output_h ≥ 1`, `frame_w ≥ 1`, `frame_h ≥ 1`,
`1 ≤ outstep_w ≤ frame_w` and `1 ≤ outstep_h ≤ frame_h`. -/
theorem accepted_geometry_bounds (mulScale : Int → Int) (vi : VSVideoInfo) (o : Options)
    (d : mxnetData) (h : mxCreate mulScale vi o = .ok d) :
    (1 ≤ d.patch_w ∧ d.patch_w ≤ paddedWidth vi d) ∧
      (1 ≤ d.patch_h ∧ d.patch_h ≤ paddedHeight vi d) ∧
      (1 ≤ d.step_w ∧ d.step_w ≤ paddedWidth vi d) ∧
      (1 ≤ d.step_h ∧ d.step_h ≤ paddedHeight vi d) ∧
      1 ≤ d.output_w ∧ 1 ≤ d.output_h ∧ 1 ≤ d.frame_w ∧ 1 ≤ d.frame_h ∧
      (1 ≤ d.outstep_w ∧ d.outstep_w ≤ d.frame_w) ∧
      (1 ≤ d.outstep_h ∧ d.outstep_h ≤ d.frame_h) := by
  obtain ⟨hd, h1, h2, h3, h4, h5, h6, h7, h8, h9, h10⟩ := mxCreate_ok h
  have hfw : d.frame_w = d.vi_width := by rw [hd]; rfl
  have hfh : d.frame_h = d.vi_height := by rw [hd]; rfl
  have hW : paddedWidth vi d = derivedWidth vi o := by
    rw [derivedWidth_eq, hd]; rfl
  have hH : paddedHeight vi d = derivedHeight vi o := by
    rw [derivedHeight_eq, hd]; rfl
  have p1 : d.patch_w ≤ derivedWidth vi o := by rw [hd]; exact derivedPatch_le _ _
  have p2 : d.patch_h ≤ derivedHeight vi o := by rw [hd]; exact derivedPatch_le _ _
  have p3 : d.step_w ≤ derivedWidth vi o := by rw [hd]; exact derivedStep_le _ _ _
  have p4 : d.step_h ≤ derivedHeight vi o := by rw [hd]; exact derivedStep_le _ _ _
  have p5 : d.outstep_w ≤ d.vi_width := by rw [hd]; exact derivedOutstepW_le _ _ _ _
  have p6 : d.outstep_h ≤ d.vi_height := by rw [hd]; exact derivedOutstepH_le _ _ _
  rw [hW, hH, hfw, hfh]
  exact ⟨⟨h1, p1⟩, ⟨h2, p2⟩, ⟨h3, p3⟩, ⟨h4, p4⟩, h5, h6, h7, h8, ⟨h9, p5⟩, ⟨h10, p6⟩⟩

/-- C13, witness: the 64 × 64 clip with `patch_w = 32`, `outstep_w = 16`. -/
theorem accepted_geometry_bounds_witness :
    (1 ≤ slowOutstepConfig.patch_w ∧ slowOutstepConfig.patch_w ≤ paddedWidth clip64 slowOutstepConfig) ∧
      (1 ≤ slowOutstepConfig.patch_h ∧
        slowOutstepConfig.patch_h ≤ paddedHeight clip64 slowOutstepConfig) ∧
      (1 ≤ slowOutstepConfig.step_w ∧ slowOutstepConfig.step_w ≤ paddedWidth clip64 slowOutstepConfig) ∧
      (1 ≤ slowOutstepConfig.step_h ∧
        slowOutstepConfig.step_h ≤ paddedHeight clip64 slowOutstepConfig) ∧
      1 ≤ slowOutstepConfig.output_w ∧ 1 ≤ slowOutstepConfig.output_h ∧
      1 ≤ slowOutstepConfig.frame_w ∧ 1 ≤ slowOutstepConfig.frame_h ∧
      (1 ≤ slowOutstepConfig.outstep_w ∧ slowOutstepConfig.outstep_w ≤ slowOutstepConfig.frame_w) ∧
      (1 ≤ slowOutstepConfig.outstep_h ∧ slowOutstepConfig.outstep_h ≤ slowOutstepConfig.frame_h) :=
  accepted_geometry_bounds id clip64
    { noOptions with patch_w := some 32, outstep_w := some 16 } slowOutstepConfig rfl

/-- C15, as the code has it: for every accepted configuration, if `step_w`
(`step_h`) is omitted then the stored `step_w = patch_w` (`step_h = patch_h`);
if `outstep_w` (`outstep_h`) is omitted then the stored
`outstep_w = min(output_w, frame_w)` (`outstep_h = min(output_h, frame_h)`). -/
theorem step_defaults (mulScale : Int → Int) (vi : VSVideoInfo) (o : Options)
    (d : mxnetData) (h : mxCreate mulScale vi o = .ok d) :
    (o.step_w = none → d.step_w = d.patch_w) ∧ (o.step_h = none → d.step_h = d.patch_h) ∧
      (o.outstep_w = none → d.outstep_w = min d.output_w d.frame_w) ∧
      (o.outstep_h = none → d.outstep_h = min d.output_h d.frame_h) := by
  obtain ⟨hd, _⟩ := mxCreate_ok h
  have p1 := derivedPatch_le o.patch_w (derivedWidth vi o)
  have p2 := derivedPatch_le o.patch_h (derivedHeight vi o)
  subst hd
  refine ⟨?_, ?_, ?_, ?_⟩
  · intro hn
    simp only [derivedData, derivedStep, hn, propGetInt, true_or, if_true]
    rw [if_neg (by omega)]
  · intro hn
    simp only [derivedData, derivedStep, hn, propGetInt, true_or, if_true]
    rw [if_neg (by omega)]
  · intro hn
    simp only [derivedData, derivedOutstepW, hn, propGetInt, true_or, if_true]
    split_ifs <;> omega
  · intro hn
    simp only [derivedData, derivedOutstepH, hn, propGetInt, true_or, if_true]
    split_ifs <;> omega

/-- C15, witness: the 64 × 64 clip with no geometry option. -/
theorem step_defaults_witness :
    ((noOptions).step_w = none → defaultConfig64.step_w = defaultConfig64.patch_w) ∧
      ((noOptions).step_h = none → defaultConfig64.step_h = defaultConfig64.patch_h) ∧
      ((noOptions).outstep_w = none →
        defaultConfig64.outstep_w = min defaultConfig64.output_w defaultConfig64.frame_w) ∧
      ((noOptions).outstep_h = none →
        defaultConfig64.outstep_h = min defaultConfig64.output_h defaultConfig64.frame_h) :=
  step_defaults id clip64 noOptions defaultConfig64 rfl

/-- C15, counterexample to the claim as stated: on a 64 × 64 clip the only
option `output_w = 128` is accepted, `outstep_w` is omitted, and the stored
`outstep_w` is 64 (clamped to `frame_w`), not `output_w = 128`. -/
theorem outstep_default_clamped :
    mxCreate id clip64 { noOptions with output_w := some 128 } = .ok wideOutputConfig ∧
      ({ noOptions with output_w := some 128 } : Options).outstep_w = none ∧
      wideOutputConfig.outstep_w = 64 ∧ wideOutputConfig.output_w = 128 := by
  refine ⟨rfl, rfl, rfl, rfl⟩

/-- C14, the code at the failing input: on a 64 × 64 clip the only option
`padding = -1` raises no configuration error; `mxCreate` stores `pad = -1`. -/
theorem negative_padding_accepted :
    mxCreate id clip64 { noOptions with padding := some (-1) } = .ok negativePadConfig ∧
      negativePadConfig.pad = -1 := ⟨rfl, rfl⟩

/-- C18, the code at the failing input: on the (square) 64 × 64 clip the only
option `outstep_w = 0` is rejected with the `outstep_w` error, while the
swapped option set, the only option `outstep_h = 0`, is accepted with the
default `outstep_h = output_h = 64`. -/
theorem outstep_zero_asymmetric :
    mxCreate id clip64 { noOptions with outstep_w := some 0 } = .error .outstep_w ∧
      mxCreate id clip64 { noOptions with outstep_h := some 0 } = .ok defaultConfig64 := ⟨rfl, rfl⟩

/-! ## Failure of a round and patch extraction -/

/-- The function `mxForward` in terms of the first failing step. -/
theorem mxForward_firstFailure {α : Type} (p : MXPred α) (d : mxnetData) (fmt : VSFormat)
    (db : Int → α) :
    mxForward p d fmt db =
      match firstFailure d fmt p with
      | none => (0, memcpy db 0 p.output 0 (shapeSize p.shape), fullRound)
      | some st => (st.code, db, st.calls) := by
  by_cases h1 : p.setInput ≠ 0
  · simp only [mxForward, firstFailure, if_pos h1, Step.code, Step.calls]
  by_cases h2 : p.forward ≠ 0
  · simp only [mxForward, firstFailure, if_neg h1, if_pos h2, Step.code, Step.calls]
  by_cases h3 : p.getOutputShape ≠ 0
  · simp only [mxForward, firstFailure, if_neg h1, if_neg h2, if_pos h3, Step.code, Step.calls]
  by_cases h4 : (shapeSize p.shape : Int) ≠
      (d.output_h * d.output_w * (fmt.numPlanes : Int)) % 2 ^ 32
  · simp only [mxForward, firstFailure, if_neg h1, if_neg h2, if_neg h3, if_pos h4, Step.code,
      Step.calls]
  by_cases h5 : p.getOutput ≠ 0
  · simp only [mxForward, firstFailure, if_neg h1, if_neg h2, if_neg h3, if_neg h4, if_pos h5,
      Step.code, Step.calls]
  · simp only [mxForward, firstFailure, if_neg h1, if_neg h2, if_neg h3, if_neg h4, if_neg h5,
      fullRound]

theorem Step.code_ne_zero (st : Step) : st.code ≠ 0 := by
  cases st <;> decide

/-- A round whose answer fails at step `st`: the body returns the code of the
step; the patch was extracted, the call counted and the calls up to the failing
step made; the destination frame and the patch-output buffer are untouched. -/
theorem tileBody_fail {α : Type} (mx : Predictor α) (fmt : VSFormat) (d : mxnetData)
    (sp : SrcPlanes α) (ds : Nat → Int) (t : Tile) (s : ProcState α) (st : Step)
    (h : firstFailure d fmt (mx s.calls (extract fmt d sp t s.srcBuffer)) = some st) :
    tileBody mx fmt d sp ds t s =
      (st.code, { s with srcBuffer := extract fmt d sp t s.srcBuffer,
                         calls := s.calls + 1, api := s.api ++ st.calls }) := by
  unfold tileBody
  simp only [mxForward_firstFailure, h]
  rw [if_pos (Step.code_ne_zero st)]

/-- A round whose answer succeeds at every step: the body returns 0, the call is
counted and the four API calls are made. -/
theorem tileBody_ok {α : Type} (mx : Predictor α) (fmt : VSFormat) (d : mxnetData)
    (sp : SrcPlanes α) (ds : Nat → Int) (t : Tile) (s : ProcState α)
    (h : firstFailure d fmt (mx s.calls (extract fmt d sp t s.srcBuffer)) = none) :
    (tileBody mx fmt d sp ds t s).1 = 0 ∧
      (tileBody mx fmt d sp ds t s).2.calls = s.calls + 1 ∧
      (tileBody mx fmt d sp ds t s).2.api = s.api ++ fullRound := by
  unfold tileBody
  simp only [mxForward_firstFailure, h]
  simp

/-- With no subsampling and enough fuel, `process` is the loop body run over the
grid from the start state. -/
theorem process_runTiles {α : Type} (mx : Predictor α) (cv : CopyMakeBorder α) (fmt : VSFormat)
    (src dst : VSFrame α) (d : mxnetData) (srcBuffer dstBuffer padBuffer : Int → α)
    (hsub : fmt.subSamplingW = 0 ∧ fmt.subSamplingH = 0)
    (hpW : d.patch_w ≤ src.width + d.pad * 2) (hpH : d.patch_h ≤ src.height + d.pad * 2)
    (hsw : 1 ≤ d.step_w) (hsh : 1 ≤ d.step_h) (fuel : Nat)
    (hfx : lastIndex (src.width + d.pad * 2) d.patch_w d.step_w < fuel)
    (hfy : lastIndex (src.height + d.pad * 2) d.patch_h d.step_h < fuel) :
    process mx cv fmt src dst d srcBuffer dstBuffer padBuffer fuel =
      some (runTiles (tileBody mx fmt d (framePlanes cv fmt src d padBuffer) dst.stride)
        (allTiles d (src.width + d.pad * 2) (src.height + d.pad * 2))
        (frameStart cv fmt src dst d srcBuffer dstBuffer padBuffer)) := by
  have hnsub : ¬ (fmt.subSamplingH ≠ 0 ∨ fmt.subSamplingW ≠ 0) := by
    rw [hsub.1, hsub.2]; simp
  unfold process
  simp only [if_neg hnsub]
  rw [tileLoop_allTiles d _ _ _ hsw hpW hsh hpH fuel fuel hfx hfy]
  rfl

/-- Every round counts one call and leaves the extracted patch in the
patch-input buffer. -/
theorem tileBody_calls {α : Type} (mx : Predictor α) (fmt : VSFormat) (d : mxnetData)
    (sp : SrcPlanes α) (ds : Nat → Int) (t : Tile) (s : ProcState α) :
    (tileBody mx fmt d sp ds t s).2.calls = s.calls + 1 ∧
      (tileBody mx fmt d sp ds t s).2.srcBuffer = extract fmt d sp t s.srcBuffer := by
  unfold tileBody
  dsimp only
  split_ifs <;> exact ⟨rfl, rfl⟩

/-- A run of the loop body that returns 0 has called `mxForward` once per tile. -/
theorem runTiles_calls {α : Type} (mx : Predictor α) (fmt : VSFormat) (d : mxnetData)
    (sp : SrcPlanes α) (ds : Nat → Int) :
    ∀ (ts : List Tile) (s : ProcState α),
      (runTiles (tileBody mx fmt d sp ds) ts s).1 = 0 →
      (runTiles (tileBody mx fmt d sp ds) ts s).2.calls = s.calls + ts.length := by
  intro ts
  induction ts with
  | nil => intro s _; rfl
  | cons t ts ih =>
    intro s h
    simp only [runTiles] at h ⊢
    by_cases hc : (tileBody mx fmt d sp ds t s).1 ≠ 0
    · rw [if_pos hc] at h
      exact absurd h hc
    · rw [if_neg hc] at h ⊢
      rw [ih _ h, (tileBody_calls mx fmt d sp ds t s).1, List.length_cons]
      omega

/-- A run over tiles whose answers all succeed returns 0 after one full round
per tile. -/
theorem runTiles_all_ok {α : Type} (answers : Nat → MXPred α) (fmt : VSFormat) (d : mxnetData)
    (sp : SrcPlanes α) (ds : Nat → Int) :
    ∀ (ts : List Tile) (s : ProcState α),
      (∀ i : Nat, i < ts.length → firstFailure d fmt (answers (s.calls + i)) = none) →
      (runTiles (tileBody (sequencePredictor answers) fmt d sp ds) ts s).1 = 0 ∧
        (runTiles (tileBody (sequencePredictor answers) fmt d sp ds) ts s).2.calls =
          s.calls + ts.length ∧
        (runTiles (tileBody (sequencePredictor answers) fmt d sp ds) ts s).2.api =
          s.api ++ (List.replicate ts.length fullRound).flatten := by
  intro ts
  induction ts with
  | nil => intro s _; simp [runTiles]
  | cons t ts ih =>
    intro s h
    have h0 : firstFailure d fmt
        (sequencePredictor answers s.calls (extract fmt d sp t s.srcBuffer)) = none := by
      have := h 0 (by simp)
      simpa [sequencePredictor] using this
    obtain ⟨b1, b2, b3⟩ := tileBody_ok (sequencePredictor answers) fmt d sp ds t s h0
    have hrest := ih (tileBody (sequencePredictor answers) fmt d sp ds t s).2 (by
      intro i hi
      rw [b2]
      have := h (i + 1) (by simp; omega)
      rw [show s.calls + 1 + i = s.calls + (i + 1) by omega]
      exact this)
    simp only [runTiles, b1, ne_eq, not_true_eq_false, if_false]
    refine ⟨hrest.1, ?_, ?_⟩
    · rw [hrest.2.1, b2, List.length_cons]; omega
    · rw [hrest.2.2, b3, List.length_cons, List.replicate_succ, List.flatten_cons,
        List.append_assoc]

/-- A run in which the answer of tile `k` is the first that fails: the run is
the failing round of tile `k` on the state left by the `k` tiles before it. -/
theorem runTiles_first_fail {α : Type} (answers : Nat → MXPred α) (fmt : VSFormat) (d : mxnetData)
    (sp : SrcPlanes α) (ds : Nat → Int) :
    ∀ (ts : List Tile) (s : ProcState α) (k : Nat) (t : Tile) (st : Step),
      ts[k]? = some t →
      (∀ i : Nat, i < k → firstFailure d fmt (answers (s.calls + i)) = none) →
      firstFailure d fmt (answers (s.calls + k)) = some st →
      runTiles (tileBody (sequencePredictor answers) fmt d sp ds) ts s =
        (st.code,
          { (runTiles (tileBody (sequencePredictor answers) fmt d sp ds) (ts.take k) s).2 with
            srcBuffer := extract fmt d sp t
              (runTiles (tileBody (sequencePredictor answers) fmt d sp ds) (ts.take k) s).2.srcBuffer,
            calls := (runTiles (tileBody (sequencePredictor answers) fmt d sp ds)
              (ts.take k) s).2.calls + 1,
            api := (runTiles (tileBody (sequencePredictor answers) fmt d sp ds)
              (ts.take k) s).2.api ++ st.calls }) := by
  intro ts
  induction ts with
  | nil => intro s k t st hk; simp at hk
  | cons u us ih =>
    intro s k t st hk hok hfail
    cases k with
    | zero =>
      simp only [List.getElem?_cons_zero, Option.some.injEq] at hk
      subst hk
      have hf : firstFailure d fmt
          (sequencePredictor answers s.calls (extract fmt d sp u s.srcBuffer)) = some st := by
        simpa [sequencePredictor] using hfail
      have hb := tileBody_fail (sequencePredictor answers) fmt d sp ds u s st hf
      simp only [runTiles, List.take_zero]
      rw [hb, if_pos (Step.code_ne_zero st)]
    | succ k =>
      simp only [List.getElem?_cons_succ] at hk
      have h0 : firstFailure d fmt
          (sequencePredictor answers s.calls (extract fmt d sp u s.srcBuffer)) = none := by
        have := hok 0 (by omega)
        simpa [sequencePredictor] using this
      obtain ⟨b1, b2, _⟩ := tileBody_ok (sequencePredictor answers) fmt d sp ds u s h0
      have hrec := ih (tileBody (sequencePredictor answers) fmt d sp ds u s).2 k t st hk (by
        intro i hi
        rw [b2, show s.calls + 1 + i = s.calls + (i + 1) by omega]
        exact hok (i + 1) (by omega)) (by
        rw [b2, show s.calls + 1 + k = s.calls + (k + 1) by omega]
        exact hfail)
      simp only [runTiles, List.take_succ_cons, b1, ne_eq, not_true_eq_false, if_false]
      exact hrec

theorem first_failing_index (p : Nat → Prop) [DecidablePred p] (N : Nat)
    (h : ¬ ∀ k : Nat, k < N → p k) :
    ∃ k : Nat, k < N ∧ ¬ p k ∧ ∀ i : Nat, i < k → p i := by
  have hex : ∃ k : Nat, k < N ∧ ¬ p k := by
    by_contra hne
    apply h
    intro k hk
    by_contra hp
    exact hne ⟨k, hk, hp⟩
  refine ⟨Nat.find hex, (Nat.find_spec hex).1, (Nat.find_spec hex).2, ?_⟩
  intro i hi
  by_contra hp
  exact Nat.find_min hex hi ⟨lt_trans hi (Nat.find_spec hex).1, hp⟩

/-- When neither element count reaches `2 ^ 32`, the shape test of the code is
the exact one, and the step at which `mxForward` gives up is the step that
fails. -/
theorem firstFailure_eq_exactFailure {α : Type} (d : mxnetData) (fmt : VSFormat) (p : MXPred α)
    (h0 : 0 ≤ d.output_h * d.output_w * (fmt.numPlanes : Int))
    (h1 : d.output_h * d.output_w * (fmt.numPlanes : Int) < 2 ^ 32)
    (hp : shapeCount p.shape < 2 ^ 32) :
    firstFailure d fmt p = exactFailure d fmt p := by
  have e1 : (d.output_h * d.output_w * (fmt.numPlanes : Int)) % 2 ^ 32 =
      d.output_h * d.output_w * (fmt.numPlanes : Int) := Int.emod_eq_of_lt h0 h1
  have e2 : shapeSize p.shape = shapeCount p.shape := by
    rw [shapeSize_eq]
    exact Nat.mod_eq_of_lt hp
  unfold firstFailure exactFailure
  rw [e1, e2]


/-- First failure aborts the frame, on the adapters whose element counts stay
below `2 ^ 32` (there the shape test of the code is the exact one).  With the
adapter given as a sequence of per-call answers, no subsampling and a geometry
on which the tile loop ends: with enough fuel `process` returns; it returns 0
iff no step (submit, forward, shape-fetch, shape-check, fetch) fails for any
tile of the grid; and when tile `k` (in row-major order) is the first with a
failing step `st`, `process` returns the nonzero code of that step (1 for the
shape check, 2 for an adapter call), the predictor has been called for the
tiles `0..k` only, the API calls made are `k` full rounds followed by the calls
up to the failing step, and the destination frame and the patch-output buffer
are as the first `k` tiles left them, the patch-input buffer holding the patch
of tile `k`. -/
theorem first_failure_aborts {α : Type} (answers : Nat → MXPred α) (cv : CopyMakeBorder α)
    (fmt : VSFormat) (src dst : VSFrame α) (d : mxnetData)
    (srcBuffer dstBuffer padBuffer : Int → α)
    (hsub : fmt.subSamplingW = 0 ∧ fmt.subSamplingH = 0)
    (hpW : d.patch_w ≤ src.width + d.pad * 2) (hpH : d.patch_h ≤ src.height + d.pad * 2)
    (hsw : 1 ≤ d.step_w) (hsh : 1 ≤ d.step_h)
    (hexp0 : 0 ≤ d.output_h * d.output_w * (fmt.numPlanes : Int))
    (hexp1 : d.output_h * d.output_w * (fmt.numPlanes : Int) < 2 ^ 32)
    (hshape : ∀ k : Nat, shapeCount (answers k).shape < 2 ^ 32) :
    ∃ n : Nat, ∀ fuel : Nat, n ≤ fuel → ∃ r : Int × ProcState α,
      process (sequencePredictor answers) cv fmt src dst d srcBuffer dstBuffer padBuffer fuel =
        some r ∧
      (r.1 = 0 ↔
        ∀ k : Nat, k < (allTiles d (src.width + d.pad * 2) (src.height + d.pad * 2)).length →
          exactFailure d fmt (answers k) = none) ∧
      ∀ (k : Nat) (t : Tile) (st : Step),
        (allTiles d (src.width + d.pad * 2) (src.height + d.pad * 2))[k]? = some t →
        (∀ i : Nat, i < k → exactFailure d fmt (answers i) = none) →
        exactFailure d fmt (answers k) = some st →
        r.1 = st.code ∧ r.1 ≠ 0 ∧ r.2.calls = k + 1 ∧
          r.2.api = (List.replicate k fullRound).flatten ++ st.calls ∧
          (runTiles (tileBody (sequencePredictor answers) fmt d
              (framePlanes cv fmt src d padBuffer) dst.stride)
            ((allTiles d (src.width + d.pad * 2) (src.height + d.pad * 2)).take k)
            (frameStart cv fmt src dst d srcBuffer dstBuffer padBuffer)).1 = 0 ∧
          r.2.dst = (runTiles (tileBody (sequencePredictor answers) fmt d
              (framePlanes cv fmt src d padBuffer) dst.stride)
            ((allTiles d (src.width + d.pad * 2) (src.height + d.pad * 2)).take k)
            (frameStart cv fmt src dst d srcBuffer dstBuffer padBuffer)).2.dst ∧
          r.2.dstBuffer = (runTiles (tileBody (sequencePredictor answers) fmt d
              (framePlanes cv fmt src d padBuffer) dst.stride)
            ((allTiles d (src.width + d.pad * 2) (src.height + d.pad * 2)).take k)
            (frameStart cv fmt src dst d srcBuffer dstBuffer padBuffer)).2.dstBuffer ∧
          r.2.srcBuffer = extract fmt d (framePlanes cv fmt src d padBuffer) t
            (runTiles (tileBody (sequencePredictor answers) fmt d
              (framePlanes cv fmt src d padBuffer) dst.stride)
            ((allTiles d (src.width + d.pad * 2) (src.height + d.pad * 2)).take k)
            (frameStart cv fmt src dst d srcBuffer dstBuffer padBuffer)).2.srcBuffer := by
  have key : ∀ k : Nat, exactFailure d fmt (answers k) = firstFailure d fmt (answers k) :=
    fun k => (firstFailure_eq_exactFailure d fmt _ hexp0 hexp1 (hshape k)).symm
  simp only [key]
  refine ⟨lastIndex (src.width + d.pad * 2) d.patch_w d.step_w +
    lastIndex (src.height + d.pad * 2) d.patch_h d.step_h + 1, fun fuel hfuel => ?_⟩
  refine ⟨_, process_runTiles (sequencePredictor answers) cv fmt src dst d srcBuffer dstBuffer
    padBuffer hsub hpW hpH hsw hsh fuel (by omega) (by omega), ?_, ?_⟩
  · constructor
    · intro h0
      by_contra hne
      obtain ⟨k, hk, hkf, hki⟩ := first_failing_index
        (fun k => firstFailure d fmt (answers k) = none) _ hne
      obtain ⟨st, hst⟩ : ∃ st, firstFailure d fmt (answers k) = some st := by
        cases hff : firstFailure d fmt (answers k) with
        | none => exact absurd hff hkf
        | some st => exact ⟨st, rfl⟩
      have hget : (allTiles d (src.width + d.pad * 2) (src.height + d.pad * 2))[k]? =
          some ((allTiles d (src.width + d.pad * 2) (src.height + d.pad * 2))[k]) :=
        List.getElem?_eq_getElem hk
      have hrun := runTiles_first_fail answers fmt d (framePlanes cv fmt src d padBuffer)
        dst.stride _ (frameStart cv fmt src dst d srcBuffer dstBuffer padBuffer) k _ st hget
        (by intro i hi; simpa [frameStart] using hki i hi) (by simpa [frameStart] using hst)
      rw [hrun] at h0
      exact Step.code_ne_zero st h0
    · intro hall
      exact (runTiles_all_ok answers fmt d (framePlanes cv fmt src d padBuffer) dst.stride _
        (frameStart cv fmt src dst d srcBuffer dstBuffer padBuffer)
        (by intro i hi; simpa [frameStart] using hall i hi)).1
  · intro k t st hget hok hfail
    have hk : k < (allTiles d (src.width + d.pad * 2) (src.height + d.pad * 2)).length := by
      by_contra hge
      rw [List.getElem?_eq_none (by omega)] at hget
      cases hget
    have hrun := runTiles_first_fail answers fmt d (framePlanes cv fmt src d padBuffer)
      dst.stride _ (frameStart cv fmt src dst d srcBuffer dstBuffer padBuffer) k t st hget
      (by intro i hi; simpa [frameStart] using hok i hi) (by simpa [frameStart] using hfail)
    have hpre := runTiles_all_ok answers fmt d (framePlanes cv fmt src d padBuffer) dst.stride
      ((allTiles d (src.width + d.pad * 2) (src.height + d.pad * 2)).take k)
      (frameStart cv fmt src dst d srcBuffer dstBuffer padBuffer)
      (by
        intro i hi
        rw [List.length_take] at hi
        simpa [frameStart] using hok i (by omega))
    have hlen : ((allTiles d (src.width + d.pad * 2) (src.height + d.pad * 2)).take k).length = k := by
      rw [List.length_take]; omega
    rw [hlen] at hpre
    rw [hrun]
    refine ⟨rfl, Step.code_ne_zero st, ?_, ?_, hpre.1, rfl, rfl, rfl⟩
    · show _ + 1 = k + 1
      rw [hpre.2.1]; simp [frameStart]
    · show _ ++ st.calls = _
      rw [hpre.2.2]; simp [frameStart]

/-- The ramp frame with patch = step = 32, the forward pass of the second call
failing. -/
theorem first_failure_aborts_witness :
    ∃ n : Nat, ∀ fuel : Nat, n ≤ fuel → ∃ r : Int × ProcState Int,
      process (sequencePredictor secondCallFails) noBorder (floatFormat 1) rampFrame blankFrame
          (squareConfig 32 32 32 32 64 0) (fun _ => 0) (fun _ => 0) (fun _ => 0) fuel = some r ∧
      (r.1 = 0 ↔
        ∀ k : Nat, k < (allTiles (squareConfig 32 32 32 32 64 0)
            (rampFrame.width + (squareConfig 32 32 32 32 64 0).pad * 2)
            (rampFrame.height + (squareConfig 32 32 32 32 64 0).pad * 2)).length →
          exactFailure (squareConfig 32 32 32 32 64 0) (floatFormat 1) (secondCallFails k) = none) :=
  (first_failure_aborts secondCallFails noBorder (floatFormat 1) rampFrame blankFrame
    (squareConfig 32 32 32 32 64 0) (fun _ => 0) (fun _ => 0) (fun _ => 0) ⟨rfl, rfl⟩
    (by decide) (by decide) (by decide) (by decide) (by decide) (by decide)
    (fun _ => (by decide : shapeCount [1, 1, 32, 32] < 2 ^ 32))).imp
    (fun _ h fuel hf => (h fuel hf).imp (fun _ hr => ⟨hr.1, hr.2.1⟩))

set_option maxRecDepth 100000 in
/-- C17, the code at the failing input: a 64 × 64 single-plane frame cut into
four 32 × 32 tiles, the adapter answering every call with success and the shape
`1024 × 4194305`.  The reported element count `2 ^ 32 + 1024` differs from the
expected 1024, so the shape check fails for the first tile; yet `process`
returns 0, not 1: all four rounds run in full (four adapter calls each, fetch
included) and the destination frame is written, from its first to its last
pixel. -/
theorem shape_mismatch_not_reported :
    exactFailure (squareConfig 32 32 32 32 64 0) (floatFormat 1) wrapPred = some .shapeCheck ∧
      ∃ r : Int × ProcState Int,
        process (sequencePredictor (fun _ => wrapPred)) noBorder (floatFormat 1) rampFrame
            blankFrame (squareConfig 32 32 32 32 64 0) (fun _ => 0) (fun _ => 0) (fun _ => 0) 2 =
          some r ∧
        r.1 = 0 ∧ r.2.calls = 4 ∧ r.2.api = (List.replicate 4 fullRound).flatten ∧
        blankFrame.data 0 (0 * 64 + 0) = -1 ∧ r.2.dst 0 (0 * 64 + 0) = 7 ∧
        r.2.dst 0 (63 * 64 + 63) = 7 := by
  exact ⟨by decide, _, rfl, rfl, rfl, rfl, rfl, rfl, rfl⟩

/-! ## What the predictor is handed -/

/-- Index arithmetic of the channel-major layout. -/
theorem block_index_split {pw ph c r k : Int} (hpw : 1 ≤ pw) (hc : 0 ≤ c)
    (hr0 : 0 ≤ r) (hr1 : r < ph) (hk0 : 0 ≤ k) (hk1 : k < pw) :
    (c * (pw * ph) + r * pw + k) / (pw * ph) = c ∧
      (c * (pw * ph) + r * pw + k) % (pw * ph) / pw = r ∧
      (c * (pw * ph) + r * pw + k) % (pw * ph) % pw = k := by
  have hb : 0 ≤ r * pw + k := by positivity
  have hb1 : r * pw + k < pw * ph := by
    have : (r + 1) * pw ≤ ph * pw := mul_le_mul_of_nonneg_right (by omega) (by omega)
    nlinarith
  have hpos : 0 < pw * ph := by nlinarith
  have e : c * (pw * ph) + r * pw + k = (r * pw + k) + (pw * ph) * c := by ring
  have hmod : (c * (pw * ph) + r * pw + k) % (pw * ph) = r * pw + k := by
    rw [e, Int.add_mul_emod_self_left, Int.emod_eq_of_lt hb hb1]
  have hdiv : (c * (pw * ph) + r * pw + k) / (pw * ph) = c := by
    rw [e, Int.add_mul_ediv_left _ _ hpos.ne', Int.ediv_eq_zero_of_lt hb hb1, zero_add]
  have _ := hc
  refine ⟨hdiv, ?_, ?_⟩
  · rw [hmod, show r * pw + k = k + pw * r by ring, Int.add_mul_ediv_left _ _ (by omega),
      Int.ediv_eq_zero_of_lt hk0 hk1, zero_add]
  · rw [hmod, show r * pw + k = k + pw * r by ring, Int.add_mul_emod_self_left,
      Int.emod_eq_of_lt hk0 hk1]

/-- The layout of `patchInput`, element by element. -/
theorem patchInput_at {α : Type} (fmt : VSFormat) (d : mxnetData) (sp : SrcPlanes α) (t : Tile)
    (sb : Int → α) (hpw : 1 ≤ d.patch_w) (hph : 1 ≤ d.patch_h)
    (c : Nat) (hc : c < fmt.numPlanes) (r k : Int) (hr0 : 0 ≤ r) (hr1 : r < d.patch_h)
    (hk0 : 0 ≤ k) (hk1 : k < d.patch_w) :
    patchInput fmt d sp t sb ((c : Int) * (d.patch_w * d.patch_h) + r * d.patch_w + k) =
      sp.mem c (sp.ptr c + ((t.sy + r) * sp.stride c + t.sx + k)) := by
  obtain ⟨e1, e2, e3⟩ := @block_index_split d.patch_w d.patch_h (c : Int) r k hpw (by omega)
    hr0 hr1 hk0 hk1
  have hpos : 0 < d.patch_w * d.patch_h := by nlinarith
  have hin : 0 ≤ (c : Int) * (d.patch_w * d.patch_h) + r * d.patch_w + k ∧
      (c : Int) * (d.patch_w * d.patch_h) + r * d.patch_w + k <
        d.patch_w * d.patch_h * (fmt.numPlanes : Int) := by
    have h1 : 0 ≤ (c : Int) * (d.patch_w * d.patch_h) := by positivity
    have h2 : 0 ≤ r * d.patch_w := by positivity
    have h3 : r * d.patch_w + k < d.patch_w * d.patch_h := by
      have : (r + 1) * d.patch_w ≤ d.patch_h * d.patch_w :=
        mul_le_mul_of_nonneg_right (by omega) (by omega)
      nlinarith
    have h4 : ((c : Int) + 1) * (d.patch_w * d.patch_h) ≤
        (fmt.numPlanes : Int) * (d.patch_w * d.patch_h) :=
      mul_le_mul_of_nonneg_right (by omega) (by omega)
    constructor
    · omega
    · nlinarith
  unfold patchInput
  rw [if_pos hin, e1, e2, e3, Int.toNat_ofNat]

/-- A block copy into contiguous rows writes nothing outside
`[dstp, dstp + width * height)`. -/
theorem bitblt_tight_outside {α : Type} (dst : Int → α) (dstp : Int) (src : Int → α)
    (srcp ss : Int) (width height : Nat) (hw : 1 ≤ width) (k : Int)
    (hk : k < dstp ∨ dstp + (width : Int) * (height : Int) ≤ k) :
    bitblt dst dstp (width : Int) src srcp ss width height 0 k = dst k := by
  have hwpos : (0 : Int) < (width : Int) := by omega
  have hdecomp : k = dstp + (k - dstp) / (width : Int) * (width : Int) +
      (k - dstp) % (width : Int) := by
    have := Int.ediv_add_emod (k - dstp) (width : Int)
    linarith
  have hC0 : 0 ≤ (k - dstp) % (width : Int) := Int.emod_nonneg _ (by omega)
  have hC1 : (k - dstp) % (width : Int) < (width : Int) := Int.emod_lt_of_pos _ hwpos
  have key := bitblt_at dst (width : Int) src srcp ss width height 0 dstp 0 0
    ((k - dstp) / (width : Int)) ((k - dstp) % (width : Int)) hC0 hC1 le_rfl (by simp)
  have e1 : dstp + 0 * (width : Int) + 0 = dstp := by ring
  rw [e1, ← hdecomp] at key
  rw [key, if_neg]
  rintro ⟨h1, h2, -, -⟩
  rcases hk with hk | hk
  · have : (k - dstp) / (width : Int) < 0 := Int.ediv_neg' (by omega) hwpos
    omega
  · have h3 : (k - dstp) / (width : Int) + 1 ≤ (height : Int) := by omega
    have h4 : ((k - dstp) / (width : Int) + 1) * (width : Int) ≤ (height : Int) * (width : Int) :=
      mul_le_mul_of_nonneg_right h3 (by omega)
    nlinarith

/-- One round of the extraction loop writes nothing outside the channel blocks. -/
theorem extractPlane_outside {α : Type} (fmt : VSFormat) (d : mxnetData) (sp : SrcPlanes α)
    (t : Tile) (sb : Int → α) (plane : Nat) (hpl : plane < fmt.numPlanes)
    (hpw : 1 ≤ d.patch_w) (hph : 1 ≤ d.patch_h) (i : Int)
    (hi : ¬ (0 ≤ i ∧ i < d.patch_w * d.patch_h * (fmt.numPlanes : Int))) :
    extractPlane fmt d sp t sb plane i = sb i := by
  unfold extractPlane
  have hch : ((fmt.numPlanes : Nat) : Int) ≠ 0 := by
    have : 0 < fmt.numPlanes := by omega
    exact_mod_cast this.ne'
  rw [Int.mul_tdiv_cancel _ hch]
  have hwn : ((d.patch_w.toNat : Nat) : Int) = d.patch_w := Int.toNat_of_nonneg (by omega)
  have hhn : ((d.patch_h.toNat : Nat) : Int) = d.patch_h := Int.toNat_of_nonneg (by omega)
  have key := bitblt_tight_outside sb (d.patch_w * d.patch_h * (plane : Int)) (sp.mem plane)
    (sp.ptr plane + t.sx + sp.stride plane * t.sy) (sp.stride plane) d.patch_w.toNat
    d.patch_h.toNat (by omega) i
  rw [hwn, hhn] at key
  apply key
  have hpos : 0 < d.patch_w * d.patch_h := by nlinarith
  have h1 : 0 ≤ d.patch_w * d.patch_h * (plane : Int) := by positivity
  have h2 : d.patch_w * d.patch_h * ((plane : Int) + 1) ≤
      d.patch_w * d.patch_h * (fmt.numPlanes : Int) :=
    mul_le_mul_of_nonneg_left (by omega) (by omega)
  by_cases h0 : 0 ≤ i
  · right
    have : d.patch_w * d.patch_h * (fmt.numPlanes : Int) ≤ i := by
      by_contra hlt
      exact hi ⟨h0, by omega⟩
    nlinarith
  · left
    omega

/-- The extraction loop writes nothing outside the channel blocks. -/
theorem extract_outside {α : Type} (fmt : VSFormat) (d : mxnetData) (sp : SrcPlanes α)
    (t : Tile) (hpw : 1 ≤ d.patch_w) (hph : 1 ≤ d.patch_h) (i : Int)
    (hi : ¬ (0 ≤ i ∧ i < d.patch_w * d.patch_h * (fmt.numPlanes : Int))) (sb : Int → α) :
    extract fmt d sp t sb i = sb i := by
  unfold extract
  have key : ∀ (n : Nat), n ≤ fmt.numPlanes → ∀ b : Int → α,
      (List.range n).foldl (extractPlane fmt d sp t) b i = b i := by
    intro n
    induction n with
    | zero => intro _ b; rfl
    | succ n ih =>
      intro hn b
      rw [List.range_succ, List.foldl_append, List.foldl_cons, List.foldl_nil,
        extractPlane_outside fmt d sp t _ n (by omega) hpw hph i hi, ih (by omega)]
  exact key fmt.numPlanes le_rfl sb

/-- Whatever the patch-input buffer held inside the channel blocks, after the
extraction loop it is the channel-major patch of the tile. -/
theorem extract_eq_patchInput {α : Type} (fmt : VSFormat) (d : mxnetData) (sp : SrcPlanes α)
    (t : Tile) (hpw : 1 ≤ d.patch_w) (hph : 1 ≤ d.patch_h) (sb b : Int → α)
    (hb : ∀ i : Int, ¬ (0 ≤ i ∧ i < d.patch_w * d.patch_h * (fmt.numPlanes : Int)) →
      b i = sb i) :
    extract fmt d sp t b = patchInput fmt d sp t sb := by
  funext i
  by_cases hi : 0 ≤ i ∧ i < d.patch_w * d.patch_h * (fmt.numPlanes : Int)
  · have hpos : 0 < d.patch_w * d.patch_h := by nlinarith
    have hq0 : 0 ≤ i / (d.patch_w * d.patch_h) := Int.ediv_nonneg hi.1 (by omega)
    have hq1 : i / (d.patch_w * d.patch_h) < (fmt.numPlanes : Int) := by
      rw [Int.ediv_lt_iff_lt_mul hpos]
      nlinarith [hi.2]
    have hm0 : 0 ≤ i % (d.patch_w * d.patch_h) := Int.emod_nonneg _ (by omega)
    have hm1 : i % (d.patch_w * d.patch_h) < d.patch_w * d.patch_h := Int.emod_lt_of_pos _ hpos
    have hr0 : 0 ≤ i % (d.patch_w * d.patch_h) / d.patch_w := Int.ediv_nonneg hm0 (by omega)
    have hr1 : i % (d.patch_w * d.patch_h) / d.patch_w < d.patch_h := by
      rw [Int.ediv_lt_iff_lt_mul (by omega)]
      nlinarith
    have hk0 : 0 ≤ i % (d.patch_w * d.patch_h) % d.patch_w := Int.emod_nonneg _ (by omega)
    have hk1 : i % (d.patch_w * d.patch_h) % d.patch_w < d.patch_w :=
      Int.emod_lt_of_pos _ (by omega)
    have hc : ((i / (d.patch_w * d.patch_h)).toNat : Int) = i / (d.patch_w * d.patch_h) :=
      Int.toNat_of_nonneg hq0
    have hidx : i = ((i / (d.patch_w * d.patch_h)).toNat : Int) * (d.patch_w * d.patch_h) +
        i % (d.patch_w * d.patch_h) / d.patch_w * d.patch_w +
        i % (d.patch_w * d.patch_h) % d.patch_w := by
      rw [hc]
      have h1 := Int.ediv_add_emod i (d.patch_w * d.patch_h)
      have h2 := Int.ediv_add_emod (i % (d.patch_w * d.patch_h)) d.patch_w
      linarith
    have hlhs := extract_at fmt d sp t b hpw hph (i / (d.patch_w * d.patch_h)).toNat
      (by omega) _ _ hr0 hr1 hk0 hk1
    rw [← hidx] at hlhs
    rw [hlhs]
    unfold patchInput
    rw [if_pos hi]
    congr 1
    ring
  · rw [extract_outside fmt d sp t hpw hph i hi b, hb i hi]
    unfold patchInput
    rw [if_neg hi]

/-- A round returns 0 exactly when no step of it fails. -/
theorem mxForward_status {α : Type} (p : MXPred α) (d : mxnetData) (fmt : VSFormat)
    (db : Int → α) : (mxForward p d fmt db).1 = 0 ↔ firstFailure d fmt p = none := by
  rw [mxForward_firstFailure]
  cases h : firstFailure d fmt p with
  | none => simp
  | some st => simpa using Step.code_ne_zero st

/-- The loop body depends on the predictor only through its answer to the call
made: call index `s.calls`, on the buffer the extraction loop has just filled. -/
theorem tileBody_congr {α : Type} (mx mx2 : Predictor α) (fmt : VSFormat) (d : mxnetData)
    (sp : SrcPlanes α) (ds : Nat → Int) (t : Tile) (s : ProcState α)
    (h : mx2 s.calls (extract fmt d sp t s.srcBuffer) =
      mx s.calls (extract fmt d sp t s.srcBuffer)) :
    tileBody mx2 fmt d sp ds t s = tileBody mx fmt d sp ds t s := by
  unfold tileBody
  simp only [h]

/-- A run of the loop body over answers given per call returns 0 exactly when
no answer fails. -/
theorem runTiles_status_iff {α : Type} (answers : Nat → MXPred α) (fmt : VSFormat)
    (d : mxnetData) (sp : SrcPlanes α) (ds : Nat → Int) (ts : List Tile) (s : ProcState α) :
    (runTiles (tileBody (sequencePredictor answers) fmt d sp ds) ts s).1 = 0 ↔
      ∀ i : Nat, i < ts.length → firstFailure d fmt (answers (s.calls + i)) = none := by
  constructor
  · intro h0
    by_contra hne
    obtain ⟨k, hk, hkf, hki⟩ := first_failing_index
      (fun k => firstFailure d fmt (answers (s.calls + k)) = none) _ hne
    obtain ⟨st, hst⟩ : ∃ st, firstFailure d fmt (answers (s.calls + k)) = some st := by
      cases hff : firstFailure d fmt (answers (s.calls + k)) with
      | none => exact absurd hff hkf
      | some st => exact ⟨st, rfl⟩
    have hrun := runTiles_first_fail answers fmt d sp ds ts s k _ st
      (List.getElem?_eq_getElem hk) hki hst
    rw [hrun] at h0
    exact Step.code_ne_zero st h0
  · intro hall
    exact (runTiles_all_ok answers fmt d sp ds ts s hall).1

/-- Throughout a run of the loop body the patch-input buffer keeps, outside the
channel blocks, the content it started with. -/
theorem runTiles_srcBuffer_outside {α : Type} (mx : Predictor α) (fmt : VSFormat)
    (d : mxnetData) (sp : SrcPlanes α) (ds : Nat → Int) (hpw : 1 ≤ d.patch_w)
    (hph : 1 ≤ d.patch_h) (sb : Int → α) :
    ∀ (ts : List Tile) (s : ProcState α),
      (∀ i : Int, ¬ (0 ≤ i ∧ i < d.patch_w * d.patch_h * (fmt.numPlanes : Int)) →
        s.srcBuffer i = sb i) →
      ∀ i : Int, ¬ (0 ≤ i ∧ i < d.patch_w * d.patch_h * (fmt.numPlanes : Int)) →
        (runTiles (tileBody mx fmt d sp ds) ts s).2.srcBuffer i = sb i := by
  intro ts
  induction ts with
  | nil => intro s hs i hi; exact hs i hi
  | cons t ts ih =>
    intro s hs i hi
    have hbody : ∀ j : Int, ¬ (0 ≤ j ∧ j < d.patch_w * d.patch_h * (fmt.numPlanes : Int)) →
        (tileBody mx fmt d sp ds t s).2.srcBuffer j = sb j := by
      intro j hj
      rw [(tileBody_calls mx fmt d sp ds t s).2, extract_outside fmt d sp t hpw hph j hj, hs j hj]
    simp only [runTiles]
    by_cases hc : (tileBody mx fmt d sp ds t s).1 ≠ 0
    · rw [if_pos hc]
      exact hbody i hi
    · rw [if_neg hc]
      exact ih _ hbody i hi

/-- A run of the loop body is the run in which the `k`-th call of the predictor
is answered on the channel-major patch of the `k`-th tile. -/
theorem runTiles_patchAnswers {α : Type} (mx : Predictor α) (fmt : VSFormat) (d : mxnetData)
    (sp : SrcPlanes α) (ds : Nat → Int) (hpw : 1 ≤ d.patch_w) (hph : 1 ≤ d.patch_h)
    (sb : Int → α) :
    ∀ (ts pre : List Tile) (s : ProcState α), s.calls = pre.length →
      (∀ i : Int, ¬ (0 ≤ i ∧ i < d.patch_w * d.patch_h * (fmt.numPlanes : Int)) →
        s.srcBuffer i = sb i) →
      runTiles (tileBody mx fmt d sp ds) ts s =
        runTiles (tileBody (sequencePredictor (patchAnswers mx fmt d sp (pre ++ ts) sb)) fmt d
          sp ds) ts s := by
  intro ts
  induction ts with
  | nil => intro pre s _ _; rfl
  | cons t ts ih =>
    intro pre s hcalls hs
    have hget : (pre ++ t :: ts)[s.calls]? = some t := by
      rw [hcalls, List.getElem?_append_right (le_refl _)]
      simp
    have hbody : tileBody (sequencePredictor (patchAnswers mx fmt d sp (pre ++ t :: ts) sb)) fmt
        d sp ds t s = tileBody mx fmt d sp ds t s := by
      apply tileBody_congr
      simp only [sequencePredictor, patchAnswers, hget]
      rw [extract_eq_patchInput fmt d sp t hpw hph sb s.srcBuffer hs]
    have hnext := ih (pre ++ [t]) (tileBody mx fmt d sp ds t s).2
      (by rw [(tileBody_calls mx fmt d sp ds t s).1, hcalls]; simp)
      (by
        intro j hj
        rw [(tileBody_calls mx fmt d sp ds t s).2, extract_outside fmt d sp t hpw hph j hj,
          hs j hj])
    rw [List.append_assoc, List.singleton_append] at hnext
    simp only [runTiles]
    rw [hbody, hnext]

/-- C16: with no subsampling and `1 ≤ patch ≤ plane`, `step ≥ 1` on both axes,
for every predictor and with enough fuel, `process` returns a result `r` and
visits the tiles `tiles` of the grid, and: (1) in round `k` the buffer the
extraction loop hands to the predictor is `patchInput` of tile `k`, which holds
`srcBuffer[c*patch_w*patch_h + r*patch_w + k] = plane_c[(sy+r)*stride_c + sx + k]`
for every `c < channels`, `0 ≤ r < patch_h`, `0 ≤ k < patch_w`; (2) `r` is the
result of the frame in which the `k`-th call of the predictor is answered on
that buffer, and `r` reports success exactly when each of these calls, one per
tile, succeeds; (3) on success `mxForward` has been called once per tile, four
adapter calls each; (4) every row has `lastIndex W + 1` tiles and the grid has
rows × columns tiles, whatever the channel count. -/
theorem extraction_channel_major {α : Type} (mx : Predictor α) (cv : CopyMakeBorder α)
    (fmt : VSFormat) (src dst : VSFrame α) (d : mxnetData)
    (srcBuffer dstBuffer padBuffer : Int → α)
    (hsub : fmt.subSamplingW = 0 ∧ fmt.subSamplingH = 0)
    (hpw : 1 ≤ d.patch_w) (hpW : d.patch_w ≤ src.width + d.pad * 2)
    (hph : 1 ≤ d.patch_h) (hpH : d.patch_h ≤ src.height + d.pad * 2)
    (hsw : 1 ≤ d.step_w) (hsh : 1 ≤ d.step_h) :
    ∃ n : Nat, ∀ fuel : Nat, n ≤ fuel → ∃ (tiles : List Tile) (r : Int × ProcState α),
      visitedTiles d (src.width + d.pad * 2) (src.height + d.pad * 2) fuel = some tiles ∧
      process mx cv fmt src dst d srcBuffer dstBuffer padBuffer fuel = some r ∧
      (∀ (k : Nat) (t : Tile), tiles[k]? = some t →
        extract fmt d (framePlanes cv fmt src d padBuffer) t
            (runTiles (tileBody mx fmt d (framePlanes cv fmt src d padBuffer) dst.stride)
              (tiles.take k)
              (frameStart cv fmt src dst d srcBuffer dstBuffer padBuffer)).2.srcBuffer =
          patchInput fmt d (framePlanes cv fmt src d padBuffer) t srcBuffer) ∧
      (∀ t ∈ tiles, ∀ (c : Nat) (r k : Int), c < fmt.numPlanes → 0 ≤ r → r < d.patch_h →
        0 ≤ k → k < d.patch_w →
        patchInput fmt d (framePlanes cv fmt src d padBuffer) t srcBuffer
            ((c : Int) * d.patch_w * d.patch_h + r * d.patch_w + k) =
          (framePlanes cv fmt src d padBuffer).mem c
            ((framePlanes cv fmt src d padBuffer).ptr c +
              ((t.sy + r) * (framePlanes cv fmt src d padBuffer).stride c + t.sx + k))) ∧
      process (sequencePredictor
          (patchAnswers mx fmt d (framePlanes cv fmt src d padBuffer) tiles srcBuffer))
        cv fmt src dst d srcBuffer dstBuffer padBuffer fuel = some r ∧
      (r.1 = 0 ↔ ∀ (k : Nat) (t : Tile), tiles[k]? = some t →
        (mxForward (mx k (patchInput fmt d (framePlanes cv fmt src d padBuffer) t srcBuffer))
          d fmt dstBuffer).1 = 0) ∧
      (r.1 = 0 → r.2.calls = tiles.length ∧
        r.2.api = (List.replicate tiles.length fullRound).flatten) ∧
      (∀ y : Int, (visitedRow d (src.width + d.pad * 2) (src.height + d.pad * 2) y fuel).map
          List.length = some (lastIndex (src.width + d.pad * 2) d.patch_w d.step_w + 1)) ∧
      tiles.length = (lastIndex (src.height + d.pad * 2) d.patch_h d.step_h + 1) *
        (lastIndex (src.width + d.pad * 2) d.patch_w d.step_w + 1) := by
  refine ⟨lastIndex (src.width + d.pad * 2) d.patch_w d.step_w +
    lastIndex (src.height + d.pad * 2) d.patch_h d.step_h + 1, fun fuel hfuel => ?_⟩
  have hstart : ∀ i : Int, ¬ (0 ≤ i ∧ i < d.patch_w * d.patch_h * (fmt.numPlanes : Int)) →
      (frameStart cv fmt src dst d srcBuffer dstBuffer padBuffer).srcBuffer i = srcBuffer i :=
    fun _ _ => rfl
  have hrun := runTiles_patchAnswers mx fmt d (framePlanes cv fmt src d padBuffer) dst.stride
    hpw hph srcBuffer (allTiles d (src.width + d.pad * 2) (src.height + d.pad * 2)) []
    (frameStart cv fmt src dst d srcBuffer dstBuffer padBuffer) rfl hstart
  rw [List.nil_append] at hrun
  have hstatus := runTiles_status_iff
    (patchAnswers mx fmt d (framePlanes cv fmt src d padBuffer)
      (allTiles d (src.width + d.pad * 2) (src.height + d.pad * 2)) srcBuffer)
    fmt d (framePlanes cv fmt src d padBuffer) dst.stride
    (allTiles d (src.width + d.pad * 2) (src.height + d.pad * 2))
    (frameStart cv fmt src dst d srcBuffer dstBuffer padBuffer)
  have hall : (∀ i : Nat, i < (allTiles d (src.width + d.pad * 2)
        (src.height + d.pad * 2)).length →
      firstFailure d fmt (patchAnswers mx fmt d (framePlanes cv fmt src d padBuffer)
        (allTiles d (src.width + d.pad * 2) (src.height + d.pad * 2)) srcBuffer
        ((frameStart cv fmt src dst d srcBuffer dstBuffer padBuffer).calls + i)) = none) ↔
      ∀ (k : Nat) (t : Tile),
        (allTiles d (src.width + d.pad * 2) (src.height + d.pad * 2))[k]? = some t →
        (mxForward (mx k (patchInput fmt d (framePlanes cv fmt src d padBuffer) t srcBuffer))
          d fmt dstBuffer).1 = 0 := by
    constructor
    · intro h k t hk
      have hlt : k < (allTiles d (src.width + d.pad * 2) (src.height + d.pad * 2)).length := by
        by_contra hge
        rw [List.getElem?_eq_none (by omega)] at hk
        cases hk
      have := h k hlt
      simp only [frameStart, Nat.zero_add, patchAnswers, hk] at this
      exact (mxForward_status _ d fmt dstBuffer).2 this
    · intro h i hi
      have := h i _ (List.getElem?_eq_getElem hi)
      simp only [frameStart, Nat.zero_add, patchAnswers, List.getElem?_eq_getElem hi]
      exact (mxForward_status _ d fmt dstBuffer).1 this
  refine ⟨_, _, visitedTiles_eq d _ _ hsw hpW hsh hpH fuel (by omega) (by omega),
    process_runTiles mx cv fmt src dst d srcBuffer dstBuffer padBuffer hsub hpW hpH hsw hsh
      fuel (by omega) (by omega), ?_, ?_, ?_, ?_, ?_, ?_, ?_⟩
  · intro k t _
    exact extract_eq_patchInput fmt d _ t hpw hph srcBuffer _
      (runTiles_srcBuffer_outside mx fmt d _ dst.stride hpw hph srcBuffer _ _ hstart)
  · intro t _ c r k hc hr0 hr1 hk0 hk1
    have e1 : (c : Int) * d.patch_w * d.patch_h + r * d.patch_w + k =
        (c : Int) * (d.patch_w * d.patch_h) + r * d.patch_w + k := by ring
    rw [e1, patchInput_at fmt d _ t srcBuffer hpw hph c hc r k hr0 hr1 hk0 hk1]
  · rw [process_runTiles _ cv fmt src dst d srcBuffer dstBuffer padBuffer hsub hpW hpH hsw hsh
      fuel (by omega) (by omega), hrun]
  · rw [hrun, hstatus, hall]
  · intro h0
    rw [hrun] at h0 ⊢
    have hok := runTiles_all_ok _ fmt d (framePlanes cv fmt src d padBuffer) dst.stride _
      (frameStart cv fmt src dst d srcBuffer dstBuffer padBuffer) (hstatus.1 h0)
    refine ⟨?_, ?_⟩
    · rw [hok.2.1]; simp [frameStart]
    · rw [hok.2.2]; simp [frameStart]
  · intro y
    rw [visitedRow_eq d _ _ y hsw hpW fuel (by omega), Option.map_some', rowTiles_length]
  · rw [allTiles, gridTiles_length]

/-- C16, witness: the 64 × 64 ramp frame (pixel `(r, c)` is `64 * r + c`) cut
into 32 × 32 tiles, with the identity predictor.  The frame succeeds after four
calls of `mxForward`, and in each round element `1 * 32 + 2` of block 0 of the
patch-input buffer is pixel `(sy + 1, sx + 2)` of the frame. -/
theorem extraction_channel_major_witness :
    ∃ n : Nat, ∀ fuel : Nat, n ≤ fuel → ∃ (tiles : List Tile) (r : Int × ProcState Int),
      visitedTiles (squareConfig 32 32 32 32 64 0)
          (rampFrame.width + (squareConfig 32 32 32 32 64 0).pad * 2)
          (rampFrame.height + (squareConfig 32 32 32 32 64 0).pad * 2) fuel = some tiles ∧
      process (identityPredictor (squareConfig 32 32 32 32 64 0) (floatFormat 1)) noBorder
          (floatFormat 1) rampFrame blankFrame (squareConfig 32 32 32 32 64 0)
          (fun _ => 0) (fun _ => 0) (fun _ => 0) fuel = some r ∧
      r.1 = 0 ∧ r.2.calls = 4 ∧ tiles.length = 4 ∧
      ∀ t ∈ tiles,
        patchInput (floatFormat 1) (squareConfig 32 32 32 32 64 0)
            (framePlanes noBorder (floatFormat 1) rampFrame (squareConfig 32 32 32 32 64 0)
              (fun _ => 0)) t (fun _ => 0) (((0 : Nat) : Int) * 32 * 32 + 1 * 32 + 2) =
          (t.sy + 1) * 64 + t.sx + 2 :=
  (extraction_channel_major (identityPredictor (squareConfig 32 32 32 32 64 0) (floatFormat 1))
    noBorder (floatFormat 1) rampFrame blankFrame (squareConfig 32 32 32 32 64 0)
    (fun _ => 0) (fun _ => 0) (fun _ => 0) ⟨rfl, rfl⟩
    (by decide) (by decide) (by decide) (by decide) (by decide) (by decide)).imp
    (fun _ h fuel hf =>
      (h fuel hf).imp (fun tiles h2 =>
        h2.imp (fun r hr =>
          have h0 : r.1 = 0 := hr.2.2.2.2.2.1.2 (fun _ _ _ => rfl)
          have hlen : tiles.length = 4 := hr.2.2.2.2.2.2.2.2
          ⟨hr.1, hr.2.1, h0, (hr.2.2.2.2.2.2.1 h0).1.trans hlen, hlen,
            fun t ht => (hr.2.2.2.1 t ht 0 1 2 (by decide) (by decide) (by decide) (by decide)
              (by decide)).trans (zero_add _)⟩)))

end VsMXNet
